import Mathlib

/-!
# Merging an MTA extension descriptor into an MTA descriptor

A shallow embedding of `mta/ext.go` (package `mta`) and theorems about it.

Conventions of the embedding:

* A Go `error` is an `Option String` holding the text of `err.Error()`; `none` is `nil`.
  `errors.Errorf(f, a...)` is `Errorf f a`, `errors.Wrapf(e, f, a...)` is `Wrapf e f a`,
  whose text is the formatted message, a colon and a blank, then the text of `e`.
* A format string that only uses the verb `%s` is kept as the list of its literal
  pieces, split at every `%s`.
* A value of type `interface{}` found in a decoded descriptor is a `Value`: the nil
  interface, a scalar, a slice, or a (non-nil) `map[string]interface{}`.
* A field of Go type `map[string]interface{}` is a `GoMap`: `none` is the nil map,
  `some t` a map whose entries are the pairs of `t`. Reading is by the first pair with
  the key, writing replaces that pair or adds a new one, so that a list stands for the
  finite map of its first occurrences.
* The iteration order of `for key, value := range ext` is the order of the pairs in the
  list that stands for `ext`; theorems quantify over every such list.
* Code that mutates through a pointer returns the new state next to the error, also
  when it fails, so that what a failed call leaves behind can be stated.
-/

namespace mta

/-! ## Errors and format strings -/

/-- The text produced by a format whose verbs are all `%s`: the pieces of the format
with the arguments in between. A verb without an argument prints as Go does. -/
def Sprintf : List String → List String → String
  | [], _ => ""
  | [s], _ => s
  | s :: rest, [] => s ++ "%!s(MISSING)" ++ Sprintf rest []
  | s :: rest, a :: args => s ++ a ++ Sprintf rest args

/-- The text of `errors.Errorf(format, args...)`. -/
def Errorf (format : List String) (args : List String) : String :=
  Sprintf format args

/-- The text of `errors.Wrapf(err, format, args...)` for a non-nil `err`. -/
def Wrapf (err : String) (format : List String) (args : List String) : String :=
  Sprintf format args ++ ": " ++ err

def mergeModulesErrorMsg : List String :=
  ["could not merge modules from MTA extension with ID \"", "\""]
def mergeResourcesErrorMsg : List String :=
  ["could not merge resources from MTA extension with ID \"", "\""]
def mergeRootParametersErrorMsg : List String :=
  ["could not merge parameters from MTA extension with ID \"", "\""]

def mergeModulePropertiesErrorMsg : List String :=
  ["could not merge the properties of the \"", "\" module"]
def mergeModuleParametersErrorMsg : List String :=
  ["could not merge the parameters of the \"", "\" module"]
def mergeModuleBuildParametersErrorMsg : List String :=
  ["could not merge the build parameters of the \"", "\" module"]
def mergeModuleIncludesErrorMsg : List String :=
  ["could not merge the includes of the \"", "\" module"]
def mergeModuleProvidesPropertiesErrorMsg : List String :=
  ["could not merge the properties of the \"", "\" provides in the \"", "\" module"]
def mergeModuleRequiresPropertiesErrorMsg : List String :=
  ["could not merge the properties of the \"", "\" requires in the \"", "\" module"]
def mergeModuleRequiresParametersErrorMsg : List String :=
  ["could not merge the parameters of the \"", "\" requires in the \"", "\" module"]
def mergeModuleHookParametersErrorMsg : List String :=
  ["could not merge the parameters of the \"", "\" hook in the \"", "\" module"]
def mergeModuleHookRequiresPropertiesErrorMsg : List String :=
  ["could not merge the properties of the \"", "\" requires in the \"",
   "\" hook of the \"", "\" module"]
def mergeModuleHookRequiresParametersErrorMsg : List String :=
  ["could not merge the parameters of the \"", "\" requires in the \"",
   "\" hook of the \"", "\" module"]
def unknownModuleHookRequiresErrorMsg : List String :=
  ["the \"", "\" requires in the \"", "\" hook of the \"",
   "\" module is defined in the MTA extension but not in the \"mta.yaml\" file"]
def unknownModuleProvidesErrorMsg : List String :=
  ["the \"", "\" provides in the \"",
   "\" module is defined in the MTA extension but not in the \"mta.yaml\" file"]
def unknownModuleRequiresErrorMsg : List String :=
  ["the \"", "\" requires in the \"",
   "\" module is defined in the MTA extension but not in the \"mta.yaml\" file"]
def unknownModuleHookErrorMsg : List String :=
  ["the \"", "\" hook in the \"",
   "\" module is defined in the MTA extension but not in the \"mta.yaml\" file"]
def unknownModuleErrorMsg : List String :=
  ["the \"", "\" module is defined in the MTA extension but not in the \"mta.yaml\" file"]

def mergeResourceActiveErrorMsg : List String :=
  ["could not merge the active property of the \"", "\" resource"]
def mergeResourcePropertiesErrorMsg : List String :=
  ["could not merge the properties of the \"", "\" resource"]
def mergeResourceParametersErrorMsg : List String :=
  ["could not merge the parameters of the \"", "\" resource"]
def mergeResourceRequiresPropertiesErrorMsg : List String :=
  ["could not merge the properties of the \"", "\" requires in the \"", "\" resource"]
def mergeResourceRequiresParametersErrorMsg : List String :=
  ["could not merge the parameters of the \"", "\" requires in the \"", "\" resource"]
def unknownResourceRequiresErrorMsg : List String :=
  ["the \"", "\" requires in the \"",
   "\" resource is defined in the MTA extension but not in the \"mta.yaml\" file"]
def unknownResourceErrorMsg : List String :=
  ["the \"", "\" resource is defined in the MTA extension but not in the \"mta.yaml\" file"]

def overwriteStructuredWithScalarErrorMsg : List String :=
  ["\"", "\": cannot overwrite a structured value with a scalar value"]
def overwriteScalarWithStructuredErrorMsg : List String :=
  ["\"", "\": cannot overwrite a scalar value with a structured value"]
def overwriteNonOverwritableErrorMsg : List String :=
  ["the \"", "\" field is not overwritable"]

/-- The format of the context that `mergeMapKey` puts around a nested error: the key
between double quotes. -/
def quotedKeyMsg : List String := ["\"", "\""]

/-! ## Dynamic values and maps -/

/-- A value of Go type `interface{}` in a decoded descriptor. `null` is the nil
interface; `map` is a non-nil `map[string]interface{}`, everything else is not
a map for the type assertion `.(map[string]interface{})`. -/
inductive Value where
  | null
  | bool (b : Bool)
  | num (n : Int)
  | str (s : String)
  | list (xs : List Value)
  | map (m : List (String × Value))

/-- The entries of a non-nil `map[string]interface{}`. -/
abbrev Table := List (String × Value)

/-- A field of type `map[string]interface{}`: `none` is the nil map. -/
abbrev GoMap := Option Table

/-- The test `v == nil` on an `interface{}`. -/
def Value.isNil : Value → Bool
  | .null => true
  | _ => false

/-- The second result of `v.(map[string]interface{})`. -/
def Value.isMap : Value → Bool
  | .map _ => true
  | _ => false

/-- The entry stored under `key`, if the key is present. -/
def Table.find? : Table → String → Option Value
  | [], _ => none
  | (k, v) :: t, key => if k = key then some v else Table.find? t key

/-- The Go expression `m[key]` on a non-nil map: nil for a key that is not there. -/
def Table.index (m : Table) (key : String) : Value :=
  (Table.find? m key).getD Value.null

/-- The Go statement `m[key] = value` on a non-nil map. -/
def Table.set : Table → String → Value → Table
  | [], key, value => [(key, value)]
  | (k, v) :: t, key, value =>
    if k = key then (k, value) :: t else (k, v) :: Table.set t key value

/-- The keys of a map, in the order of its list. -/
def Table.keys (m : Table) : List String := m.map Prod.fst

/-- The Go expression `m[key]` on a possibly nil map. -/
def GoMap.index (m : GoMap) (key : String) : Value :=
  match m with
  | none => Value.null
  | some t => Table.index t key

/-- The one field of `MetaData` that the merge reads. -/
structure MetaData where
  OverWritable : Bool
  deriving DecidableEq, Repr

/-- A `map[string]MetaData`, read by the first pair with the key. -/
abbrev MetaTable := List (String × MetaData)

/-- The Go expression `metaData, exists := meta[field]`. -/
def MetaTable.find? : MetaTable → String → Option MetaData
  | [], _ => none
  | (k, v) :: t, field => if k = field then some v else MetaTable.find? t field

/-! ## The generic map merger -/

/-- Go `isFieldOverWritable`: may `field` of the current map `m` be overwritten. -/
def isFieldOverWritable (field : String) (meta : Option MetaTable) (m : GoMap) : Bool :=
  match meta with
  | some table =>
    if !(GoMap.index m field).isNil then
      match MetaTable.find? table field with
      | some metaData => metaData.OverWritable
      | none => true
    else true
  | none => true

mutual
/-- The loop `for key, value := range ext` of Go `extendMap`, on a non-nil `*m`. The
result is the map as the loop leaves it and the error returned, if any. -/
def extendMapLoop (m : Table) (meta : Option MetaTable) :
    Table → Table × Option String
  | [] => (m, none)
  | (key, value) :: rest =>
    if isFieldOverWritable key meta (some m) then
      match mergeMapKey m key value with
      | (m1, none) => extendMapLoop m1 meta rest
      | (m1, some err) => (m1, some err)
    else
      (m, some (Errorf overwriteNonOverwritableErrorMsg [key]))
/-- Go `mergeMapKey` on a non-nil `*m` (its only caller has made it so). The nested
call `extendMap(&mMapValue, nil, extMapValue)` has both maps non-nil, so it is the
loop; it mutates the map stored under `key` in place, also when it fails. -/
def mergeMapKey (m : Table) (key : String) (value : Value) : Table × Option String :=
  if (Table.index m key).isNil || value.isNil ||
      (!value.isMap && !(Table.index m key).isMap) then
    (Table.set m key value, none)
  else if (Table.index m key).isMap && value.isMap then
    match Table.index m key, value with
    | .map mMapValue, .map extMapValue =>
      match extendMapLoop mMapValue none extMapValue with
      | (r, none) => (Table.set m key (.map r), none)
      | (r, some err) => (Table.set m key (.map r), some (Wrapf err quotedKeyMsg [key]))
    | _, _ => (m, none)
  else if (Table.index m key).isMap then
    (m, some (Errorf overwriteStructuredWithScalarErrorMsg [key]))
  else
    (m, some (Errorf overwriteScalarWithStructuredErrorMsg [key]))
end

/-- Go `extendMap`: extends the map `*m` with the elements of `ext`. -/
def extendMap (m : GoMap) (meta : Option MetaTable) (ext : GoMap) :
    GoMap × Option String :=
  match ext with
  | none => (m, none)
  | some e =>
    let r := extendMapLoop (m.getD []) meta e
    (some r.1, r.2)

/-! ## Scalar field mergers -/

/-- An entry of an `includes` list; the merge never looks inside it. -/
structure Includes where
  Name : String
  Path : String
  deriving DecidableEq, Repr

/-- Go `extendIncludes`: `none` is the nil slice. -/
def extendIncludes (m : Option (List Includes)) (ext : Option (List Includes)) :
    Option (List Includes) :=
  match ext with
  | some e => some (m.getD [] ++ e)
  | none => m

/-- Go `extendBool`: `ext` is the pointer argument, `none` the nil pointer. -/
def extendBool (m : Bool) (ext : Option Bool) : Bool :=
  match ext with
  | some b => b
  | none => m

/-! ## The fail-fast chain -/

/-- Go `chainError`: the error slot of a chain of merge steps. -/
structure chainError where
  err : Option String
  deriving DecidableEq, Repr

/-- Go `chain()`. -/
def chain : chainError := { err := none }

/-- Go `(*chainError).extendMap`: the chain and the map `*m` after the step. -/
def chainError.extendMap (v : chainError) (m : GoMap) (meta : Option MetaTable)
    (ext : GoMap) (msg : List String) (args : List String) : chainError × GoMap :=
  match v.err with
  | some _ => (v, m)
  | none =>
    match mta.extendMap m meta ext with
    | (m1, some err) => ({ err := some (Wrapf err msg args) }, m1)
    | (m1, none) => (v, m1)

/-- Go `(*chainError).extendIncludes`; the message is never used. -/
def chainError.extendIncludes (v : chainError) (m : Option (List Includes))
    (ext : Option (List Includes)) (_msg : List String) (_args : List String) :
    chainError × Option (List Includes) :=
  match v.err with
  | some _ => (v, m)
  | none => (v, mta.extendIncludes m ext)

/-- Go `(*chainError).extendBool`; the message is never used. -/
def chainError.extendBool (v : chainError) (m : Bool) (ext : Option Bool)
    (_msg : List String) (_args : List String) : chainError × Bool :=
  match v.err with
  | some _ => (v, m)
  | none => (v, mta.extendBool m ext)

/-! ## The descriptor and its extension

The type declarations are not part of `ext.go`; the structures below hold the fields
that `ext.go` reads and writes, with the types that its calls force. A list of
entities stands for a Go slice of distinct, non-nil objects. -/

/-- A required interface. The extension uses the same type: `mergeRequires` takes
`[]Requires`. -/
structure Requires where
  Name : String
  Properties : GoMap
  PropertiesMetaData : Option MetaTable
  Parameters : GoMap
  ParametersMetaData : Option MetaTable

/-- A provided interface of a module. -/
structure Provides where
  Name : String
  Properties : GoMap
  PropertiesMetaData : Option MetaTable

/-- A hook of a module. -/
structure Hook where
  Name : String
  Parameters : GoMap
  ParametersMetaData : Option MetaTable
  Requires : List Requires

/-- A module of the descriptor. -/
structure Module where
  Name : String
  Properties : GoMap
  PropertiesMetaData : Option MetaTable
  Parameters : GoMap
  ParametersMetaData : Option MetaTable
  BuildParams : GoMap
  Includes : Option (List Includes)
  Provides : List Provides
  Requires : List Requires
  Hooks : List Hook

/-- A resource of the descriptor. `Active` is a plain `bool`: `mergeResources` passes
`&resource.Active` for a parameter of type `*bool`. -/
structure Resource where
  Name : String
  Active : Bool
  Properties : GoMap
  PropertiesMetaData : Option MetaTable
  Parameters : GoMap
  ParametersMetaData : Option MetaTable
  Requires : List Requires

/-- The descriptor (`mta.yaml`). -/
structure MTA where
  ID : String
  Parameters : GoMap
  ParametersMetaData : Option MetaTable
  Modules : List Module
  Resources : List Resource

/-- An entry of the `provides` of a module of the extension. -/
structure ProvidesExt where
  Name : String
  Properties : GoMap

/-- An entry of the `hooks` of a module of the extension. -/
structure HookExt where
  Name : String
  Parameters : GoMap
  Requires : List Requires

/-- A module entry of the extension. -/
structure ModuleExt where
  Name : String
  Properties : GoMap
  Parameters : GoMap
  BuildParams : GoMap
  Includes : Option (List Includes)
  Provides : List ProvidesExt
  Requires : List Requires
  Hooks : List HookExt

/-- A resource entry of the extension. `Active` is a plain `bool`: `mergeResources`
passes `&extResource.Active` for a parameter of type `*bool`, so an entry that gives
no `active` holds the zero value `false`. -/
structure ResourceExt where
  Name : String
  Active : Bool
  Properties : GoMap
  Parameters : GoMap
  Requires : List Requires

/-- The extension descriptor. -/
structure EXT where
  ID : String
  Parameters : GoMap
  Modules : List ModuleExt
  Resources : List ResourceExt

/-! ## Entity lookup by name -/

/-- Modelled from the spec: the lookups `GetModuleByName`, `GetResourceByName`,
`GetProvidesByName`, `GetRequiresByName` and `GetHookByName` are not in `ext.go`.
Section 4.4: a linear lookup by exact, case-sensitive name; this is the first entity
of the collection with the name. -/
def findByName {α : Type} (nameOf : α → String) (name : String) : List α → Option α
  | [] => none
  | x :: xs => if nameOf x = name then some x else findByName nameOf name xs

/-- Modelled from the spec: a lookup returns a pointer into the descriptor and the
merge writes through it (section 3: the base document is mutated in place). This
stores the new state `new` of the entity that `findByName` returns for `name`. -/
def storeByName {α : Type} (nameOf : α → String) (name : String) (new : α) :
    List α → List α
  | [] => []
  | x :: xs =>
    if nameOf x = name then new :: xs else x :: storeByName nameOf name new xs

/-- Modelled from the spec: the text of the error of `GetModuleByName`, which is not
in `ext.go` and of which the spec says nothing; no theorem depends on it. -/
def moduleNotDefinedMsg : List String := ["the \"", "\" module is not defined"]

/-- Modelled from the spec: the text of the error of `GetResourceByName`, which is not
in `ext.go` and of which the spec says nothing; no theorem depends on it. -/
def resourceNotDefinedMsg : List String := ["the \"", "\" resource is not defined"]

/-- Modelled from the spec: `GetModuleByName` (section 4.4), with an error when no
module has the name. -/
def MTA.GetModuleByName (mtaObj : MTA) (name : String) : Except String Module :=
  match findByName Module.Name name mtaObj.Modules with
  | some module => .ok module
  | none => .error (Errorf moduleNotDefinedMsg [name])

/-- Modelled from the spec: `GetResourceByName` (section 4.4), with an error when no
resource has the name. -/
def MTA.GetResourceByName (mtaObj : MTA) (name : String) : Except String Resource :=
  match findByName Resource.Name name mtaObj.Resources with
  | some resource => .ok resource
  | none => .error (Errorf resourceNotDefinedMsg [name])

/-- Modelled from the spec: `GetProvidesByName` (section 4.4); `none` is nil. -/
def Module.GetProvidesByName (module : Module) (name : String) : Option mta.Provides :=
  findByName mta.Provides.Name name module.Provides

/-- Modelled from the spec: `GetHookByName` (section 4.4); `none` is nil. -/
def Module.GetHookByName (module : Module) (name : String) : Option mta.Hook :=
  findByName mta.Hook.Name name module.Hooks

/-- Modelled from the spec: `GetRequiresByName` of a module, a resource or a hook
(section 4.4), on the list of required interfaces of its owner; `none` is nil. -/
def GetRequiresByName (requires : List Requires) (name : String) : Option Requires :=
  findByName Requires.Name name requires

/-! ## The entity-tree merge -/

set_option linter.dupNamespace false in
/-- Go `msg`: a format and the arguments that follow the ones prepended later. -/
structure msg where
  msg : List String
  args : List String

/-- Go `msg.getArgs`. -/
def msg.getArgs (m : mta.msg) (prependArgs : List String) : List String :=
  prependArgs ++ m.args

/-- The chain that `mergeRequires` runs on the required interface `requires` found in
the descriptor, for the entry `extRequires` of the extension. -/
def mergeRequiresFields (requires extRequires : Requires)
    (mergePropertiesMsg mergeParametersMsg : msg) : Requires × Option String :=
  let s1 := chain.extendMap requires.Properties requires.PropertiesMetaData
    extRequires.Properties mergePropertiesMsg.msg
    (mergePropertiesMsg.getArgs [requires.Name])
  let s2 := s1.1.extendMap requires.Parameters requires.ParametersMetaData
    extRequires.Parameters mergeParametersMsg.msg
    (mergeParametersMsg.getArgs [requires.Name])
  ({ requires with Properties := s1.2, Parameters := s2.2 }, s2.1.err)

/-- Go `mergeRequires`. The provider (a module, a resource or a hook) is given by its
list of required interfaces, which is all that `GetRequiresByName` reads and all that
the merge writes; the result is that list after the call and the error. -/
def mergeRequires (requires : List Requires) (extRequiresProvider : List Requires)
    (unknownRequiresMsg mergePropertiesMsg mergeParametersMsg : msg) :
    List Requires × Option String :=
  match requires with
  | [] => (extRequiresProvider, none)
  | extRequires :: rest =>
    match GetRequiresByName extRequiresProvider extRequires.Name with
    | some found =>
      let r := mergeRequiresFields found extRequires mergePropertiesMsg mergeParametersMsg
      let provider1 := storeByName Requires.Name extRequires.Name r.1 extRequiresProvider
      match r.2 with
      | some err => (provider1, some err)
      | none =>
        mergeRequires rest provider1 unknownRequiresMsg mergePropertiesMsg
          mergeParametersMsg
    | none =>
      (extRequiresProvider,
        some (Errorf unknownRequiresMsg.msg (unknownRequiresMsg.getArgs [extRequires.Name])))

/-- The chain that `mergeModuleProvides` runs on the provided interface `provide`
found in the module, for the entry `extProvide` of the extension. -/
def mergeProvide (provide : Provides) (extProvide : ProvidesExt) (module : Module) :
    Provides × Option String :=
  let s := chain.extendMap provide.Properties provide.PropertiesMetaData
    extProvide.Properties mergeModuleProvidesPropertiesErrorMsg
    [provide.Name, module.Name]
  ({ provide with Properties := s.2 }, s.1.err)

/-- The loop of Go `mergeModuleProvides` over the entries that are still to come. -/
def mergeModuleProvidesLoop (module : Module) (extModule : ModuleExt) :
    List ProvidesExt → Module × Option String
  | [] => (module, none)
  | extProvide :: rest =>
    match module.GetProvidesByName extProvide.Name with
    | some provide =>
      let r := mergeProvide provide extProvide module
      let module1 := { module with
        Provides := storeByName Provides.Name extProvide.Name r.1 module.Provides }
      match r.2 with
      | some err => (module1, some err)
      | none => mergeModuleProvidesLoop module1 extModule rest
    | none =>
      (module, some (Errorf unknownModuleProvidesErrorMsg [extProvide.Name, extModule.Name]))

/-- Go `mergeModuleProvides`. -/
def mergeModuleProvides (module : Module) (extModule : ModuleExt) :
    Module × Option String :=
  mergeModuleProvidesLoop module extModule extModule.Provides

/-- The body of the loop of Go `mergeModuleHooks` for a hook found in the module. -/
def mergeHook (hook : Hook) (extHook : HookExt) (module : Module)
    (extModule : ModuleExt) : Hook × Option String :=
  let s := chain.extendMap hook.Parameters hook.ParametersMetaData extHook.Parameters
    mergeModuleHookParametersErrorMsg [hook.Name, module.Name]
  let hook1 := { hook with Parameters := s.2 }
  match s.1.err with
  | some err => (hook1, some err)
  | none =>
    let r := mergeRequires extHook.Requires hook1.Requires
      ⟨unknownModuleHookRequiresErrorMsg, [extHook.Name, extModule.Name]⟩
      ⟨mergeModuleHookRequiresPropertiesErrorMsg, [hook.Name, module.Name]⟩
      ⟨mergeModuleHookRequiresParametersErrorMsg, [hook.Name, module.Name]⟩
    ({ hook1 with Requires := r.1 }, r.2)

/-- The loop of Go `mergeModuleHooks` over the entries that are still to come. -/
def mergeModuleHooksLoop (module : Module) (extModule : ModuleExt) :
    List HookExt → Module × Option String
  | [] => (module, none)
  | extHook :: rest =>
    match module.GetHookByName extHook.Name with
    | some hook =>
      let r := mergeHook hook extHook module extModule
      let module1 := { module with
        Hooks := storeByName Hook.Name extHook.Name r.1 module.Hooks }
      match r.2 with
      | some err => (module1, some err)
      | none => mergeModuleHooksLoop module1 extModule rest
    | none =>
      (module, some (Errorf unknownModuleHookErrorMsg [extHook.Name, extModule.Name]))

/-- Go `mergeModuleHooks`. -/
def mergeModuleHooks (module : Module) (extModule : ModuleExt) :
    Module × Option String :=
  mergeModuleHooksLoop module extModule extModule.Hooks

/-- The chain that `mergeModules` runs on the module `module` found in the
descriptor, for the entry `extModule` of the extension. -/
def mergeModuleFields (module : Module) (extModule : ModuleExt) :
    Module × Option String :=
  let s1 := chain.extendMap module.Properties module.PropertiesMetaData
    extModule.Properties mergeModulePropertiesErrorMsg [module.Name]
  let s2 := s1.1.extendMap module.Parameters module.ParametersMetaData
    extModule.Parameters mergeModuleParametersErrorMsg [module.Name]
  let s3 := s2.1.extendMap module.BuildParams none
    extModule.BuildParams mergeModuleBuildParametersErrorMsg [module.Name]
  let s4 := s3.1.extendIncludes module.Includes extModule.Includes
    mergeModuleIncludesErrorMsg [module.Name]
  ({ module with
      Properties := s1.2, Parameters := s2.2, BuildParams := s3.2, Includes := s4.2 },
    s4.1.err)

/-- The call of `mergeRequires` that `mergeModules` makes for the module `module`
found in the descriptor; `module.Name` is read on the object as it is then. -/
def mergeModuleRequires (module : Module) (extModule : ModuleExt) :
    Module × Option String :=
  let r := mergeRequires extModule.Requires module.Requires
    ⟨unknownModuleRequiresErrorMsg, [extModule.Name]⟩
    ⟨mergeModuleRequiresPropertiesErrorMsg, [module.Name]⟩
    ⟨mergeModuleRequiresParametersErrorMsg, [module.Name]⟩
  ({ module with Requires := r.1 }, r.2)

/-- The Go idiom `if err != nil { return err }` between two steps on the same object:
`next` runs on what the first step leaves, and only if the first step did not fail. -/
def andThen {α : Type} (r : α × Option String) (next : α → α × Option String) :
    α × Option String :=
  match r.2 with
  | some err => (r.1, some err)
  | none => next r.1

/-- The body of the loop of Go `mergeModules` for a module found in the descriptor:
the chain on its fields, then its provided interfaces, its required interfaces and
its hooks, returning at the first error. -/
def mergeModule (module : Module) (extModule : ModuleExt) : Module × Option String :=
  andThen
    (andThen
      (andThen (mergeModuleFields module extModule)
        (fun module1 => mergeModuleProvides module1 extModule))
      (fun module2 => mergeModuleRequires module2 extModule))
    (fun module3 => mergeModuleHooks module3 extModule)

/-- Go `mergeModules`: the rules of merging modules. -/
def mergeModules (mtaObj : MTA) : List ModuleExt → MTA × Option String
  | [] => (mtaObj, none)
  | extModule :: rest =>
    match mtaObj.GetModuleByName extModule.Name with
    | .ok module =>
      let r := mergeModule module extModule
      let mtaObj1 := { mtaObj with
        Modules := storeByName Module.Name extModule.Name r.1 mtaObj.Modules }
      match r.2 with
      | some err => (mtaObj1, some err)
      | none => mergeModules mtaObj1 rest
    | .error err => (mtaObj, some (Wrapf err unknownModuleErrorMsg [extModule.Name]))

/-- The chain that `mergeResources` runs on the resource `resource` found in the
descriptor, for the entry `extResource` of the extension. The second argument of
`extendBool` is `&extResource.Active`, the address of a field, which is never nil. -/
def mergeResourceFields (resource : Resource) (extResource : ResourceExt) :
    Resource × Option String :=
  let s1 := chain.extendBool resource.Active (some extResource.Active)
    mergeResourceActiveErrorMsg [resource.Name]
  let s2 := s1.1.extendMap resource.Properties resource.PropertiesMetaData
    extResource.Properties mergeResourcePropertiesErrorMsg [resource.Name]
  let s3 := s2.1.extendMap resource.Parameters resource.ParametersMetaData
    extResource.Parameters mergeResourceParametersErrorMsg [resource.Name]
  ({ resource with Active := s1.2, Properties := s2.2, Parameters := s3.2 }, s3.1.err)

/-- The body of the loop of Go `mergeResources` for a resource found in the
descriptor. -/
def mergeResource (resource : Resource) (extResource : ResourceExt) :
    Resource × Option String :=
  let r1 := mergeResourceFields resource extResource
  match r1.2 with
  | some err => (r1.1, some err)
  | none =>
    let r := mergeRequires extResource.Requires r1.1.Requires
      ⟨unknownResourceRequiresErrorMsg, [extResource.Name]⟩
      ⟨mergeResourceRequiresPropertiesErrorMsg, [resource.Name]⟩
      ⟨mergeResourceRequiresParametersErrorMsg, [resource.Name]⟩
    ({ r1.1 with Requires := r.1 }, r.2)

/-- Go `mergeResources`: the rules of merging resources. -/
def mergeResources (mtaObj : MTA) : List ResourceExt → MTA × Option String
  | [] => (mtaObj, none)
  | extResource :: rest =>
    match mtaObj.GetResourceByName extResource.Name with
    | .ok resource =>
      let r := mergeResource resource extResource
      let mtaObj1 := { mtaObj with
        Resources := storeByName Resource.Name extResource.Name r.1 mtaObj.Resources }
      match r.2 with
      | some err => (mtaObj1, some err)
      | none => mergeResources mtaObj1 rest
    | .error err => (mtaObj, some (Wrapf err unknownResourceErrorMsg [extResource.Name]))

/-- The chain that `Merge` runs first, on the root parameters. -/
def mergeRootParameters (mtaObj : MTA) (mtaExt : EXT) : MTA × Option String :=
  let s := chain.extendMap mtaObj.Parameters mtaObj.ParametersMetaData mtaExt.Parameters
    mergeRootParametersErrorMsg [mtaExt.ID]
  ({ mtaObj with Parameters := s.2 }, s.1.err)

/-- Go `Merge`: merges the extension `mtaExt` into the descriptor `mtaObj`; the result
is the descriptor after the call and the error. -/
def Merge (mtaObj : MTA) (mtaExt : EXT) : MTA × Option String :=
  let r1 := mergeRootParameters mtaObj mtaExt
  match r1.2 with
  | some err => (r1.1, some err)
  | none =>
    let r2 := mergeModules r1.1 mtaExt.Modules
    match r2.2 with
    | some err => (r2.1, some (Wrapf err mergeModulesErrorMsg [mtaExt.ID]))
    | none =>
      let r3 := mergeResources r2.1 mtaExt.Resources
      match r3.2 with
      | some err => (r3.1, some (Wrapf err mergeResourcesErrorMsg [mtaExt.ID]))
      | none => (r3.1, none)

/-! ## The named entities of a descriptor -/

/-- The names that a hook carries: its own and those of its required interfaces. -/
def Hook.names (hook : Hook) : String × List String :=
  (hook.Name, hook.Requires.map mta.Requires.Name)

/-- The names that a module carries: its own, those of its provided and required
interfaces, and those of its hooks. -/
def Module.names (module : Module) :
    String × List String × List String × List (String × List String) :=
  (module.Name, module.Provides.map mta.Provides.Name,
    module.Requires.map mta.Requires.Name, module.Hooks.map mta.Hook.names)

/-- The names that a resource carries: its own and those of its required
interfaces. -/
def Resource.names (resource : Resource) : String × List String :=
  (resource.Name, resource.Requires.map mta.Requires.Name)

/-- `UnknownEntity B E E1 step text`: the extension `E` names, at one place, an entity
that the descriptor `B` does not have by that exact name in the collection where the
merge looks for it; `E1` is `E` without that one entry; `step` is the message of the
step of `Merge` that visits the place and `text` the message for the entity. The
places are: a module, a provided interface of a module, a required interface of a
module, a hook of a module, a required interface of a hook, a resource, a required
interface of a resource. -/
inductive UnknownEntity (B : MTA) : EXT → EXT → List String → String → Prop
  | module (id : String) (ps : GoMap) (mpre mpost : List ModuleExt)
      (rs : List ResourceExt) (M : ModuleExt)
      (hname : M.Name ∉ B.Modules.map Module.Name) :
      UnknownEntity B ⟨id, ps, mpre ++ M :: mpost, rs⟩ ⟨id, ps, mpre ++ mpost, rs⟩
        mergeModulesErrorMsg (Sprintf unknownModuleErrorMsg [M.Name])
  | moduleProvides (id : String) (ps : GoMap) (mpre mpost : List ModuleExt)
      (rs : List ResourceExt) (M : ModuleExt) (bm : Module)
      (ppre ppost : List ProvidesExt) (p : ProvidesExt)
      (hbm : findByName Module.Name M.Name B.Modules = some bm)
      (hM : M.Provides = ppre ++ p :: ppost)
      (hname : p.Name ∉ bm.Provides.map Provides.Name) :
      UnknownEntity B ⟨id, ps, mpre ++ M :: mpost, rs⟩
        ⟨id, ps, mpre ++ { M with Provides := ppre ++ ppost } :: mpost, rs⟩
        mergeModulesErrorMsg (Sprintf unknownModuleProvidesErrorMsg [p.Name, M.Name])
  | moduleRequires (id : String) (ps : GoMap) (mpre mpost : List ModuleExt)
      (rs : List ResourceExt) (M : ModuleExt) (bm : Module)
      (qpre qpost : List Requires) (q : Requires)
      (hbm : findByName Module.Name M.Name B.Modules = some bm)
      (hM : M.Requires = qpre ++ q :: qpost)
      (hname : q.Name ∉ bm.Requires.map Requires.Name) :
      UnknownEntity B ⟨id, ps, mpre ++ M :: mpost, rs⟩
        ⟨id, ps, mpre ++ { M with Requires := qpre ++ qpost } :: mpost, rs⟩
        mergeModulesErrorMsg (Sprintf unknownModuleRequiresErrorMsg [q.Name, M.Name])
  | moduleHook (id : String) (ps : GoMap) (mpre mpost : List ModuleExt)
      (rs : List ResourceExt) (M : ModuleExt) (bm : Module)
      (hpre hpost : List HookExt) (H : HookExt)
      (hbm : findByName Module.Name M.Name B.Modules = some bm)
      (hM : M.Hooks = hpre ++ H :: hpost)
      (hname : H.Name ∉ bm.Hooks.map Hook.Name) :
      UnknownEntity B ⟨id, ps, mpre ++ M :: mpost, rs⟩
        ⟨id, ps, mpre ++ { M with Hooks := hpre ++ hpost } :: mpost, rs⟩
        mergeModulesErrorMsg (Sprintf unknownModuleHookErrorMsg [H.Name, M.Name])
  | moduleHookRequires (id : String) (ps : GoMap) (mpre mpost : List ModuleExt)
      (rs : List ResourceExt) (M : ModuleExt) (bm : Module)
      (hpre hpost : List HookExt) (H : HookExt) (bh : Hook)
      (qpre qpost : List Requires) (q : Requires)
      (hbm : findByName Module.Name M.Name B.Modules = some bm)
      (hM : M.Hooks = hpre ++ H :: hpost)
      (hbh : findByName Hook.Name H.Name bm.Hooks = some bh)
      (hH : H.Requires = qpre ++ q :: qpost)
      (hname : q.Name ∉ bh.Requires.map Requires.Name) :
      UnknownEntity B ⟨id, ps, mpre ++ M :: mpost, rs⟩
        ⟨id, ps,
          mpre ++ { M with
            Hooks := hpre ++ { H with Requires := qpre ++ qpost } :: hpost } :: mpost, rs⟩
        mergeModulesErrorMsg
        (Sprintf unknownModuleHookRequiresErrorMsg [q.Name, H.Name, M.Name])
  | resource (id : String) (ps : GoMap) (ms : List ModuleExt)
      (rpre rpost : List ResourceExt) (R : ResourceExt)
      (hname : R.Name ∉ B.Resources.map Resource.Name) :
      UnknownEntity B ⟨id, ps, ms, rpre ++ R :: rpost⟩ ⟨id, ps, ms, rpre ++ rpost⟩
        mergeResourcesErrorMsg (Sprintf unknownResourceErrorMsg [R.Name])
  | resourceRequires (id : String) (ps : GoMap) (ms : List ModuleExt)
      (rpre rpost : List ResourceExt) (R : ResourceExt) (br : Resource)
      (qpre qpost : List Requires) (q : Requires)
      (hbr : findByName Resource.Name R.Name B.Resources = some br)
      (hR : R.Requires = qpre ++ q :: qpost)
      (hname : q.Name ∉ br.Requires.map Requires.Name) :
      UnknownEntity B ⟨id, ps, ms, rpre ++ R :: rpost⟩
        ⟨id, ps, ms, rpre ++ { R with Requires := qpre ++ qpost } :: rpost⟩
        mergeResourcesErrorMsg (Sprintf unknownResourceRequiresErrorMsg [q.Name, R.Name])

/-! ## Chains of steps, key paths and maps with distinct keys -/

/-- A step of a chain, with the target it works on: a call of `extendMap`,
`extendIncludes` or `extendBool` on a `chainError`. -/
inductive chainStep where
  | extendMap (m : GoMap) (meta : Option MetaTable) (ext : GoMap)
      (msg : List String) (args : List String)
  | extendIncludes (m : Option (List Includes)) (ext : Option (List Includes))
      (msg : List String) (args : List String)
  | extendBool (m : Bool) (ext : Option Bool) (msg : List String) (args : List String)

/-- The step called on the chain `v`: the chain after the call and the step with its
target as the call leaves it. -/
def chainStep.run (v : chainError) : chainStep → chainError × chainStep
  | .extendMap m meta ext msg args =>
    ((v.extendMap m meta ext msg args).1,
      .extendMap (v.extendMap m meta ext msg args).2 meta ext msg args)
  | .extendIncludes m ext msg args =>
    ((v.extendIncludes m ext msg args).1,
      .extendIncludes (v.extendIncludes m ext msg args).2 ext msg args)
  | .extendBool m ext msg args =>
    ((v.extendBool m ext msg args).1,
      .extendBool (v.extendBool m ext msg args).2 ext msg args)

/-- The steps called one after the other on the chain `v`, as in
`chain().extendMap(...).extendMap(...).err`: the chain at the end and the steps with
their targets as the calls leave them. -/
def runChain (v : chainError) : List chainStep → chainError × List chainStep
  | [] => (v, [])
  | s :: rest =>
    ((runChain (s.run v).1 rest).1, (s.run v).2 :: (runChain (s.run v).1 rest).2)

/-- The error that a step gives when it is the one that fails: the error of
`extendMap` on its target with the message of the step in front; the two other kinds
of step never fail. -/
def chainStep.failure : chainStep → Option String
  | .extendMap m meta ext msg args =>
    (mta.extendMap m meta ext).2.map (fun err => Wrapf err msg args)
  | .extendIncludes _ _ _ _ => none
  | .extendBool _ _ _ _ => none

/-- The text of a leaf error below the keys of `path`: every key between double
quotes, followed by a colon and a blank, then the leaf. -/
def keyPathText : List String → String → String
  | [], leaf => leaf
  | k :: path, leaf => "\"" ++ k ++ "\": " ++ keyPathText path leaf

mutual
/-- A value in which every mapping, at every depth, has pairwise distinct keys, as
every Go map has. -/
def Value.distinctKeys : Value → Bool
  | .map m => Table.distinctKeys m
  | _ => true
/-- A map with pairwise distinct keys whose values have distinct keys as well. -/
def Table.distinctKeys : Table → Bool
  | [] => true
  | (k, v) :: rest =>
    !(rest.map Prod.fst).contains k && Value.distinctKeys v && Table.distinctKeys rest
end

/-! ## The loops over the entries of an extension -/

/-- The shape that the five loops of `ext.go` over the entries of an extension share
(`mergeModules`, `mergeResources`, `mergeModuleProvides`, `mergeModuleHooks` and
`mergeRequires`): for every entry in order, the entity is looked up by the name of the
entry; when there is none the loop returns the error `unknown`; else `body` merges
the entry into the entity found, through the pointer that the lookup returned, and
the loop returns the error of `body`, if any. -/
def loopByName {α ε : Type} (nameOf : α → String) (entryName : ε → String)
    (body : α → ε → α × Option String) (unknown : ε → String) :
    List α → List ε → List α × Option String
  | base, [] => (base, none)
  | base, e :: rest =>
    match findByName nameOf (entryName e) base with
    | some found =>
      match (body found e).2 with
      | some err => (storeByName nameOf (entryName e) (body found e).1 base, some err)
      | none =>
        loopByName nameOf entryName body unknown
          (storeByName nameOf (entryName e) (body found e).1 base) rest
    | none => (base, some (unknown e))

/-! ## The places where a run can fail -/

/-- A place where a merge can fail: a step of a chain, or a lookup by name that finds
nothing, with the error that the caller of the lookup returns for it. -/
inductive failurePoint where
  | step (s : chainStep)
  | lookup (err : String)

/-- The error that a place gives when it is the one that fails. -/
def failurePoint.failure : failurePoint → Option String
  | .step s => s.failure
  | .lookup err => some err

/-- `LoopReaches nameOf entryName body unknown reaches base entries point`: the loop
over `entries` on the entities `base` comes to the place `point` with no error before
it. The place is the lookup for the first entry, which finds nothing (`unknown`); or
it is met for the first entry, on the entity found for it (`here`); or the first entry
merges without an error and the loop comes to the place on what that merge leaves
(`later`). `reaches found e point` says that the body of the loop, for the entity
`found` and the entry `e`, comes to `point`. -/
inductive LoopReaches {α ε : Type} (nameOf : α → String) (entryName : ε → String)
    (body : α → ε → α × Option String) (unknown : ε → String)
    (reaches : α → ε → failurePoint → Prop) :
    List α → List ε → failurePoint → Prop
  | unknown (base : List α) (e : ε) (rest : List ε)
      (hfind : findByName nameOf (entryName e) base = none) :
      LoopReaches nameOf entryName body unknown reaches base (e :: rest)
        (.lookup (unknown e))
  | here (base : List α) (e : ε) (rest : List ε) (found : α) (point : failurePoint)
      (hfind : findByName nameOf (entryName e) base = some found)
      (hpoint : reaches found e point) :
      LoopReaches nameOf entryName body unknown reaches base (e :: rest) point
  | later (base : List α) (e : ε) (rest : List ε) (found : α) (point : failurePoint)
      (hfind : findByName nameOf (entryName e) base = some found)
      (hok : (body found e).2 = none)
      (hrest : LoopReaches nameOf entryName body unknown reaches
        (storeByName nameOf (entryName e) (body found e).1 base) rest point) :
      LoopReaches nameOf entryName body unknown reaches base (e :: rest) point

/-- The places that the chain of `mergeRequires` comes to, for the required interface
`requires` found in the descriptor and the entry `extRequires`: the merge of the
properties; and, when that does not fail, the merge of the parameters. -/
inductive RequiresReaches (requires extRequires : Requires)
    (mergePropertiesMsg mergeParametersMsg : msg) : failurePoint → Prop
  | properties :
      RequiresReaches requires extRequires mergePropertiesMsg mergeParametersMsg
        (.step (.extendMap requires.Properties requires.PropertiesMetaData
          extRequires.Properties mergePropertiesMsg.msg
          (mergePropertiesMsg.getArgs [requires.Name])))
  | parameters
      (hproperties : (extendMap requires.Properties requires.PropertiesMetaData
        extRequires.Properties).2 = none) :
      RequiresReaches requires extRequires mergePropertiesMsg mergeParametersMsg
        (.step (.extendMap requires.Parameters requires.ParametersMetaData
          extRequires.Parameters mergeParametersMsg.msg
          (mergeParametersMsg.getArgs [requires.Name])))

/-- The place that the chain of `mergeModuleProvides` comes to, for the provided
interface `provide` found in the module and the entry `extProvide`: the merge of the
properties. -/
inductive ProvideReaches (provide : Provides) (extProvide : ProvidesExt)
    (module : Module) : failurePoint → Prop
  | properties :
      ProvideReaches provide extProvide module
        (.step (.extendMap provide.Properties provide.PropertiesMetaData
          extProvide.Properties mergeModuleProvidesPropertiesErrorMsg
          [provide.Name, module.Name]))

/-- The places that the body of the loop of `mergeModuleHooks` comes to, for the hook
`hook` found in the module and the entry `extHook`: the merge of the parameters; and,
when that does not fail, the places of `mergeRequires` on the required interfaces of
the hook. -/
inductive HookReaches (hook : Hook) (extHook : HookExt) (module : Module)
    (extModule : ModuleExt) : failurePoint → Prop
  | parameters :
      HookReaches hook extHook module extModule
        (.step (.extendMap hook.Parameters hook.ParametersMetaData extHook.Parameters
          mergeModuleHookParametersErrorMsg [hook.Name, module.Name]))
  | requires (point : failurePoint)
      (hparameters : (extendMap hook.Parameters hook.ParametersMetaData
        extHook.Parameters).2 = none)
      (hloop : LoopReaches Requires.Name Requires.Name
        (fun found e => mergeRequiresFields found e
          ⟨mergeModuleHookRequiresPropertiesErrorMsg, [hook.Name, module.Name]⟩
          ⟨mergeModuleHookRequiresParametersErrorMsg, [hook.Name, module.Name]⟩)
        (fun e => Errorf unknownModuleHookRequiresErrorMsg
          [e.Name, extHook.Name, extModule.Name])
        (fun found e => RequiresReaches found e
          ⟨mergeModuleHookRequiresPropertiesErrorMsg, [hook.Name, module.Name]⟩
          ⟨mergeModuleHookRequiresParametersErrorMsg, [hook.Name, module.Name]⟩)
        hook.Requires extHook.Requires point) :
      HookReaches hook extHook module extModule point

/-- The places that the body of the loop of `mergeModules` comes to, for the module
`module` found in the descriptor and the entry `extModule`: the merges of the
properties, of the parameters and of the build parameters, each when the ones before
it do not fail; then, each when all that comes before it does not fail, the places for
the provided interfaces, for the required interfaces and for the hooks. What comes
before leaves the name of the module and these three collections as they are. -/
inductive ModuleReaches (module : Module) (extModule : ModuleExt) : failurePoint → Prop
  | properties :
      ModuleReaches module extModule
        (.step (.extendMap module.Properties module.PropertiesMetaData
          extModule.Properties mergeModulePropertiesErrorMsg [module.Name]))
  | parameters
      (hproperties : (extendMap module.Properties module.PropertiesMetaData
        extModule.Properties).2 = none) :
      ModuleReaches module extModule
        (.step (.extendMap module.Parameters module.ParametersMetaData
          extModule.Parameters mergeModuleParametersErrorMsg [module.Name]))
  | buildParameters
      (hproperties : (extendMap module.Properties module.PropertiesMetaData
        extModule.Properties).2 = none)
      (hparameters : (extendMap module.Parameters module.ParametersMetaData
        extModule.Parameters).2 = none) :
      ModuleReaches module extModule
        (.step (.extendMap module.BuildParams none extModule.BuildParams
          mergeModuleBuildParametersErrorMsg [module.Name]))
  | provides (point : failurePoint)
      (hfields : (mergeModuleFields module extModule).2 = none)
      (hloop : LoopReaches Provides.Name ProvidesExt.Name
        (fun found e => mergeProvide found e module)
        (fun e => Errorf unknownModuleProvidesErrorMsg [e.Name, extModule.Name])
        (fun found e => ProvideReaches found e module)
        module.Provides extModule.Provides point) :
      ModuleReaches module extModule point
  | requires (point : failurePoint)
      (hfields : (mergeModuleFields module extModule).2 = none)
      (hprovides :
        (mergeModuleProvides (mergeModuleFields module extModule).1 extModule).2 = none)
      (hloop : LoopReaches Requires.Name Requires.Name
        (fun found e => mergeRequiresFields found e
          ⟨mergeModuleRequiresPropertiesErrorMsg, [module.Name]⟩
          ⟨mergeModuleRequiresParametersErrorMsg, [module.Name]⟩)
        (fun e => Errorf unknownModuleRequiresErrorMsg [e.Name, extModule.Name])
        (fun found e => RequiresReaches found e
          ⟨mergeModuleRequiresPropertiesErrorMsg, [module.Name]⟩
          ⟨mergeModuleRequiresParametersErrorMsg, [module.Name]⟩)
        module.Requires extModule.Requires point) :
      ModuleReaches module extModule point
  | hooks (point : failurePoint)
      (hfields : (mergeModuleFields module extModule).2 = none)
      (hprovides :
        (mergeModuleProvides (mergeModuleFields module extModule).1 extModule).2 = none)
      (hrequires :
        (mergeModuleRequires
          (mergeModuleProvides (mergeModuleFields module extModule).1 extModule).1
          extModule).2 = none)
      (hloop : LoopReaches Hook.Name HookExt.Name
        (fun found e => mergeHook found e module extModule)
        (fun e => Errorf unknownModuleHookErrorMsg [e.Name, extModule.Name])
        (fun found e => HookReaches found e module extModule)
        module.Hooks extModule.Hooks point) :
      ModuleReaches module extModule point

/-- The places that the body of the loop of `mergeResources` comes to, for the
resource `resource` found in the descriptor and the entry `extResource`: the merges of
the properties and of the parameters, the second when the first does not fail; then,
when the chain does not fail, the places of `mergeRequires` on the required interfaces
of the resource. -/
inductive ResourceReaches (resource : Resource) (extResource : ResourceExt) :
    failurePoint → Prop
  | properties :
      ResourceReaches resource extResource
        (.step (.extendMap resource.Properties resource.PropertiesMetaData
          extResource.Properties mergeResourcePropertiesErrorMsg [resource.Name]))
  | parameters
      (hproperties : (extendMap resource.Properties resource.PropertiesMetaData
        extResource.Properties).2 = none) :
      ResourceReaches resource extResource
        (.step (.extendMap resource.Parameters resource.ParametersMetaData
          extResource.Parameters mergeResourceParametersErrorMsg [resource.Name]))
  | requires (point : failurePoint)
      (hfields : (mergeResourceFields resource extResource).2 = none)
      (hloop : LoopReaches Requires.Name Requires.Name
        (fun found e => mergeRequiresFields found e
          ⟨mergeResourceRequiresPropertiesErrorMsg, [resource.Name]⟩
          ⟨mergeResourceRequiresParametersErrorMsg, [resource.Name]⟩)
        (fun e => Errorf unknownResourceRequiresErrorMsg [e.Name, extResource.Name])
        (fun found e => RequiresReaches found e
          ⟨mergeResourceRequiresPropertiesErrorMsg, [resource.Name]⟩
          ⟨mergeResourceRequiresParametersErrorMsg, [resource.Name]⟩)
        resource.Requires extResource.Requires point) :
      ResourceReaches resource extResource point

/-- `MergeReaches mtaObj mtaExt outer point`: the call `Merge(mtaObj, mtaExt)` comes
to the place `point` with no error before it: a call of `extendMap` on a map of the
descriptor as it is then, or a lookup that finds nothing. `outer` is what `Merge` puts
in front of the error of the place: nothing for the root parameters, where the step
carries the message itself, and the message for the modules or for the resources,
with the ID of the extension, a colon and a blank, for a place inside the loop over
the modules or over the resources. -/
inductive MergeReaches (mtaObj : MTA) (mtaExt : EXT) : String → failurePoint → Prop
  | root :
      MergeReaches mtaObj mtaExt ""
        (.step (.extendMap mtaObj.Parameters mtaObj.ParametersMetaData mtaExt.Parameters
          mergeRootParametersErrorMsg [mtaExt.ID]))
  | modules (point : failurePoint)
      (hroot : (extendMap mtaObj.Parameters mtaObj.ParametersMetaData
        mtaExt.Parameters).2 = none)
      (hloop : LoopReaches Module.Name ModuleExt.Name mergeModule
        (fun e => Wrapf (Errorf moduleNotDefinedMsg [e.Name]) unknownModuleErrorMsg
          [e.Name])
        ModuleReaches mtaObj.Modules mtaExt.Modules point) :
      MergeReaches mtaObj mtaExt (Sprintf mergeModulesErrorMsg [mtaExt.ID] ++ ": ")
        point
  | resources (point : failurePoint)
      (hroot : (extendMap mtaObj.Parameters mtaObj.ParametersMetaData
        mtaExt.Parameters).2 = none)
      (hmodules : (mergeModules mtaObj mtaExt.Modules).2 = none)
      (hloop : LoopReaches Resource.Name ResourceExt.Name mergeResource
        (fun e => Wrapf (Errorf resourceNotDefinedMsg [e.Name]) unknownResourceErrorMsg
          [e.Name])
        ResourceReaches mtaObj.Resources mtaExt.Resources point) :
      MergeReaches mtaObj mtaExt (Sprintf mergeResourcesErrorMsg [mtaExt.ID] ++ ": ")
        point

/-! ## Shape conflicts at a nested key path -/

/-- `ConflictAt m meta ext path leaf`: the loop of `extendMap` that merges `ext` into
the map `m` under the metadata `meta` comes, with every key before it merged, to a
conflict of shape at the last key of `path`, below the keys of `path` before it:
`structured` and `scalar` are the two conflicts at a key of `ext` itself; `nested`
goes down into the mappings that `m` and `ext` hold under an overwritable key; `later`
steps over a first key that merges. `leaf` is the text for the conflict. -/
inductive ConflictAt : Table → Option MetaTable → Table → List String → String → Prop
  | structured (m : Table) (meta : Option MetaTable) (key : String) (value : Value)
      (rest : Table) (hover : isFieldOverWritable key meta (some m) = true)
      (hcur : (Table.index m key).isMap = true) (hnil : value.isNil = false)
      (hvalue : value.isMap = false) :
      ConflictAt m meta ((key, value) :: rest) [key]
        "cannot overwrite a structured value with a scalar value"
  | scalar (m : Table) (meta : Option MetaTable) (key : String) (value : Value)
      (rest : Table) (hover : isFieldOverWritable key meta (some m) = true)
      (hnil : (Table.index m key).isNil = false)
      (hcur : (Table.index m key).isMap = false) (hvalue : value.isMap = true) :
      ConflictAt m meta ((key, value) :: rest) [key]
        "cannot overwrite a scalar value with a structured value"
  | nested (m : Table) (meta : Option MetaTable) (key : String) (cur e rest : Table)
      (path : List String) (leaf : String)
      (hover : isFieldOverWritable key meta (some m) = true)
      (hcur : Table.index m key = Value.map cur)
      (hin : ConflictAt cur none e path leaf) :
      ConflictAt m meta ((key, Value.map e) :: rest) (key :: path) leaf
  | later (m : Table) (meta : Option MetaTable) (key : String) (value : Value)
      (rest : Table) (path : List String) (leaf : String)
      (hover : isFieldOverWritable key meta (some m) = true)
      (hok : (mergeMapKey m key value).2 = none)
      (hrest : ConflictAt (mergeMapKey m key value).1 meta rest path leaf) :
      ConflictAt m meta ((key, value) :: rest) path leaf

/-! ## The maps of a descriptor that are merged under metadata -/

/-- The two maps of a required interface. -/
inductive RequiresSlot where
  | properties
  | parameters

/-- The maps of a hook: its parameters, and the maps of its required interface with
the name `name`. -/
inductive HookSlot where
  | parameters
  | requires (name : String) (slot : RequiresSlot)

/-- The maps of a module that carry metadata: its properties, its parameters, the
properties of its provided interface with the name `name`, the maps of its required
interface with the name `name`, and the maps of its hook with the name `name`. -/
inductive ModuleSlot where
  | properties
  | parameters
  | provides (name : String)
  | requires (name : String) (slot : RequiresSlot)
  | hook (name : String) (slot : HookSlot)

/-- The maps of a resource: its properties, its parameters, and the maps of its
required interface with the name `name`. -/
inductive ResourceSlot where
  | properties
  | parameters
  | requires (name : String) (slot : RequiresSlot)

/-- The maps of a descriptor that `Merge` extends under metadata: the root
parameters, the maps of the module with the name `name` and the maps of the resource
with the name `name`. -/
inductive MapSlot where
  | root
  | module (name : String) (slot : ModuleSlot)
  | resource (name : String) (slot : ResourceSlot)

/-- The map of a required interface at a slot, with its metadata. -/
def Requires.slot (requires : Requires) : RequiresSlot → GoMap × Option MetaTable
  | .properties => (requires.Properties, requires.PropertiesMetaData)
  | .parameters => (requires.Parameters, requires.ParametersMetaData)

/-- The map that an entry for a required interface gives for a slot. -/
def Requires.entryMap (extRequires : Requires) : RequiresSlot → GoMap
  | .properties => extRequires.Properties
  | .parameters => extRequires.Parameters

/-- The map of a hook at a slot, with its metadata; `none` when the hook has no
required interface with the name of the slot. -/
def Hook.slot (hook : Hook) : HookSlot → Option (GoMap × Option MetaTable)
  | .parameters => some (hook.Parameters, hook.ParametersMetaData)
  | .requires name slot =>
    (GetRequiresByName hook.Requires name).map (fun requires => requires.slot slot)

/-- The maps that an entry for a hook gives for a slot, in the order of the entry. -/
def HookExt.entryMaps (extHook : HookExt) : HookSlot → List GoMap
  | .parameters => [extHook.Parameters]
  | .requires name slot =>
    (extHook.Requires.filter (fun e => e.Name = name)).map (fun e => e.entryMap slot)

/-- The map of a module at a slot, with its metadata; `none` when the module has no
entity with the name of the slot. -/
def Module.slot (module : Module) : ModuleSlot → Option (GoMap × Option MetaTable)
  | .properties => some (module.Properties, module.PropertiesMetaData)
  | .parameters => some (module.Parameters, module.ParametersMetaData)
  | .provides name =>
    (module.GetProvidesByName name).map
      (fun provide => (provide.Properties, provide.PropertiesMetaData))
  | .requires name slot =>
    (GetRequiresByName module.Requires name).map (fun requires => requires.slot slot)
  | .hook name slot => (module.GetHookByName name).bind (fun hook => hook.slot slot)

/-- The maps that an entry for a module gives for a slot, in the order of the
entry. -/
def ModuleExt.entryMaps (extModule : ModuleExt) : ModuleSlot → List GoMap
  | .properties => [extModule.Properties]
  | .parameters => [extModule.Parameters]
  | .provides name =>
    (extModule.Provides.filter (fun e => e.Name = name)).map (fun e => e.Properties)
  | .requires name slot =>
    (extModule.Requires.filter (fun e => e.Name = name)).map (fun e => e.entryMap slot)
  | .hook name slot =>
    (extModule.Hooks.filter (fun e => e.Name = name)).flatMap (fun e => e.entryMaps slot)

/-- The map of a resource at a slot, with its metadata; `none` when the resource has
no required interface with the name of the slot. -/
def Resource.slot (resource : Resource) : ResourceSlot → Option (GoMap × Option MetaTable)
  | .properties => some (resource.Properties, resource.PropertiesMetaData)
  | .parameters => some (resource.Parameters, resource.ParametersMetaData)
  | .requires name slot =>
    (GetRequiresByName resource.Requires name).map (fun requires => requires.slot slot)

/-- The maps that an entry for a resource gives for a slot, in the order of the
entry. -/
def ResourceExt.entryMaps (extResource : ResourceExt) : ResourceSlot → List GoMap
  | .properties => [extResource.Properties]
  | .parameters => [extResource.Parameters]
  | .requires name slot =>
    (extResource.Requires.filter (fun e => e.Name = name)).map
      (fun e => e.entryMap slot)

/-- The map of the descriptor at a slot, with its metadata, as the lookups by name
find it; `none` when the descriptor has no entity with a name of the slot. -/
def MTA.slot (mtaObj : MTA) : MapSlot → Option (GoMap × Option MetaTable)
  | .root => some (mtaObj.Parameters, mtaObj.ParametersMetaData)
  | .module name slot =>
    (findByName Module.Name name mtaObj.Modules).bind (fun module => module.slot slot)
  | .resource name slot =>
    (findByName Resource.Name name mtaObj.Resources).bind
      (fun resource => resource.slot slot)

/-- The maps that the extension gives for a slot of the descriptor, in the order in
which `Merge` merges them: those of the entries that carry the names of the slot. -/
def EXT.entryMaps (mtaExt : EXT) : MapSlot → List GoMap
  | .root => [mtaExt.Parameters]
  | .module name slot =>
    (mtaExt.Modules.filter (fun e => e.Name = name)).flatMap (fun e => e.entryMaps slot)
  | .resource name slot =>
    (mtaExt.Resources.filter (fun e => e.Name = name)).flatMap
      (fun e => e.entryMaps slot)

/-- `Protects f v meta slot`: the slot holds a map with the metadata `meta`, the map
has the entry `v` for the field `f`, and `isFieldOverWritable` denies the field. -/
def Protects (f : String) (v : Value) (meta : Option MetaTable)
    (slot : Option (GoMap × Option MetaTable)) : Prop :=
  ∃ m : GoMap, slot = some (m, meta) ∧ isFieldOverWritable f meta m = false ∧
    Table.find? (m.getD []) f = some v

/-! ## The traversal of `Merge`, step by step -/

/-- The first step of the traversal in the words of section 4.6 of the spec: the merge
of the root parameters, a single call of the generic map merger on the parameters of
the descriptor, under their metadata, with the message for the root parameters in
front of its error. -/
def specRootParametersStep (mtaExt : EXT) (mtaObj : MTA) : MTA × Option String :=
  ({ mtaObj with
      Parameters :=
        (extendMap mtaObj.Parameters mtaObj.ParametersMetaData mtaExt.Parameters).1 },
    (extendMap mtaObj.Parameters mtaObj.ParametersMetaData mtaExt.Parameters).2.map
      (fun err => Wrapf err mergeRootParametersErrorMsg [mtaExt.ID]))

/-- The step of the traversal for one module entry of the extension with the ID `id`,
in the words of section 4.6: the module is resolved by name, else the step fails; else
the entry is merged into it; the message for the modules goes in front of an error. -/
def specModuleStep (id : String) (extModule : ModuleExt) (mtaObj : MTA) :
    MTA × Option String :=
  match mtaObj.GetModuleByName extModule.Name with
  | .ok module =>
    ({ mtaObj with
        Modules := storeByName Module.Name extModule.Name (mergeModule module extModule).1
          mtaObj.Modules },
      (mergeModule module extModule).2.map
        (fun err => Wrapf err mergeModulesErrorMsg [id]))
  | .error err =>
    (mtaObj,
      some (Wrapf (Wrapf err unknownModuleErrorMsg [extModule.Name]) mergeModulesErrorMsg
        [id]))

/-- The step of the traversal for one resource entry of the extension with the ID
`id`, in the words of section 4.6: the resource is resolved by name, else the step
fails; else the entry is merged into it; the message for the resources goes in front
of an error. -/
def specResourceStep (id : String) (extResource : ResourceExt) (mtaObj : MTA) :
    MTA × Option String :=
  match mtaObj.GetResourceByName extResource.Name with
  | .ok resource =>
    ({ mtaObj with
        Resources := storeByName Resource.Name extResource.Name
          (mergeResource resource extResource).1 mtaObj.Resources },
      (mergeResource resource extResource).2.map
        (fun err => Wrapf err mergeResourcesErrorMsg [id]))
  | .error err =>
    (mtaObj,
      some (Wrapf (Wrapf err unknownResourceErrorMsg [extResource.Name])
        mergeResourcesErrorMsg [id]))

/-- The steps of a list applied one after the other to the descriptor, each to what
the step before it leaves; the run stops at the first step that fails and returns what
that step leaves and its error, so that no step after it is applied. -/
def specRunSteps : MTA → List (MTA → MTA × Option String) → MTA × Option String
  | mtaObj, [] => (mtaObj, none)
  | mtaObj, step :: rest =>
    match (step mtaObj).2 with
    | some err => ((step mtaObj).1, some err)
    | none => specRunSteps (step mtaObj).1 rest

/-- The traversal of section 4.6 for the extension `mtaExt`: the root parameters
first, then the module entries in the order of the extension, then the resource
entries in the order of the extension. -/
def specMergeSteps (mtaExt : EXT) : List (MTA → MTA × Option String) :=
  specRootParametersStep mtaExt ::
    (mtaExt.Modules.map (specModuleStep mtaExt.ID) ++
      mtaExt.Resources.map (specResourceStep mtaExt.ID))

/-! ## Sample descriptors -/

/-- The hook `start` of the module `web`, which requires `db`. -/
def sampleStart : Hook :=
  ⟨"start", none, none, [⟨"db", none, none, none, none⟩]⟩

/-- The module `web`: its `memory` property is set and marked non-overwritable. -/
def sampleWeb : Module where
  Name := "web"
  Properties := some [("memory", Value.str "256M")]
  PropertiesMetaData := some [("memory", ⟨false⟩)]
  Parameters := none
  ParametersMetaData := none
  BuildParams := none
  Includes := some [⟨"a", "a.zip"⟩]
  Provides := [⟨"api", none, none⟩]
  Requires := [⟨"db", none, none, none, none⟩]
  Hooks := [sampleStart]

/-- The active resource `db`. -/
def sampleDb : Resource where
  Name := "db"
  Active := true
  Properties := some [("host", Value.str "x")]
  PropertiesMetaData := none
  Parameters := none
  ParametersMetaData := none
  Requires := [⟨"web", none, none, none, none⟩]

/-- A descriptor with the module `web` and the active resource `db`. -/
def sampleBase : MTA where
  ID := "app"
  Parameters := none
  ParametersMetaData := none
  Modules := [sampleWeb]
  Resources := [sampleDb]

/-- An entry of an extension for the resource `db` that sets a parameter. -/
def sampleDbEntry : ResourceExt :=
  ⟨"db", true, none, some [("size", Value.num 1)], []⟩

/-- An entry of an extension for a resource `cache`, which `sampleBase` does not
have. -/
def sampleCacheEntry : ResourceExt :=
  ⟨"cache", true, none, none, []⟩

/-- A required interface `queue`, which the hook `start` does not have. -/
def sampleQueue : Requires :=
  ⟨"queue", none, none, none, none⟩

/-- An entry of an extension for the hook `start` that names `queue`. -/
def sampleStartEntry : HookExt :=
  ⟨"start", some [("timeout", Value.num 5)], [] ++ sampleQueue :: []⟩

/-- An entry of an extension for the module `web` with the hook entry above. -/
def sampleWebEntry : ModuleExt :=
  ⟨"web", none, some [("instances", Value.num 2)], none, none, [], [],
    [] ++ sampleStartEntry :: []⟩

/-- An entry of an extension for the module `web` that sets a parameter. -/
def sampleWebOkEntry : ModuleExt :=
  ⟨"web", none, some [("instances", Value.num 2)], none, none, [], [], []⟩

/-- An entry of an extension for the module `web` that redefines the property
`memory`, which the module marks non-overwritable. -/
def sampleWebMemoryEntry : ModuleExt :=
  ⟨"web", some [("memory", Value.str "512M")], none, none, some [⟨"b", "b.zip"⟩], [], [],
    []⟩

/-- An entry of an extension for the resource `db` that gives a mapping for the
property `host`, which holds a string. -/
def sampleDbHostEntry : ResourceExt :=
  ⟨"db", true, some [("host", Value.map [("primary", Value.str "y")])], none, []⟩

/-- An extension that sets a root parameter and whose second entry for the module
`web` redefines the protected property `memory`. -/
def sampleExtFailingModule : EXT :=
  ⟨"ext", some [("env", Value.str "prod")],
    [sampleWebOkEntry] ++ sampleWebMemoryEntry :: [sampleWebOkEntry], [sampleDbEntry]⟩

/-- An extension that sets a root parameter, a parameter of the module `web` and a
parameter of the resource `db`, and whose second entry for `db` gives a mapping for
the property `host`, which holds a string. -/
def sampleExtFailingResource : EXT :=
  ⟨"ext", some [("env", Value.str "prod")], [sampleWebOkEntry],
    [sampleDbEntry, sampleDbHostEntry, sampleCacheEntry]⟩

/-- A descriptor whose root parameter `a` holds a mapping with the number `1` under
`b`. -/
def sampleNestedBase : MTA :=
  ⟨"app", some [("a", Value.map [("b", Value.num 1)])], none, [], []⟩

/-- An extension that gives, for the root parameter `a`, a mapping with a mapping
under `b`. -/
def sampleNestedExt : EXT :=
  ⟨"ext", some [("a", Value.map [("b", Value.map [("c", Value.num 2)])])], [], []⟩

/-- A required interface `db` whose property `pool` and parameter `mode` are set and
marked non-overwritable. -/
def sampleProtectedRequires : Requires :=
  ⟨"db", some [("pool", Value.num 5)], some [("pool", ⟨false⟩)],
    some [("mode", Value.str "rw")], some [("mode", ⟨false⟩)]⟩

/-- A hook `start` whose parameter `timeout` is set and marked non-overwritable, with
the required interface above. -/
def sampleProtectedHook : Hook :=
  ⟨"start", some [("timeout", Value.num 30)], some [("timeout", ⟨false⟩)],
    [sampleProtectedRequires]⟩

/-- A module `web` whose property `memory` and parameter `instances` are set and
marked non-overwritable, with a provided interface `api` whose property `url` is set
and marked non-overwritable, and with the required interface and the hook above. -/
def sampleProtectedWeb : Module where
  Name := "web"
  Properties := some [("memory", Value.str "256M")]
  PropertiesMetaData := some [("memory", ⟨false⟩)]
  Parameters := some [("instances", Value.num 1)]
  ParametersMetaData := some [("instances", ⟨false⟩)]
  BuildParams := none
  Includes := none
  Provides := [⟨"api", some [("url", Value.str "u")], some [("url", ⟨false⟩)]⟩]
  Requires := [sampleProtectedRequires]
  Hooks := [sampleProtectedHook]

/-- A resource `db` whose property `host` and parameter `size` are set and marked
non-overwritable, with the required interface above. -/
def sampleProtectedDb : Resource :=
  ⟨"db", true, some [("host", Value.str "x")], some [("host", ⟨false⟩)],
    some [("size", Value.num 1)], some [("size", ⟨false⟩)], [sampleProtectedRequires]⟩

/-- A descriptor whose root parameter `env` is set and marked non-overwritable, with
the module and the resource above. -/
def sampleProtectedBase : MTA :=
  ⟨"app", some [("env", Value.str "prod")], some [("env", ⟨false⟩)], [sampleProtectedWeb],
    [sampleProtectedDb]⟩

/-- An entry of an extension for the module `web` that gives nothing but entries for
its provided interfaces, its required interfaces and its hooks. -/
def sampleWebWith (provides : List ProvidesExt) (requires : List Requires)
    (hooks : List HookExt) : ModuleExt :=
  ⟨"web", none, none, none, none, provides, requires, hooks⟩

/-- An extension with the ID `ext` that gives nothing for the root parameters. -/
def sampleExtWith (modules : List ModuleExt) (resources : List ResourceExt) : EXT :=
  ⟨"ext", none, modules, resources⟩

/-- An entry of an extension for the required interface `db` that gives one
property. -/
def sampleDbProperty (key : String) (value : Value) : Requires :=
  ⟨"db", some [(key, value)], none, none, none⟩

/-- An entry of an extension for the required interface `db` that gives one
parameter. -/
def sampleDbParameter (key : String) (value : Value) : Requires :=
  ⟨"db", none, none, some [(key, value)], none⟩

/-- An extension whose entry for the module `web` gives the properties `disk` and
`memory`. -/
def sampleExtMemory : EXT :=
  sampleExtWith
    [⟨"web", some [("disk", Value.str "1G"), ("memory", Value.str "512M")], none, none,
      none, [], [], []⟩]
    []

/-- A required interface `db` whose property `a` holds a number three mappings
deep. -/
def sampleDeepRequires : Requires :=
  ⟨"db", some [("a", Value.map [("b", Value.map [("c", Value.num 1)])])], none, none,
    none⟩

/-- A hook `start` with the required interface above. -/
def sampleDeepHook : Hook :=
  ⟨"start", none, none, [sampleDeepRequires]⟩

/-- A module `web` with the hook above. -/
def sampleDeepWeb : Module :=
  ⟨"web", none, none, none, none, none, none, [], [], [sampleDeepHook]⟩

/-- A descriptor with the module above. -/
def sampleDeepBase : MTA :=
  ⟨"app", none, none, [sampleDeepWeb], []⟩

/-- An entry for the required interface `db` that gives a mapping where the
descriptor holds the number. -/
def sampleDeepEntry : Requires :=
  sampleDbProperty "a"
    (Value.map [("b", Value.map [("c", Value.map [("d", Value.num 2)])])])

/-- An extension that gives the entry above for the required interface `db` of the
hook `start` of the module `web`. -/
def sampleDeepExt : EXT :=
  sampleExtWith [sampleWebWith [] [] [⟨"start", none, [sampleDeepEntry]⟩]] []

/-- An extension whose only entry names the resource `db` and gives nothing else, so
that its `Active` is the zero value. -/
def sampleExtNamingDb : EXT where
  ID := "ext"
  Parameters := none
  Modules := []
  Resources := [
    { Name := "db"
      Active := false
      Properties := none
      Parameters := none
      Requires := [] }]

/-! ## Reading and writing a map -/

theorem Table.find?_set_self (m : Table) (key : String) (value : Value) :
    Table.find? (Table.set m key value) key = some value := by
  induction m with
  | nil => simp [Table.set, Table.find?]
  | cons p t ih =>
    obtain ⟨k, v⟩ := p
    by_cases h : k = key
    · simp [Table.set, Table.find?, h]
    · simp [Table.set, Table.find?, h, ih]

theorem Table.find?_set_of_ne (m : Table) (key k : String) (value : Value) (h : k ≠ key) :
    Table.find? (Table.set m key value) k = Table.find? m k := by
  induction m with
  | nil => simp [Table.set, Table.find?, Ne.symm h]
  | cons p t ih =>
    obtain ⟨k1, v⟩ := p
    by_cases h1 : k1 = key
    · subst h1
      simp [Table.set, Table.find?, Ne.symm h]
    · by_cases h2 : k1 = k
      · subst h2
        simp [Table.set, Table.find?, h1]
      · simp [Table.set, Table.find?, h1, h2, ih]

theorem Table.index_set_self (m : Table) (key : String) (value : Value) :
    Table.index (Table.set m key value) key = value := by
  simp [Table.index, Table.find?_set_self]

theorem Table.index_set_of_ne (m : Table) (key k : String) (value : Value) (h : k ≠ key) :
    Table.index (Table.set m key value) k = Table.index m k := by
  simp [Table.index, Table.find?_set_of_ne m key k value h]

theorem Sprintf_one (a b x : String) : Sprintf [a, b] [x] = a ++ x ++ b := by
  simp [Sprintf]

theorem Sprintf_two (a b c x y : String) :
    Sprintf [a, b, c] [x, y] = a ++ x ++ (b ++ y ++ c) := by
  simp [Sprintf]

theorem Sprintf_three (a b c d x y z : String) :
    Sprintf [a, b, c, d] [x, y, z] = a ++ x ++ (b ++ y ++ (c ++ z ++ d)) := by
  simp [Sprintf]

/-! ## The three cases of `mergeMapKey` -/

theorem mergeMapKey_replace (m : Table) (key : String) (value : Value)
    (h : ((Table.index m key).isNil || value.isNil ||
      (!value.isMap && !(Table.index m key).isMap)) = true) :
    mergeMapKey m key value = (Table.set m key value, none) := by
  unfold mergeMapKey
  rw [if_pos h]

theorem mergeMapKey_maps (m : Table) (key : String) (c e : Table)
    (h : Table.index m key = Value.map c) :
    mergeMapKey m key (Value.map e) =
      (Table.set m key (Value.map (extendMapLoop c none e).1),
        (extendMapLoop c none e).2.map (fun err => Wrapf err quotedKeyMsg [key])) := by
  unfold mergeMapKey
  rw [h]
  simp only [Value.isNil, Value.isMap]
  rcases hr : extendMapLoop c none e with ⟨r, _ | err⟩ <;> simp

theorem mergeMapKey_structured_scalar (m : Table) (key : String) (value : Value)
    (hval : value.isNil = false) (hcur : (Table.index m key).isMap = true)
    (hext : value.isMap = false) :
    mergeMapKey m key value =
      (m, some (Errorf overwriteStructuredWithScalarErrorMsg [key])) := by
  have hnil : (Table.index m key).isNil = false := by
    cases hv : Table.index m key <;> simp [hv, Value.isMap, Value.isNil] at hcur ⊢
  unfold mergeMapKey
  simp [hval, hcur, hext, hnil]

theorem mergeMapKey_scalar_structured (m : Table) (key : String) (value : Value)
    (hnil : (Table.index m key).isNil = false) (hcur : (Table.index m key).isMap = false)
    (hext : value.isMap = true) :
    mergeMapKey m key value =
      (m, some (Errorf overwriteScalarWithStructuredErrorMsg [key])) := by
  have hval : value.isNil = false := by
    cases value <;> simp [Value.isMap, Value.isNil] at hext ⊢
  unfold mergeMapKey
  simp [hval, hcur, hext, hnil]

/-- A key other than the merged one keeps its entry, whether the merge of the key
succeeds or fails. -/
theorem mergeMapKey_find?_of_ne (m : Table) (key k : String) (value : Value)
    (h : k ≠ key) :
    Table.find? (mergeMapKey m key value).1 k = Table.find? m k := by
  by_cases h1 : ((Table.index m key).isNil || value.isNil ||
      (!value.isMap && !(Table.index m key).isMap)) = true
  · rw [mergeMapKey_replace m key value h1]
    exact Table.find?_set_of_ne m key k value h
  · simp only [Bool.or_eq_true, Bool.and_eq_true, Bool.not_eq_true', not_or, not_and,
      Bool.not_eq_true] at h1
    obtain ⟨⟨hnil, hval⟩, hmap⟩ := h1
    cases hc : (Table.index m key).isMap
    · have hext : value.isMap = true := by
        cases hv : value.isMap
        · exact absurd hc (by simp [hmap hv])
        · rfl
      rw [mergeMapKey_scalar_structured m key value hnil hc hext]
    · cases hv : value.isMap
      · rw [mergeMapKey_structured_scalar m key value hval hc hv]
      · obtain ⟨c, hc1⟩ : ∃ c, Table.index m key = Value.map c := by
          cases hi : Table.index m key <;> simp [hi, Value.isMap] at hc ⊢
        obtain ⟨e, he⟩ : ∃ e, value = Value.map e := by
          cases value <;> simp [Value.isMap] at hv ⊢
        subst he
        rw [mergeMapKey_maps m key c e hc1]
        exact Table.find?_set_of_ne m key k _ h

/-! ## The loop of `extendMap` -/

theorem extendMapLoop_nil (m : Table) (meta : Option MetaTable) :
    extendMapLoop m meta [] = (m, none) := by
  unfold extendMapLoop
  rfl

theorem extendMapLoop_cons (m : Table) (meta : Option MetaTable) (key : String)
    (value : Value) (rest : Table) :
    extendMapLoop m meta ((key, value) :: rest) =
      if isFieldOverWritable key meta (some m) then
        if (mergeMapKey m key value).2 = none then
          extendMapLoop (mergeMapKey m key value).1 meta rest
        else mergeMapKey m key value
      else (m, some (Errorf overwriteNonOverwritableErrorMsg [key])) := by
  rw [extendMapLoop]
  by_cases h : isFieldOverWritable key meta (some m) = true
  · rw [if_pos h, if_pos h]
    rcases hr : mergeMapKey m key value with ⟨m1, _ | err⟩ <;> simp
  · rw [if_neg h, if_neg h]

/-- The decision of `isFieldOverWritable` reads the current map at the field only. -/
theorem isFieldOverWritable_congr (field : String) (meta : Option MetaTable)
    (m1 m2 : Table) (h : Table.find? m1 field = Table.find? m2 field) :
    isFieldOverWritable field meta (some m1) = isFieldOverWritable field meta (some m2) := by
  simp [isFieldOverWritable, GoMap.index, Table.index, h]

/-- A key that the extension does not name keeps its entry, whether the loop succeeds
or fails. -/
theorem extendMapLoop_find?_of_not_mem (meta : Option MetaTable) (ext : Table) :
    ∀ (m : Table) (k : String), k ∉ Table.keys ext →
      Table.find? (extendMapLoop m meta ext).1 k = Table.find? m k := by
  induction ext with
  | nil => intro m k _; rw [extendMapLoop_nil]
  | cons p rest ih =>
    obtain ⟨key, value⟩ := p
    intro m k hk
    have hne : k ≠ key := by
      intro h; apply hk; simp [Table.keys, h]
    have hrest : k ∉ Table.keys rest := by
      intro h; apply hk; simp only [Table.keys, List.map_cons, List.mem_cons]
      exact Or.inr h
    rw [extendMapLoop_cons]
    split
    · split
      · rw [ih _ k hrest]
        exact mergeMapKey_find?_of_ne m key k value hne
      · exact mergeMapKey_find?_of_ne m key k value hne
    · rfl

/-- The loop over a list that is cut in two: the second part runs on what the first
part leaves, and only if the first part succeeds. -/
theorem extendMapLoop_append (meta : Option MetaTable) (xs ys : Table) :
    ∀ m : Table, extendMapLoop m meta (xs ++ ys) =
      if (extendMapLoop m meta xs).2 = none then
        extendMapLoop (extendMapLoop m meta xs).1 meta ys
      else extendMapLoop m meta xs := by
  induction xs with
  | nil => intro m; simp [extendMapLoop_nil]
  | cons p rest ih =>
    obtain ⟨key, value⟩ := p
    intro m
    rw [List.cons_append, extendMapLoop_cons, extendMapLoop_cons]
    by_cases h : isFieldOverWritable key meta (some m) = true
    · rw [if_pos h, if_pos h]
      by_cases h1 : (mergeMapKey m key value).2 = none
      · rw [if_pos h1, if_pos h1]
        exact ih _
      · rw [if_neg h1, if_neg h1, if_neg h1]
    · rw [if_neg h, if_neg h]
      simp

/-- A protected field that holds a value makes the loop fail as soon as the extension
names it, and keeps its entry. -/
theorem extendMapLoop_protected (meta : Option MetaTable) (f : String) (ext : Table) :
    ∀ m : Table, isFieldOverWritable f meta (some m) = false → f ∈ Table.keys ext →
      (∃ err, (extendMapLoop m meta ext).2 = some err) ∧
      Table.find? (extendMapLoop m meta ext).1 f = Table.find? m f := by
  induction ext with
  | nil => intro m _ hf; simp [Table.keys] at hf
  | cons p rest ih =>
    obtain ⟨key, value⟩ := p
    intro m hm hf
    rw [extendMapLoop_cons]
    by_cases h : isFieldOverWritable key meta (some m) = true
    · have hne : f ≠ key := by
        intro heq; rw [heq, h] at hm; exact Bool.noConfusion hm
      have hrest : f ∈ Table.keys rest := by
        simp only [Table.keys, List.map_cons, List.mem_cons] at hf
        rcases hf with hf | hf
        · exact absurd hf hne
        · exact hf
      have hfr := mergeMapKey_find?_of_ne m key f value hne
      rw [if_pos h]
      by_cases h1 : (mergeMapKey m key value).2 = none
      · rw [if_pos h1]
        have hm1 : isFieldOverWritable f meta (some (mergeMapKey m key value).1) = false := by
          rw [isFieldOverWritable_congr f meta _ m hfr]; exact hm
        obtain ⟨he, hk⟩ := ih _ hm1 hrest
        exact ⟨he, hk.trans hfr⟩
      · rw [if_neg h1]
        refine ⟨?_, hfr⟩
        cases hr : (mergeMapKey m key value).2 with
        | none => exact absurd hr h1
        | some err => exact ⟨err, rfl⟩
    · rw [if_neg h]
      exact ⟨⟨_, rfl⟩, rfl⟩

theorem extendMap_some (m : Table) (meta : Option MetaTable) (ext : Table) :
    extendMap (some m) meta (some ext) =
      (some (extendMapLoop m meta ext).1, (extendMapLoop m meta ext).2) := by
  simp [extendMap]

/-! ## Overwrite protection -/

theorem isFieldOverWritable_protected (f : String) (table : MetaTable) (m : Table)
    (metaData : MetaData) (hmeta : MetaTable.find? table f = some metaData)
    (hflag : metaData.OverWritable = false) (hbase : (Table.index m f).isNil = false) :
    isFieldOverWritable f (some table) (some m) = false := by
  simp [isFieldOverWritable, GoMap.index, hbase, hmeta, hflag]

/-- What `Merge` returns when the merge of the root parameters fails. -/
theorem Merge_root_failure (mtaObj : MTA) (mtaExt : EXT) (t : GoMap) (err : String)
    (h : extendMap mtaObj.Parameters mtaObj.ParametersMetaData mtaExt.Parameters =
      (t, some err)) :
    Merge mtaObj mtaExt =
      ({ mtaObj with Parameters := t },
        some (Wrapf err mergeRootParametersErrorMsg [mtaExt.ID])) := by
  simp [Merge, mergeRootParameters, chain, chainError.extendMap, h]

set_option maxRecDepth 100000 in
/-- The counterexample to C1 as stated: the base map defines the protected field `f`
and the extension map redefines it, yet the error names the key `g`, which comes
first in the iteration and is rejected for its shape. When the base map defines `f`
with the null value, the call succeeds and `f` is overwritten. And the error of
`Merge` for a protected root parameter is not the text of `extendMap` alone: the
message of the step stands in front of it. -/
theorem extendMap_error_names_first_rejected_key :
    MetaTable.find? [("f", ⟨false⟩)] "f" = some ⟨false⟩ ∧
    Table.find? [("f", Value.num 1), ("g", Value.num 1)] "f" = some (Value.num 1) ∧
    "f" ∈ Table.keys [("g", Value.map []), ("f", Value.num 2)] ∧
    (extendMap (some [("f", Value.num 1), ("g", Value.num 1)]) (some [("f", ⟨false⟩)])
      (some [("g", Value.map []), ("f", Value.num 2)])).2 =
        some "\"g\": cannot overwrite a scalar value with a structured value" ∧
    (extendMap (some [("f", Value.num 1), ("g", Value.num 1)]) (some [("f", ⟨false⟩)])
      (some [("g", Value.map []), ("f", Value.num 2)])).2 ≠
        some "the \"f\" field is not overwritable" ∧
    Table.find? [("f", Value.null)] "f" = some Value.null ∧
    extendMap (some [("f", Value.null)]) (some [("f", ⟨false⟩)])
      (some [("f", Value.num 2)]) = (some [("f", Value.num 2)], none) ∧
    (Merge sampleProtectedBase ⟨"ext", some [("env", Value.str "dev")], [], []⟩).2 =
      some ("could not merge parameters from MTA extension with ID \"ext\": " ++
        "the \"env\" field is not overwritable") ∧
    (Merge sampleProtectedBase ⟨"ext", some [("env", Value.str "dev")], [], []⟩).2 ≠
      some "the \"env\" field is not overwritable" := by
  refine ⟨by decide, rfl, by decide, by decide, by decide, rfl, rfl, by decide, by decide⟩

/-- C2: `isFieldOverWritable` returns false exactly when the field is present in the
current map with a value that is not nil, the metadata table has an entry for the
field, and the flag of that entry is false. Without a metadata table, without an entry
for the field, and for a field that is present and holds the null value, it returns
true. -/
theorem isFieldOverWritable_eq_false_iff (field : String) (meta : Option MetaTable)
    (m : GoMap) :
    (isFieldOverWritable field meta m = false ↔
      (∃ t v, m = some t ∧ Table.find? t field = some v ∧ v.isNil = false) ∧
      (∃ table metaData, meta = some table ∧
        MetaTable.find? table field = some metaData ∧ metaData.OverWritable = false)) ∧
    isFieldOverWritable field none m = true ∧
    (∀ table, MetaTable.find? table field = none →
      isFieldOverWritable field (some table) m = true) ∧
    (∀ t, Table.find? t field = some Value.null →
      isFieldOverWritable field meta (some t) = true) := by
  refine ⟨?_, ?_, ?_, ?_⟩
  · constructor
    · intro h
      cases meta with
      | none => simp [isFieldOverWritable] at h
      | some table =>
        cases m with
        | none => simp [isFieldOverWritable, GoMap.index, Value.isNil] at h
        | some t =>
          cases hf : Table.find? t field with
          | none => simp [isFieldOverWritable, GoMap.index, Table.index, hf, Value.isNil] at h
          | some v =>
            cases hv : v.isNil with
            | true => simp [isFieldOverWritable, GoMap.index, Table.index, hf, hv] at h
            | false =>
              cases hmd : MetaTable.find? table field with
              | none =>
                simp [isFieldOverWritable, GoMap.index, Table.index, hf, hv, hmd] at h
              | some metaData =>
                simp [isFieldOverWritable, GoMap.index, Table.index, hf, hv, hmd] at h
                exact ⟨⟨t, v, rfl, hf, hv⟩, ⟨table, metaData, rfl, hmd, h⟩⟩
    · rintro ⟨⟨t, v, rfl, hf, hv⟩, ⟨table, metaData, rfl, hmd, hflag⟩⟩
      simp [isFieldOverWritable, GoMap.index, Table.index, hf, hv, hmd, hflag]
  · simp [isFieldOverWritable]
  · intro table hmd
    simp [isFieldOverWritable, hmd]
  · intro t hf
    cases meta with
    | none => simp [isFieldOverWritable]
    | some table =>
      simp [isFieldOverWritable, GoMap.index, Table.index, hf, Value.isNil]

/-- C3: a field that the base map does not hold yet (the map is nil, the key is not
there, or it holds the null value) is assigned by an extension map whose only key is
the field, whatever the metadata table says, so also when it marks the field
non-overwritable: the call succeeds and the base map holds the value of the extension
at the field. -/
theorem extendMap_first_assignment (m : GoMap) (meta : Option MetaTable) (f : String)
    (value : Value) (habsent : (GoMap.index m f).isNil = true) :
    ∃ t, extendMap m meta (some [(f, value)]) = (some t, none) ∧
      Table.find? t f = some value := by
  have hidx : (Table.index (m.getD []) f).isNil = true := by
    cases m with
    | none => simp [Table.index, Table.find?, Value.isNil]
    | some t => simpa [GoMap.index] using habsent
  have how : isFieldOverWritable f meta (some (m.getD [])) = true := by
    cases meta with
    | none => simp [isFieldOverWritable]
    | some table => simp [isFieldOverWritable, GoMap.index, hidx]
  have hkey : mergeMapKey (m.getD []) f value = (Table.set (m.getD []) f value, none) :=
    mergeMapKey_replace _ f value (by simp [hidx])
  refine ⟨Table.set (m.getD []) f value, ?_, Table.find?_set_self _ f value⟩
  simp [extendMap, extendMapLoop_cons, extendMapLoop_nil, how, hkey]

/-- The witnesses of C3: `memory` is marked non-overwritable and the extension assigns
it, once with an empty base map and once with a nil base map. -/
theorem extendMap_first_assignment_witness :
    MetaTable.find? [("memory", ⟨false⟩)] "memory" = some ⟨false⟩ ∧
    (∃ t, extendMap (some []) (some [("memory", ⟨false⟩)])
        (some [("memory", Value.str "512M")]) = (some t, none) ∧
      Table.find? t "memory" = some (Value.str "512M")) ∧
    (∃ t, extendMap none (some [("memory", ⟨false⟩)])
        (some [("memory", Value.str "512M")]) = (some t, none) ∧
      Table.find? t "memory" = some (Value.str "512M")) :=
  ⟨by decide,
    extendMap_first_assignment (some []) (some [("memory", ⟨false⟩)]) "memory"
      (Value.str "512M") (by decide),
    extendMap_first_assignment none (some [("memory", ⟨false⟩)]) "memory"
      (Value.str "512M") (by decide)⟩

/-- C5: when the current value at the key is nil (absent or null), or the value of the
extension is null, or neither of the two is a mapping, `mergeMapKey` succeeds and the
base map holds exactly the value of the extension at the key, every other key keeping
its entry. -/
theorem mergeMapKey_full_replace (m : Table) (key : String) (value : Value)
    (h : (Table.index m key).isNil = true ∨ value.isNil = true ∨
      ((Table.index m key).isMap = false ∧ value.isMap = false)) :
    mergeMapKey m key value = (Table.set m key value, none) ∧
    Table.find? (mergeMapKey m key value).1 key = some value ∧
    ∀ k, k ≠ key → Table.find? (mergeMapKey m key value).1 k = Table.find? m k := by
  have hrep : mergeMapKey m key value = (Table.set m key value, none) := by
    apply mergeMapKey_replace
    rcases h with h | h | ⟨h1, h2⟩
    · simp [h]
    · simp [h]
    · simp [h1, h2]
  refine ⟨hrep, ?_, ?_⟩
  · rw [hrep]; exact Table.find?_set_self m key value
  · intro k hk
    exact mergeMapKey_find?_of_ne m key k value hk

/-- The witness of C5: a list is replaced by the list of the extension, not
concatenated with it. -/
theorem mergeMapKey_full_replace_witness :
    mergeMapKey [("l", Value.list [Value.num 1])] "l" (Value.list [Value.num 2]) =
      (Table.set [("l", Value.list [Value.num 1])] "l" (Value.list [Value.num 2]), none) ∧
    Table.find? (mergeMapKey [("l", Value.list [Value.num 1])] "l"
      (Value.list [Value.num 2])).1 "l" = some (Value.list [Value.num 2]) ∧
    ∀ k, k ≠ "l" →
      Table.find? (mergeMapKey [("l", Value.list [Value.num 1])] "l"
        (Value.list [Value.num 2])).1 k = Table.find? [("l", Value.list [Value.num 1])] k :=
  mergeMapKey_full_replace [("l", Value.list [Value.num 1])] "l"
    (Value.list [Value.num 2]) (Or.inr (Or.inr ⟨rfl, rfl⟩))

/-- C6: when the current value and the value of the extension are both non-nil and
exactly one of them is a mapping, `mergeMapKey` fails and leaves the base map as it
was; the error says that a structured value cannot be overwritten with a scalar value
when the current value is the mapping, and that a scalar value cannot be overwritten
with a structured value when the value of the extension is the mapping. -/
theorem mergeMapKey_shape_conflict (m : Table) (key : String) (value : Value)
    (hcur : (Table.index m key).isNil = false) (hval : value.isNil = false)
    (hone : (Table.index m key).isMap ≠ value.isMap) :
    (mergeMapKey m key value).1 = m ∧
    ((Table.index m key).isMap = true →
      (mergeMapKey m key value).2 =
        some ("\"" ++ key ++ "\": cannot overwrite a structured value with a scalar value")) ∧
    (value.isMap = true →
      (mergeMapKey m key value).2 =
        some ("\"" ++ key ++ "\": cannot overwrite a scalar value with a structured value")) := by
  cases hc : (Table.index m key).isMap with
  | true =>
    have hv : value.isMap = false := by
      cases hv : value.isMap
      · rfl
      · exact absurd (hc.trans hv.symm) hone
    rw [mergeMapKey_structured_scalar m key value hval hc hv]
    refine ⟨rfl, ?_, ?_⟩
    · intro _
      simp [Errorf, overwriteStructuredWithScalarErrorMsg, Sprintf_one]
    · intro h; rw [hv] at h; exact Bool.noConfusion h
  | false =>
    have hv : value.isMap = true := by
      cases hv : value.isMap
      · exact absurd (hc.trans hv.symm) hone
      · rfl
    rw [mergeMapKey_scalar_structured m key value hcur hc hv]
    refine ⟨rfl, ?_, ?_⟩
    · intro h; exact Bool.noConfusion h
    · intro _
      simp [Errorf, overwriteScalarWithStructuredErrorMsg, Sprintf_one]

/-- The witness of C6: `host` holds a scalar and the extension gives a mapping. -/
theorem mergeMapKey_shape_conflict_witness :
    (mergeMapKey [("host", Value.str "x")] "host"
      (Value.map [("primary", Value.str "y")])).1 = [("host", Value.str "x")] ∧
    ((Table.index [("host", Value.str "x")] "host").isMap = true →
      (mergeMapKey [("host", Value.str "x")] "host"
        (Value.map [("primary", Value.str "y")])).2 =
        some ("\"" ++ "host" ++ "\": cannot overwrite a structured value with a scalar value")) ∧
    ((Value.map [("primary", Value.str "y")]).isMap = true →
      (mergeMapKey [("host", Value.str "x")] "host"
        (Value.map [("primary", Value.str "y")])).2 =
        some ("\"" ++ "host" ++ "\": cannot overwrite a scalar value with a structured value")) :=
  mergeMapKey_shape_conflict [("host", Value.str "x")] "host"
    (Value.map [("primary", Value.str "y")]) (by decide) (by decide) (by decide)

/-- C7: when the current value and the value of the extension at a key are both
mappings, the value that `mergeMapKey` leaves at the key is the mapping that
`extendMap` makes of the two nested mappings without a metadata table, and its error
is the error of that call with the quoted key in front. The metadata table of the
entity is not consulted below the key: for every table that lets the key itself pass,
`extendMap` with that table does on the key what `mergeMapKey` does. -/
theorem mergeMapKey_nested_merge (m : Table) (key : String) (c e : Table)
    (hcur : Table.index m key = Value.map c) :
    ∃ r, (extendMap (some c) none (some e)).1 = some r ∧
      Table.find? (mergeMapKey m key (Value.map e)).1 key = some (Value.map r) ∧
      (mergeMapKey m key (Value.map e)).2 =
        (extendMap (some c) none (some e)).2.map (fun err => Wrapf err quotedKeyMsg [key]) ∧
      ∀ table : MetaTable, isFieldOverWritable key (some table) (some m) = true →
        extendMap (some m) (some table) (some [(key, Value.map e)]) =
          (some (mergeMapKey m key (Value.map e)).1, (mergeMapKey m key (Value.map e)).2) := by
  refine ⟨(extendMapLoop c none e).1, by rw [extendMap_some], ?_, ?_, ?_⟩
  · rw [mergeMapKey_maps m key c e hcur]
    exact Table.find?_set_self m key _
  · rw [mergeMapKey_maps m key c e hcur, extendMap_some]
  · intro table how
    rw [extendMap_some, extendMapLoop_cons, if_pos how]
    by_cases h : (mergeMapKey m key (Value.map e)).2 = none
    · rw [if_pos h, extendMapLoop_nil, h]
    · rw [if_neg h]

/-- The witness of C7: the metadata table of the entity marks `a` non-overwritable;
the nested `a` under `p` is merged all the same. -/
theorem mergeMapKey_nested_merge_witness :
    (∃ r, (extendMap (some [("a", Value.num 1)]) none (some [("a", Value.num 2)])).1 = some r ∧
      Table.find? (mergeMapKey [("p", Value.map [("a", Value.num 1)])] "p"
        (Value.map [("a", Value.num 2)])).1 "p" = some (Value.map r) ∧
      (mergeMapKey [("p", Value.map [("a", Value.num 1)])] "p"
        (Value.map [("a", Value.num 2)])).2 =
        (extendMap (some [("a", Value.num 1)]) none (some [("a", Value.num 2)])).2.map
          (fun err => Wrapf err quotedKeyMsg ["p"]) ∧
      ∀ table : MetaTable,
        isFieldOverWritable "p" (some table)
          (some [("p", Value.map [("a", Value.num 1)])]) = true →
        extendMap (some [("p", Value.map [("a", Value.num 1)])]) (some table)
            (some [("p", Value.map [("a", Value.num 2)])]) =
          (some (mergeMapKey [("p", Value.map [("a", Value.num 1)])] "p"
              (Value.map [("a", Value.num 2)])).1,
            (mergeMapKey [("p", Value.map [("a", Value.num 1)])] "p"
              (Value.map [("a", Value.num 2)])).2)) ∧
    extendMap (some [("p", Value.map [("a", Value.num 1)])]) (some [("a", ⟨false⟩)])
        (some [("p", Value.map [("a", Value.num 2)])]) =
      (some [("p", Value.map [("a", Value.num 2)])], none) :=
  ⟨mergeMapKey_nested_merge [("p", Value.map [("a", Value.num 1)])] "p"
      [("a", Value.num 1)] [("a", Value.num 2)] rfl, rfl⟩

/-- C9: `extendIncludes` with an extension list `e` leaves the base list equal to the
base list followed by `e` (a nil base list counting as empty): nothing is dropped,
reordered or deduplicated, the length is the sum of the lengths, and the step of the
chain does not fail. -/
theorem extendIncludes_concat (b : Option (List Includes)) (e : List Includes) :
    extendIncludes b (some e) = some (b.getD [] ++ e) ∧
    (∀ r, extendIncludes b (some e) = some r →
      r.length = (b.getD []).length + e.length) ∧
    ∀ msg args, chain.extendIncludes b (some e) msg args = (chain, some (b.getD [] ++ e)) := by
  refine ⟨rfl, ?_, ?_⟩
  · intro r hr
    simp only [extendIncludes, Option.some.injEq] at hr
    rw [← hr, List.length_append]
  · intro msg args
    rfl

/-- C10: merging an extension without root parameters, modules and resources
succeeds and leaves the descriptor as it was. When the root parameters of the
extension are an empty map that is not nil, the merge succeeds as well and no entry
changes; only a nil map of root parameters of the descriptor is then an empty map. -/
theorem Merge_empty_extension (mtaObj : MTA) (id : String) :
    Merge mtaObj { ID := id, Parameters := none, Modules := [], Resources := [] } =
      (mtaObj, none) ∧
    Merge mtaObj { ID := id, Parameters := some [], Modules := [], Resources := [] } =
      ({ mtaObj with Parameters := some (mtaObj.Parameters.getD []) }, none) := by
  cases mtaObj
  constructor
  · simp [Merge, mergeRootParameters, chain, chainError.extendMap, extendMap, mergeModules,
      mergeResources]
  · simp [Merge, mergeRootParameters, chain, chainError.extendMap, extendMap, mergeModules,
      mergeResources, extendMapLoop_nil]

/-- C8, the code at the failing input: `mergeResource` always stores the flag of the
entry of the extension, and a resource that is active is not active any more after
the merge of an entry that names it and gives no `active` (the zero value `false`). -/
theorem mergeResource_active_overwritten :
    (∀ resource extResource,
      (mergeResource resource extResource).1.Active = extResource.Active) ∧
    sampleBase.Resources.map Resource.Active = [true] ∧
    (Merge sampleBase sampleExtNamingDb).2 = none ∧
    (Merge sampleBase sampleExtNamingDb).1.Resources.map Resource.Active = [false] := by
  refine ⟨?_, by decide, by decide, by decide⟩
  intro resource extResource
  simp only [mergeResource]
  split <;> rfl

/-! ## Lookup by name -/

theorem findByName_eq_none_iff {α : Type} (nameOf : α → String) (name : String)
    (l : List α) : findByName nameOf name l = none ↔ name ∉ l.map nameOf := by
  induction l with
  | nil => simp [findByName]
  | cons x xs ih =>
    by_cases h : nameOf x = name
    · simp [findByName, h]
    · simp [findByName, h, ih, Ne.symm h]

theorem findByName_name {α : Type} (nameOf : α → String) (name : String) (l : List α)
    (x : α) (h : findByName nameOf name l = some x) : nameOf x = name := by
  induction l with
  | nil => simp [findByName] at h
  | cons y ys ih =>
    by_cases hy : nameOf y = name
    · simp [findByName, hy] at h
      rw [← h]; exact hy
    · simp [findByName, hy] at h
      exact ih h

/-- Storing a new state that agrees with the entity found under `f` keeps the image
of the collection under `f`. -/
theorem storeByName_map {α β : Type} (nameOf : α → String) (f : α → β) (name : String)
    (new x : α) (l : List α) (hx : findByName nameOf name l = some x)
    (hf : f new = f x) : (storeByName nameOf name new l).map f = l.map f := by
  induction l with
  | nil => simp [findByName] at hx
  | cons y ys ih =>
    by_cases hy : nameOf y = name
    · simp [findByName, hy] at hx
      subst hx
      simp [storeByName, hy, hf]
    · simp [findByName, hy] at hx
      simp [storeByName, hy, ih hx]

/-- The lookup in two collections with the same image under `f`, which determines the
name, finds entities with the same image. -/
theorem findByName_map_congr {α β : Type} (nameOf : α → String) (f : α → β)
    (nm : β → String) (hnm : ∀ x, nameOf x = nm (f x)) (name : String) :
    ∀ l1 l2 : List α, l1.map f = l2.map f →
      (findByName nameOf name l1).map f = (findByName nameOf name l2).map f := by
  intro l1
  induction l1 with
  | nil =>
    intro l2 h
    cases l2 with
    | nil => rfl
    | cons y ys => simp at h
  | cons x xs ih =>
    intro l2 h
    cases l2 with
    | nil => simp at h
    | cons y ys =>
      simp only [List.map_cons, List.cons.injEq] at h
      obtain ⟨hxy, hrest⟩ := h
      have hn : nameOf x = nameOf y := by rw [hnm x, hnm y, hxy]
      by_cases hx : nameOf x = name
      · have hy : nameOf y = name := hn ▸ hx
        simp [findByName, hx, hy, hxy]
      · have hy : ¬ nameOf y = name := fun h1 => hx (hn.trans h1)
        simp only [findByName, hx, hy, if_false]
        exact ih ys hrest

/-- The same, with the entity found in the second collection at hand. -/
theorem findByName_of_map_eq {α β : Type} (nameOf : α → String) (f : α → β)
    (nm : β → String) (hnm : ∀ x, nameOf x = nm (f x)) (name : String)
    (l1 l2 : List α) (h : l1.map f = l2.map f) (y : α)
    (hy : findByName nameOf name l2 = some y) :
    ∃ x, findByName nameOf name l1 = some x ∧ f x = f y := by
  have hc := findByName_map_congr nameOf f nm hnm name l1 l2 h
  rw [hy] at hc
  cases hx : findByName nameOf name l1 with
  | none => rw [hx] at hc; simp at hc
  | some x =>
    rw [hx] at hc
    simp only [Option.map_some', Option.some.injEq] at hc
    exact ⟨x, rfl, hc⟩

/-! ## Required interfaces -/

theorem mergeRequires_nil (provider : List Requires) (u p q : msg) :
    mergeRequires [] provider u p q = (provider, none) := by
  rw [mergeRequires]

theorem mergeRequires_cons_found (e : Requires) (rest provider : List Requires)
    (u p q : msg) (found : Requires)
    (h : GetRequiresByName provider e.Name = some found) :
    mergeRequires (e :: rest) provider u p q =
      if (mergeRequiresFields found e p q).2 = none then
        mergeRequires rest
          (storeByName Requires.Name e.Name (mergeRequiresFields found e p q).1 provider)
          u p q
      else
        (storeByName Requires.Name e.Name (mergeRequiresFields found e p q).1 provider,
          (mergeRequiresFields found e p q).2) := by
  rw [mergeRequires]
  simp only [h]
  cases hr : (mergeRequiresFields found e p q).2 <;> simp

theorem mergeRequires_cons_unknown (e : Requires) (rest provider : List Requires)
    (u p q : msg) (h : GetRequiresByName provider e.Name = none) :
    mergeRequires (e :: rest) provider u p q =
      (provider, some (Errorf u.msg (u.getArgs [e.Name]))) := by
  rw [mergeRequires]
  simp only [h]

/-- The merge of required interfaces keeps their names, in order. -/
theorem mergeRequires_names (u p q : msg) (requires : List Requires) :
    ∀ provider : List Requires,
      (mergeRequires requires provider u p q).1.map Requires.Name =
        provider.map Requires.Name := by
  induction requires with
  | nil => intro provider; rw [mergeRequires_nil]
  | cons e rest ih =>
    intro provider
    cases hf : GetRequiresByName provider e.Name with
    | none => rw [mergeRequires_cons_unknown e rest provider u p q hf]
    | some found =>
      have hstore : (storeByName Requires.Name e.Name
          (mergeRequiresFields found e p q).1 provider).map Requires.Name =
          provider.map Requires.Name :=
        storeByName_map Requires.Name Requires.Name e.Name _ found provider hf rfl
      rw [mergeRequires_cons_found e rest provider u p q found hf]
      split
      · rw [ih, hstore]
      · exact hstore

theorem mergeRequires_append (u p q : msg) (xs ys : List Requires) :
    ∀ provider : List Requires,
      mergeRequires (xs ++ ys) provider u p q =
        if (mergeRequires xs provider u p q).2 = none then
          mergeRequires ys (mergeRequires xs provider u p q).1 u p q
        else mergeRequires xs provider u p q := by
  induction xs with
  | nil => intro provider; simp [mergeRequires_nil]
  | cons e rest ih =>
    intro provider
    rw [List.cons_append]
    cases hf : GetRequiresByName provider e.Name with
    | none =>
      rw [mergeRequires_cons_unknown e _ provider u p q hf,
        mergeRequires_cons_unknown e _ provider u p q hf]
      simp
    | some found =>
      rw [mergeRequires_cons_found e _ provider u p q found hf,
        mergeRequires_cons_found e _ provider u p q found hf]
      by_cases h1 : (mergeRequiresFields found e p q).2 = none
      · rw [if_pos h1, if_pos h1]; exact ih _
      · rw [if_neg h1, if_neg h1, if_neg h1]

/-- An entry that names a required interface the provider does not have fails with
the message for it, once the entries around it merge. -/
theorem mergeRequires_unknown (u p q : msg) (pre post provider : List Requires)
    (r : Requires) (hname : r.Name ∉ provider.map Requires.Name)
    (hok : (mergeRequires (pre ++ post) provider u p q).2 = none) :
    (mergeRequires (pre ++ r :: post) provider u p q).2 =
      some (Errorf u.msg (u.getArgs [r.Name])) := by
  have hpre : (mergeRequires pre provider u p q).2 = none := by
    by_contra h
    rw [mergeRequires_append, if_neg h] at hok
    exact h hok
  rw [mergeRequires_append, if_pos hpre]
  have hnone : GetRequiresByName (mergeRequires pre provider u p q).1 r.Name = none := by
    rw [GetRequiresByName, findByName_eq_none_iff, mergeRequires_names]
    exact hname
  rw [mergeRequires_cons_unknown r post _ u p q hnone]

/-! ## Provided interfaces -/

theorem mergeModuleProvidesLoop_nil (module : Module) (extModule : ModuleExt) :
    mergeModuleProvidesLoop module extModule [] = (module, none) := by
  rw [mergeModuleProvidesLoop]

theorem mergeModuleProvidesLoop_cons_unknown (module : Module) (extModule : ModuleExt)
    (e : ProvidesExt) (rest : List ProvidesExt)
    (h : module.GetProvidesByName e.Name = none) :
    mergeModuleProvidesLoop module extModule (e :: rest) =
      (module, some (Errorf unknownModuleProvidesErrorMsg [e.Name, extModule.Name])) := by
  rw [mergeModuleProvidesLoop]
  simp only [h]

theorem mergeModuleProvidesLoop_cons_found (module : Module) (extModule : ModuleExt)
    (e : ProvidesExt) (rest : List ProvidesExt) (provide : Provides)
    (h : module.GetProvidesByName e.Name = some provide) :
    mergeModuleProvidesLoop module extModule (e :: rest) =
      if (mergeProvide provide e module).2 = none then
        mergeModuleProvidesLoop
          { module with
            Provides := storeByName Provides.Name e.Name (mergeProvide provide e module).1
              module.Provides }
          extModule rest
      else
        ({ module with
            Provides := storeByName Provides.Name e.Name (mergeProvide provide e module).1
              module.Provides },
          (mergeProvide provide e module).2) := by
  rw [mergeModuleProvidesLoop]
  simp only [h]
  cases hr : (mergeProvide provide e module).2 <;> simp

theorem provideStored_names (module : Module) (provide : Provides) (e : ProvidesExt)
    (h : module.GetProvidesByName e.Name = some provide) :
    Module.names { module with
      Provides := storeByName Provides.Name e.Name (mergeProvide provide e module).1
        module.Provides } = module.names := by
  have hstore := storeByName_map Provides.Name Provides.Name e.Name
    (mergeProvide provide e module).1 provide module.Provides h rfl
  simp only [Module.names, hstore]

/-- The merge of provided interfaces keeps the names of the module. -/
theorem mergeModuleProvidesLoop_names (extModule : ModuleExt) (l : List ProvidesExt) :
    ∀ module : Module,
      (mergeModuleProvidesLoop module extModule l).1.names = module.names := by
  induction l with
  | nil => intro module; rw [mergeModuleProvidesLoop_nil]
  | cons e rest ih =>
    intro module
    cases hf : module.GetProvidesByName e.Name with
    | none => rw [mergeModuleProvidesLoop_cons_unknown module extModule e rest hf]
    | some provide =>
      rw [mergeModuleProvidesLoop_cons_found module extModule e rest provide hf]
      split
      · rw [ih, provideStored_names module provide e hf]
      · exact provideStored_names module provide e hf

/-- The loop reads the name of the entry of the extension only. -/
theorem mergeModuleProvidesLoop_congr (X Y : ModuleExt) (hXY : X.Name = Y.Name)
    (l : List ProvidesExt) :
    ∀ module : Module,
      mergeModuleProvidesLoop module X l = mergeModuleProvidesLoop module Y l := by
  induction l with
  | nil => intro module; rw [mergeModuleProvidesLoop_nil, mergeModuleProvidesLoop_nil]
  | cons e rest ih =>
    intro module
    cases hf : module.GetProvidesByName e.Name with
    | none =>
      rw [mergeModuleProvidesLoop_cons_unknown module X e rest hf,
        mergeModuleProvidesLoop_cons_unknown module Y e rest hf, hXY]
    | some provide =>
      rw [mergeModuleProvidesLoop_cons_found module X e rest provide hf,
        mergeModuleProvidesLoop_cons_found module Y e rest provide hf, ih]

theorem mergeModuleProvidesLoop_append (X : ModuleExt) (xs ys : List ProvidesExt) :
    ∀ module : Module,
      mergeModuleProvidesLoop module X (xs ++ ys) =
        if (mergeModuleProvidesLoop module X xs).2 = none then
          mergeModuleProvidesLoop (mergeModuleProvidesLoop module X xs).1 X ys
        else mergeModuleProvidesLoop module X xs := by
  induction xs with
  | nil => intro module; simp [mergeModuleProvidesLoop_nil]
  | cons e rest ih =>
    intro module
    rw [List.cons_append]
    cases hf : module.GetProvidesByName e.Name with
    | none =>
      rw [mergeModuleProvidesLoop_cons_unknown module X e _ hf,
        mergeModuleProvidesLoop_cons_unknown module X e _ hf]
      simp
    | some provide =>
      rw [mergeModuleProvidesLoop_cons_found module X e _ provide hf,
        mergeModuleProvidesLoop_cons_found module X e _ provide hf]
      split
      · exact ih _
      · rfl

/-- An entry that names a provided interface the module does not have fails with the
message for it, once the entries around it merge. -/
theorem mergeModuleProvidesLoop_unknown (X : ModuleExt) (pre post : List ProvidesExt)
    (e : ProvidesExt) (module : Module)
    (hname : e.Name ∉ module.Provides.map Provides.Name)
    (hok : (mergeModuleProvidesLoop module X (pre ++ post)).2 = none) :
    (mergeModuleProvidesLoop module X (pre ++ e :: post)).2 =
      some (Errorf unknownModuleProvidesErrorMsg [e.Name, X.Name]) := by
  have hpre : (mergeModuleProvidesLoop module X pre).2 = none := by
    by_contra h
    rw [mergeModuleProvidesLoop_append, if_neg h] at hok
    exact h hok
  rw [mergeModuleProvidesLoop_append, if_pos hpre]
  have hnames := mergeModuleProvidesLoop_names X pre module
  have hnone : (mergeModuleProvidesLoop module X pre).1.GetProvidesByName e.Name = none := by
    rw [Module.GetProvidesByName, findByName_eq_none_iff]
    have h2 : (mergeModuleProvidesLoop module X pre).1.Provides.map Provides.Name =
        module.Provides.map Provides.Name := by
      simp only [Module.names, Prod.mk.injEq] at hnames
      exact hnames.2.1
    rw [h2]; exact hname
  rw [mergeModuleProvidesLoop_cons_unknown _ X e post hnone]

/-! ## Hooks -/

theorem mergeHook_names (hook : Hook) (extHook : HookExt) (module : Module)
    (extModule : ModuleExt) :
    (mergeHook hook extHook module extModule).1.names = hook.names := by
  simp only [mergeHook]
  split
  · rfl
  · simp only [Hook.names, mergeRequires_names]

/-- `mergeHook` reads the name of the entry of the extension module only. -/
theorem mergeHook_congr (hook : Hook) (extHook : HookExt) (module : Module)
    (X Y : ModuleExt) (hXY : X.Name = Y.Name) :
    mergeHook hook extHook module X = mergeHook hook extHook module Y := by
  simp only [mergeHook, hXY]

/-- An entry of a hook that names a required interface the hook does not have makes
`mergeHook` fail with the message for it, once the rest of the hook entry merges. -/
theorem mergeHook_requires_unknown (hook : Hook) (H : HookExt) (module : Module)
    (X : ModuleExt) (qpre qpost : List Requires) (q : Requires)
    (hH : H.Requires = qpre ++ q :: qpost)
    (hname : q.Name ∉ hook.Requires.map Requires.Name)
    (hok : (mergeHook hook { H with Requires := qpre ++ qpost } module X).2 = none) :
    (mergeHook hook H module X).2 =
      some (Errorf unknownModuleHookRequiresErrorMsg [q.Name, H.Name, X.Name]) := by
  simp only [mergeHook] at hok ⊢
  cases hs : (chain.extendMap hook.Parameters hook.ParametersMetaData H.Parameters
      mergeModuleHookParametersErrorMsg [hook.Name, module.Name]).1.err with
  | some err => rw [hs] at hok; simp at hok
  | none =>
    rw [hs] at hok
    simp only [hH] at hok ⊢
    rw [mergeRequires_unknown _ _ _ qpre qpost hook.Requires q hname hok]
    rfl

theorem mergeModuleHooksLoop_nil (module : Module) (extModule : ModuleExt) :
    mergeModuleHooksLoop module extModule [] = (module, none) := by
  rw [mergeModuleHooksLoop]

theorem mergeModuleHooksLoop_cons_unknown (module : Module) (extModule : ModuleExt)
    (e : HookExt) (rest : List HookExt) (h : module.GetHookByName e.Name = none) :
    mergeModuleHooksLoop module extModule (e :: rest) =
      (module, some (Errorf unknownModuleHookErrorMsg [e.Name, extModule.Name])) := by
  rw [mergeModuleHooksLoop]
  simp only [h]

theorem mergeModuleHooksLoop_cons_found (module : Module) (extModule : ModuleExt)
    (e : HookExt) (rest : List HookExt) (hook : Hook)
    (h : module.GetHookByName e.Name = some hook) :
    mergeModuleHooksLoop module extModule (e :: rest) =
      if (mergeHook hook e module extModule).2 = none then
        mergeModuleHooksLoop
          { module with
            Hooks := storeByName Hook.Name e.Name (mergeHook hook e module extModule).1
              module.Hooks }
          extModule rest
      else
        ({ module with
            Hooks := storeByName Hook.Name e.Name (mergeHook hook e module extModule).1
              module.Hooks },
          (mergeHook hook e module extModule).2) := by
  rw [mergeModuleHooksLoop]
  simp only [h]
  cases hr : (mergeHook hook e module extModule).2 <;> simp

theorem hookStored_names (module : Module) (extModule : ModuleExt) (hook : Hook)
    (e : HookExt) (h : module.GetHookByName e.Name = some hook) :
    Module.names { module with
      Hooks := storeByName Hook.Name e.Name (mergeHook hook e module extModule).1
        module.Hooks } = module.names := by
  have hstore := storeByName_map Hook.Name Hook.names e.Name
    (mergeHook hook e module extModule).1 hook module.Hooks h
    (mergeHook_names hook e module extModule)
  simp only [Module.names, hstore]

/-- The merge of hooks keeps the names of the module. -/
theorem mergeModuleHooksLoop_names (extModule : ModuleExt) (l : List HookExt) :
    ∀ module : Module,
      (mergeModuleHooksLoop module extModule l).1.names = module.names := by
  induction l with
  | nil => intro module; rw [mergeModuleHooksLoop_nil]
  | cons e rest ih =>
    intro module
    cases hf : module.GetHookByName e.Name with
    | none => rw [mergeModuleHooksLoop_cons_unknown module extModule e rest hf]
    | some hook =>
      rw [mergeModuleHooksLoop_cons_found module extModule e rest hook hf]
      split
      · rw [ih, hookStored_names module extModule hook e hf]
      · exact hookStored_names module extModule hook e hf

/-- The loop reads the name of the entry of the extension module only. -/
theorem mergeModuleHooksLoop_congr (X Y : ModuleExt) (hXY : X.Name = Y.Name)
    (l : List HookExt) :
    ∀ module : Module,
      mergeModuleHooksLoop module X l = mergeModuleHooksLoop module Y l := by
  induction l with
  | nil => intro module; rw [mergeModuleHooksLoop_nil, mergeModuleHooksLoop_nil]
  | cons e rest ih =>
    intro module
    cases hf : module.GetHookByName e.Name with
    | none =>
      rw [mergeModuleHooksLoop_cons_unknown module X e rest hf,
        mergeModuleHooksLoop_cons_unknown module Y e rest hf, hXY]
    | some hook =>
      rw [mergeModuleHooksLoop_cons_found module X e rest hook hf,
        mergeModuleHooksLoop_cons_found module Y e rest hook hf,
        mergeHook_congr hook e module X Y hXY, ih]

theorem mergeModuleHooksLoop_append (X : ModuleExt) (xs ys : List HookExt) :
    ∀ module : Module,
      mergeModuleHooksLoop module X (xs ++ ys) =
        if (mergeModuleHooksLoop module X xs).2 = none then
          mergeModuleHooksLoop (mergeModuleHooksLoop module X xs).1 X ys
        else mergeModuleHooksLoop module X xs := by
  induction xs with
  | nil => intro module; simp [mergeModuleHooksLoop_nil]
  | cons e rest ih =>
    intro module
    rw [List.cons_append]
    cases hf : module.GetHookByName e.Name with
    | none =>
      rw [mergeModuleHooksLoop_cons_unknown module X e _ hf,
        mergeModuleHooksLoop_cons_unknown module X e _ hf]
      simp
    | some hook =>
      rw [mergeModuleHooksLoop_cons_found module X e _ hook hf,
        mergeModuleHooksLoop_cons_found module X e _ hook hf]
      split
      · exact ih _
      · rfl

theorem mergeModuleHooksLoop_prefix_ok (X : ModuleExt) (xs ys : List HookExt)
    (module : Module) (hok : (mergeModuleHooksLoop module X (xs ++ ys)).2 = none) :
    (mergeModuleHooksLoop module X xs).2 = none := by
  by_contra h
  rw [mergeModuleHooksLoop_append, if_neg h] at hok
  exact h hok

/-- An entry that names a hook the module does not have fails with the message for
it, once the entries around it merge. -/
theorem mergeModuleHooksLoop_unknown (X : ModuleExt) (pre post : List HookExt)
    (e : HookExt) (module : Module)
    (hname : e.Name ∉ module.Hooks.map Hook.Name)
    (hok : (mergeModuleHooksLoop module X (pre ++ post)).2 = none) :
    (mergeModuleHooksLoop module X (pre ++ e :: post)).2 =
      some (Errorf unknownModuleHookErrorMsg [e.Name, X.Name]) := by
  have hpre := mergeModuleHooksLoop_prefix_ok X pre post module hok
  rw [mergeModuleHooksLoop_append, if_pos hpre]
  have hnames := mergeModuleHooksLoop_names X pre module
  have hnone : (mergeModuleHooksLoop module X pre).1.GetHookByName e.Name = none := by
    rw [Module.GetHookByName, findByName_eq_none_iff]
    have h2 : (mergeModuleHooksLoop module X pre).1.Hooks.map Hook.names =
        module.Hooks.map Hook.names := by
      simp only [Module.names, Prod.mk.injEq] at hnames
      exact hnames.2.2.2
    have h3 := congrArg (List.map Prod.fst) h2
    simp only [List.map_map] at h3
    exact h3 ▸ hname
  rw [mergeModuleHooksLoop_cons_unknown _ X e post hnone]

/-- A hook entry that names a required interface the hook does not have fails with
the message for it, once the hook entries merge without that entry. -/
theorem mergeModuleHooksLoop_requires_unknown (X : ModuleExt) (pre post : List HookExt)
    (H : HookExt) (module : Module) (bh : Hook) (qpre qpost : List Requires)
    (q : Requires)
    (hbh : findByName Hook.Name H.Name module.Hooks = some bh)
    (hH : H.Requires = qpre ++ q :: qpost)
    (hname : q.Name ∉ bh.Requires.map Requires.Name)
    (hok : (mergeModuleHooksLoop module X
      (pre ++ { H with Requires := qpre ++ qpost } :: post)).2 = none) :
    (mergeModuleHooksLoop module X (pre ++ H :: post)).2 =
      some (Errorf unknownModuleHookRequiresErrorMsg [q.Name, H.Name, X.Name]) := by
  have hpre := mergeModuleHooksLoop_prefix_ok X pre _ module hok
  rw [mergeModuleHooksLoop_append, if_pos hpre] at hok ⊢
  have hnames := mergeModuleHooksLoop_names X pre module
  have h2 : (mergeModuleHooksLoop module X pre).1.Hooks.map Hook.names =
      module.Hooks.map Hook.names := by
    simp only [Module.names, Prod.mk.injEq] at hnames
    exact hnames.2.2.2
  obtain ⟨h1, hfind, hsame⟩ := findByName_of_map_eq Hook.Name Hook.names Prod.fst
    (fun _ => rfl) H.Name _ _ h2 bh hbh
  have hreq : q.Name ∉ h1.Requires.map Requires.Name := by
    have h3 : h1.Requires.map Requires.Name = bh.Requires.map Requires.Name := by
      simp only [Hook.names, Prod.mk.injEq] at hsame
      exact hsame.2
    rw [h3]; exact hname
  rw [mergeModuleHooksLoop_cons_found _ X { H with Requires := qpre ++ qpost } post h1
    hfind] at hok
  have hbody : (mergeHook h1 { H with Requires := qpre ++ qpost }
      (mergeModuleHooksLoop module X pre).1 X).2 = none := by
    by_contra h
    rw [if_neg h] at hok
    exact h hok
  have herr := mergeHook_requires_unknown h1 H _ X qpre qpost q hH hreq hbody
  rw [mergeModuleHooksLoop_cons_found _ X H post h1 hfind, herr]
  simp

/-! ## Modules -/

theorem andThen_of_ok {α : Type} (r : α × Option String) (next : α → α × Option String)
    (h : r.2 = none) : andThen r next = next r.1 := by
  simp only [andThen, h]

theorem andThen_of_err {α : Type} (r : α × Option String)
    (next : α → α × Option String) (err : String) (h : r.2 = some err) :
    andThen r next = (r.1, some err) := by
  simp only [andThen, h]

theorem andThen_ok_iff {α : Type} (r : α × Option String)
    (next : α → α × Option String) :
    (andThen r next).2 = none ↔ r.2 = none ∧ (next r.1).2 = none := by
  cases h : r.2 with
  | none => rw [andThen_of_ok r next h]; simp
  | some err => rw [andThen_of_err r next err h]; simp

theorem mergeModuleRequires_names (module : Module) (extModule : ModuleExt) :
    (mergeModuleRequires module extModule).1.names = module.names := by
  simp only [mergeModuleRequires, Module.names, mergeRequires_names]

/-- The steps before the hooks keep the names of the module. -/
theorem mergeModule_before_hooks_names (module : Module) (extModule : ModuleExt) :
    (andThen (andThen (mergeModuleFields module extModule)
      (fun module1 => mergeModuleProvides module1 extModule))
      (fun module2 => mergeModuleRequires module2 extModule)).1.names = module.names := by
  have h1 : (mergeModuleFields module extModule).1.names = module.names := rfl
  have h2 : (andThen (mergeModuleFields module extModule)
      (fun module1 => mergeModuleProvides module1 extModule)).1.names = module.names := by
    cases h : (mergeModuleFields module extModule).2 with
    | none =>
      rw [andThen_of_ok _ _ h, mergeModuleProvides, mergeModuleProvidesLoop_names, h1]
    | some err => rw [andThen_of_err _ _ err h]; exact h1
  cases h : (andThen (mergeModuleFields module extModule)
    (fun module1 => mergeModuleProvides module1 extModule)).2 with
  | none => rw [andThen_of_ok _ _ h, mergeModuleRequires_names, h2]
  | some err => rw [andThen_of_err _ _ err h]; exact h2

/-- The merge of a module entry keeps the names of the module. -/
theorem mergeModule_names (module : Module) (extModule : ModuleExt) :
    (mergeModule module extModule).1.names = module.names := by
  have h3 := mergeModule_before_hooks_names module extModule
  rw [mergeModule]
  cases h : (andThen (andThen (mergeModuleFields module extModule)
      (fun module1 => mergeModuleProvides module1 extModule))
      (fun module2 => mergeModuleRequires module2 extModule)).2 with
  | none => rw [andThen_of_ok _ _ h, mergeModuleHooks, mergeModuleHooksLoop_names, h3]
  | some err => rw [andThen_of_err _ _ err h]; exact h3

/-- A module entry that names a provided interface the module does not have fails
with the message for it, once the module entry merges without that entry. -/
theorem mergeModule_provides_unknown (module : Module) (M : ModuleExt)
    (ppre ppost : List ProvidesExt) (p : ProvidesExt)
    (hM : M.Provides = ppre ++ p :: ppost)
    (hname : p.Name ∉ module.Provides.map Provides.Name)
    (hok : (mergeModule module { M with Provides := ppre ++ ppost }).2 = none) :
    (mergeModule module M).2 =
      some (Errorf unknownModuleProvidesErrorMsg [p.Name, M.Name]) := by
  rw [mergeModule, andThen_ok_iff, andThen_ok_iff, andThen_ok_iff] at hok
  obtain ⟨⟨⟨hF, hP⟩, _⟩, _⟩ := hok
  have hF1 : (mergeModuleFields module M).2 = none := hF
  have hP1 : (mergeModuleProvidesLoop (mergeModuleFields module M).1 M
      (ppre ++ ppost)).2 = none := by
    rw [mergeModuleProvidesLoop_congr M { M with Provides := ppre ++ ppost } rfl]
    exact hP
  have herr := mergeModuleProvidesLoop_unknown M ppre ppost p
    (mergeModuleFields module M).1 hname hP1
  have hstep : (andThen (mergeModuleFields module M)
      (fun module1 => mergeModuleProvides module1 M)).2 =
      some (Errorf unknownModuleProvidesErrorMsg [p.Name, M.Name]) := by
    rw [andThen_of_ok _ _ hF1, mergeModuleProvides, hM]
    exact herr
  rw [mergeModule, andThen_of_err _ _ _ (by rw [andThen_of_err _ _ _ hstep])]

/-- A module entry that names a required interface the module does not have fails
with the message for it, once the module entry merges without that entry. -/
theorem mergeModule_requires_unknown (module : Module) (M : ModuleExt)
    (qpre qpost : List Requires) (q : Requires)
    (hM : M.Requires = qpre ++ q :: qpost)
    (hname : q.Name ∉ module.Requires.map Requires.Name)
    (hok : (mergeModule module { M with Requires := qpre ++ qpost }).2 = none) :
    (mergeModule module M).2 =
      some (Errorf unknownModuleRequiresErrorMsg [q.Name, M.Name]) := by
  rw [mergeModule, andThen_ok_iff, andThen_ok_iff, andThen_ok_iff] at hok
  obtain ⟨⟨⟨hF, hP⟩, hR⟩, _⟩ := hok
  have hF1 : (mergeModuleFields module M).2 = none := hF
  have hP1 : (mergeModuleProvides (mergeModuleFields module M).1 M).2 = none := by
    rw [mergeModuleProvides,
      mergeModuleProvidesLoop_congr M { M with Requires := qpre ++ qpost } rfl]
    exact hP
  have hPeq : mergeModuleProvides (mergeModuleFields module M).1 M =
      mergeModuleProvides (mergeModuleFields module { M with Requires := qpre ++ qpost }).1
        { M with Requires := qpre ++ qpost } := by
    rw [mergeModuleProvides, mergeModuleProvides,
      mergeModuleProvidesLoop_congr M { M with Requires := qpre ++ qpost } rfl]
    rfl
  have h12 : (andThen (mergeModuleFields module M)
      (fun module1 => mergeModuleProvides module1 M)).2 = none := by
    rw [andThen_of_ok _ _ hF1]; exact hP1
  have hstate : (andThen (mergeModuleFields module M)
      (fun module1 => mergeModuleProvides module1 M)).1 =
      (mergeModuleProvides (mergeModuleFields module M).1 M).1 := by
    rw [andThen_of_ok _ _ hF1]
  have hnames : (mergeModuleProvides (mergeModuleFields module M).1 M).1.names =
      module.names := by
    rw [mergeModuleProvides, mergeModuleProvidesLoop_names]; rfl
  have hname1 : q.Name ∉
      (mergeModuleProvides (mergeModuleFields module M).1 M).1.Requires.map
        Requires.Name := by
    have h2 : (mergeModuleProvides (mergeModuleFields module M).1 M).1.Requires.map
        Requires.Name = module.Requires.map Requires.Name := by
      simp only [Module.names, Prod.mk.injEq] at hnames
      exact hnames.2.2.1
    rw [h2]; exact hname
  have hR1 : (mergeRequires (qpre ++ qpost)
      (mergeModuleProvides (mergeModuleFields module M).1 M).1.Requires
      ⟨unknownModuleRequiresErrorMsg, [M.Name]⟩
      ⟨mergeModuleRequiresPropertiesErrorMsg,
        [(mergeModuleProvides (mergeModuleFields module M).1 M).1.Name]⟩
      ⟨mergeModuleRequiresParametersErrorMsg,
        [(mergeModuleProvides (mergeModuleFields module M).1 M).1.Name]⟩).2 = none := by
    rw [andThen_of_ok _ _ hF] at hR
    rw [hPeq]
    exact hR
  have herr := mergeRequires_unknown _ _ _ qpre qpost _ q hname1 hR1
  have hstep : (andThen (andThen (mergeModuleFields module M)
      (fun module1 => mergeModuleProvides module1 M))
      (fun module2 => mergeModuleRequires module2 M)).2 =
      some (Errorf unknownModuleRequiresErrorMsg [q.Name, M.Name]) := by
    rw [andThen_of_ok _ _ h12, hstate]
    simp only [mergeModuleRequires, hM]
    rw [herr]
    rfl
  rw [mergeModule, andThen_of_err _ _ _ hstep]

/-- The steps before the hooks do not read the hooks of the entry. -/
theorem mergeModule_before_hooks_congr (module : Module) (M : ModuleExt)
    (hs : List HookExt) :
    andThen (andThen (mergeModuleFields module { M with Hooks := hs })
      (fun module1 => mergeModuleProvides module1 { M with Hooks := hs }))
      (fun module2 => mergeModuleRequires module2 { M with Hooks := hs }) =
    andThen (andThen (mergeModuleFields module M)
      (fun module1 => mergeModuleProvides module1 M))
      (fun module2 => mergeModuleRequires module2 M) := by
  have hP : (fun module1 => mergeModuleProvides module1 { M with Hooks := hs }) =
      (fun module1 => mergeModuleProvides module1 M) := by
    funext module1
    rw [mergeModuleProvides, mergeModuleProvides,
      mergeModuleProvidesLoop_congr { M with Hooks := hs } M rfl]
  rw [hP]
  rfl

/-- A module entry that names a hook the module does not have fails with the message
for it, once the module entry merges without that entry. -/
theorem mergeModule_hook_unknown (module : Module) (M : ModuleExt)
    (hpre hpost : List HookExt) (H : HookExt)
    (hM : M.Hooks = hpre ++ H :: hpost)
    (hname : H.Name ∉ module.Hooks.map Hook.Name)
    (hok : (mergeModule module { M with Hooks := hpre ++ hpost }).2 = none) :
    (mergeModule module M).2 =
      some (Errorf unknownModuleHookErrorMsg [H.Name, M.Name]) := by
  rw [mergeModule, mergeModule_before_hooks_congr, andThen_ok_iff] at hok
  obtain ⟨h3, hHk⟩ := hok
  have hnames := mergeModule_before_hooks_names module M
  have hname1 : H.Name ∉ (andThen (andThen (mergeModuleFields module M)
      (fun module1 => mergeModuleProvides module1 M))
      (fun module2 => mergeModuleRequires module2 M)).1.Hooks.map Hook.Name := by
    simp only [Module.names, Prod.mk.injEq] at hnames
    have h4 := congrArg (List.map Prod.fst) hnames.2.2.2
    simp only [List.map_map] at h4
    exact h4 ▸ hname
  have hHk1 : (mergeModuleHooksLoop (andThen (andThen (mergeModuleFields module M)
      (fun module1 => mergeModuleProvides module1 M))
      (fun module2 => mergeModuleRequires module2 M)).1 M (hpre ++ hpost)).2 = none := by
    rw [mergeModuleHooksLoop_congr M { M with Hooks := hpre ++ hpost } rfl]
    exact hHk
  rw [mergeModule, andThen_of_ok _ _ h3, mergeModuleHooks, hM]
  exact mergeModuleHooksLoop_unknown M hpre hpost H _ hname1 hHk1

/-- A hook entry of a module entry that names a required interface the hook does not
have fails with the message for it, once the module entry merges without it. -/
theorem mergeModule_hook_requires_unknown (module : Module) (M : ModuleExt)
    (hpre hpost : List HookExt) (H : HookExt) (bh : Hook)
    (qpre qpost : List Requires) (q : Requires)
    (hM : M.Hooks = hpre ++ H :: hpost)
    (hbh : (findByName Hook.Name H.Name module.Hooks).map Hook.names = some bh.names)
    (hH : H.Requires = qpre ++ q :: qpost)
    (hname : q.Name ∉ bh.Requires.map Requires.Name)
    (hok : (mergeModule module { M with
      Hooks := hpre ++ { H with Requires := qpre ++ qpost } :: hpost }).2 = none) :
    (mergeModule module M).2 =
      some (Errorf unknownModuleHookRequiresErrorMsg [q.Name, H.Name, M.Name]) := by
  rw [mergeModule, mergeModule_before_hooks_congr, andThen_ok_iff] at hok
  obtain ⟨h3, hHk⟩ := hok
  have hnames := mergeModule_before_hooks_names module M
  have hhooks : (andThen (andThen (mergeModuleFields module M)
      (fun module1 => mergeModuleProvides module1 M))
      (fun module2 => mergeModuleRequires module2 M)).1.Hooks.map Hook.names =
      module.Hooks.map Hook.names := by
    simp only [Module.names, Prod.mk.injEq] at hnames
    exact hnames.2.2.2
  have hc := findByName_map_congr Hook.Name Hook.names Prod.fst (fun _ => rfl) H.Name
    _ _ hhooks
  rw [hbh] at hc
  obtain ⟨h1, hfind, hsame⟩ : ∃ h1, findByName Hook.Name H.Name
      (andThen (andThen (mergeModuleFields module M)
        (fun module1 => mergeModuleProvides module1 M))
        (fun module2 => mergeModuleRequires module2 M)).1.Hooks = some h1 ∧
      h1.names = bh.names := by
    cases hx : findByName Hook.Name H.Name
      (andThen (andThen (mergeModuleFields module M)
        (fun module1 => mergeModuleProvides module1 M))
        (fun module2 => mergeModuleRequires module2 M)).1.Hooks with
    | none => rw [hx] at hc; simp at hc
    | some x =>
      rw [hx] at hc
      simp only [Option.map_some', Option.some.injEq] at hc
      exact ⟨x, rfl, hc⟩
  have hname1 : q.Name ∉ h1.Requires.map Requires.Name := by
    have h5 : h1.Requires.map Requires.Name = bh.Requires.map Requires.Name := by
      simp only [Hook.names, Prod.mk.injEq] at hsame
      exact hsame.2
    rw [h5]; exact hname
  have hHk1 : (mergeModuleHooksLoop (andThen (andThen (mergeModuleFields module M)
      (fun module1 => mergeModuleProvides module1 M))
      (fun module2 => mergeModuleRequires module2 M)).1 M
      (hpre ++ { H with Requires := qpre ++ qpost } :: hpost)).2 = none := by
    rw [mergeModuleHooksLoop_congr M { M with
      Hooks := hpre ++ { H with Requires := qpre ++ qpost } :: hpost } rfl]
    exact hHk
  rw [mergeModule, andThen_of_ok _ _ h3, mergeModuleHooks, hM]
  exact mergeModuleHooksLoop_requires_unknown M hpre hpost H _ h1 qpre qpost q hfind hH
    hname1 hHk1

theorem mergeModules_nil (mtaObj : MTA) : mergeModules mtaObj [] = (mtaObj, none) := by
  rw [mergeModules]

theorem mergeModules_cons_unknown (mtaObj : MTA) (e : ModuleExt) (rest : List ModuleExt)
    (h : findByName Module.Name e.Name mtaObj.Modules = none) :
    mergeModules mtaObj (e :: rest) =
      (mtaObj, some (Wrapf (Errorf moduleNotDefinedMsg [e.Name]) unknownModuleErrorMsg
        [e.Name])) := by
  rw [mergeModules]
  simp only [MTA.GetModuleByName, h]

theorem mergeModules_cons_found (mtaObj : MTA) (e : ModuleExt) (rest : List ModuleExt)
    (module : Module) (h : findByName Module.Name e.Name mtaObj.Modules = some module) :
    mergeModules mtaObj (e :: rest) =
      if (mergeModule module e).2 = none then
        mergeModules
          { mtaObj with
            Modules := storeByName Module.Name e.Name (mergeModule module e).1
              mtaObj.Modules }
          rest
      else
        ({ mtaObj with
            Modules := storeByName Module.Name e.Name (mergeModule module e).1
              mtaObj.Modules },
          (mergeModule module e).2) := by
  rw [mergeModules]
  simp only [MTA.GetModuleByName, h]
  cases hr : (mergeModule module e).2 <;> simp

/-- The merge of modules keeps the names of the modules and does not touch the
resources. -/
theorem mergeModules_names (l : List ModuleExt) :
    ∀ mtaObj : MTA,
      (mergeModules mtaObj l).1.Modules.map Module.names =
          mtaObj.Modules.map Module.names ∧
        (mergeModules mtaObj l).1.Resources = mtaObj.Resources := by
  induction l with
  | nil => intro mtaObj; rw [mergeModules_nil]; exact ⟨rfl, rfl⟩
  | cons e rest ih =>
    intro mtaObj
    cases hf : findByName Module.Name e.Name mtaObj.Modules with
    | none => rw [mergeModules_cons_unknown mtaObj e rest hf]; exact ⟨rfl, rfl⟩
    | some module =>
      have hstore := storeByName_map Module.Name Module.names e.Name
        (mergeModule module e).1 module mtaObj.Modules hf (mergeModule_names module e)
      rw [mergeModules_cons_found mtaObj e rest module hf]
      split
      · obtain ⟨h1, h2⟩ := ih { mtaObj with
          Modules := storeByName Module.Name e.Name (mergeModule module e).1
            mtaObj.Modules }
        exact ⟨h1.trans hstore, h2⟩
      · exact ⟨hstore, rfl⟩

theorem mergeModules_append (xs ys : List ModuleExt) :
    ∀ mtaObj : MTA,
      mergeModules mtaObj (xs ++ ys) =
        if (mergeModules mtaObj xs).2 = none then
          mergeModules (mergeModules mtaObj xs).1 ys
        else mergeModules mtaObj xs := by
  induction xs with
  | nil => intro mtaObj; simp [mergeModules_nil]
  | cons e rest ih =>
    intro mtaObj
    rw [List.cons_append]
    cases hf : findByName Module.Name e.Name mtaObj.Modules with
    | none =>
      rw [mergeModules_cons_unknown mtaObj e _ hf, mergeModules_cons_unknown mtaObj e _ hf]
      simp
    | some module =>
      rw [mergeModules_cons_found mtaObj e _ module hf,
        mergeModules_cons_found mtaObj e _ module hf]
      split
      · exact ih _
      · rfl

theorem mergeModules_prefix_ok (xs ys : List ModuleExt) (mtaObj : MTA)
    (hok : (mergeModules mtaObj (xs ++ ys)).2 = none) :
    (mergeModules mtaObj xs).2 = none := by
  by_contra h
  rw [mergeModules_append, if_neg h] at hok
  exact h hok

/-- An entry that names a module the descriptor does not have fails with the message
for it, once the entries around it merge. -/
theorem mergeModules_unknown (pre post : List ModuleExt) (M : ModuleExt) (mtaObj : MTA)
    (hname : M.Name ∉ mtaObj.Modules.map Module.Name)
    (hok : (mergeModules mtaObj (pre ++ post)).2 = none) :
    (mergeModules mtaObj (pre ++ M :: post)).2 =
      some (Wrapf (Errorf moduleNotDefinedMsg [M.Name]) unknownModuleErrorMsg [M.Name]) := by
  have hpre := mergeModules_prefix_ok pre post mtaObj hok
  rw [mergeModules_append, if_pos hpre]
  have hnone : findByName Module.Name M.Name (mergeModules mtaObj pre).1.Modules = none := by
    rw [findByName_eq_none_iff]
    have h3 := congrArg (List.map Prod.fst) (mergeModules_names pre mtaObj).1
    simp only [List.map_map] at h3
    exact h3 ▸ hname
  rw [mergeModules_cons_unknown _ M post hnone]

/-- A failure inside a module entry, shown for every state of the module with the
names the descriptor gives it, is the failure of the merge of the modules once the
entries merge with the entry `M1` in the place of `M`. -/
theorem mergeModules_lift (pre post : List ModuleExt) (M M1 : ModuleExt) (mtaObj : MTA)
    (bm : Module) (err : String) (hN : M1.Name = M.Name)
    (hbm : findByName Module.Name M.Name mtaObj.Modules = some bm)
    (hstep : ∀ module : Module, module.names = bm.names →
      (mergeModule module M1).2 = none → (mergeModule module M).2 = some err)
    (hok : (mergeModules mtaObj (pre ++ M1 :: post)).2 = none) :
    (mergeModules mtaObj (pre ++ M :: post)).2 = some err := by
  have hpre := mergeModules_prefix_ok pre _ mtaObj hok
  rw [mergeModules_append, if_pos hpre] at hok ⊢
  obtain ⟨m1, hfind, hsame⟩ := findByName_of_map_eq Module.Name Module.names Prod.fst
    (fun _ => rfl) M.Name _ _ (mergeModules_names pre mtaObj).1 bm hbm
  have hfind1 : findByName Module.Name M1.Name (mergeModules mtaObj pre).1.Modules =
      some m1 := by rw [hN]; exact hfind
  rw [mergeModules_cons_found _ M1 post m1 hfind1] at hok
  have hbody : (mergeModule m1 M1).2 = none := by
    by_contra h
    rw [if_neg h] at hok
    exact h hok
  rw [mergeModules_cons_found _ M post m1 hfind, hstep m1 hsame hbody]
  simp

/-! ## Resources -/

theorem mergeResource_names (resource : Resource) (extResource : ResourceExt) :
    (mergeResource resource extResource).1.names = resource.names := by
  simp only [mergeResource]
  split
  · rfl
  · simp only [Resource.names, mergeRequires_names]
    rfl

/-- A resource entry that names a required interface the resource does not have fails
with the message for it, once the resource entry merges without that entry. -/
theorem mergeResource_requires_unknown (resource : Resource) (R : ResourceExt)
    (qpre qpost : List Requires) (q : Requires)
    (hR : R.Requires = qpre ++ q :: qpost)
    (hname : q.Name ∉ resource.Requires.map Requires.Name)
    (hok : (mergeResource resource { R with Requires := qpre ++ qpost }).2 = none) :
    (mergeResource resource R).2 =
      some (Errorf unknownResourceRequiresErrorMsg [q.Name, R.Name]) := by
  simp only [mergeResource] at hok ⊢
  have hF : mergeResourceFields resource { R with Requires := qpre ++ qpost } =
      mergeResourceFields resource R := rfl
  rw [hF] at hok
  cases hs : (mergeResourceFields resource R).2 with
  | some err => rw [hs] at hok; simp at hok
  | none =>
    rw [hs] at hok
    simp only [hR] at hok ⊢
    have hname1 : q.Name ∉
        (mergeResourceFields resource R).1.Requires.map Requires.Name := hname
    rw [mergeRequires_unknown _ _ _ qpre qpost _ q hname1 hok]
    rfl

theorem mergeResources_nil (mtaObj : MTA) :
    mergeResources mtaObj [] = (mtaObj, none) := by
  rw [mergeResources]

theorem mergeResources_cons_unknown (mtaObj : MTA) (e : ResourceExt)
    (rest : List ResourceExt)
    (h : findByName Resource.Name e.Name mtaObj.Resources = none) :
    mergeResources mtaObj (e :: rest) =
      (mtaObj, some (Wrapf (Errorf resourceNotDefinedMsg [e.Name]) unknownResourceErrorMsg
        [e.Name])) := by
  rw [mergeResources]
  simp only [MTA.GetResourceByName, h]

theorem mergeResources_cons_found (mtaObj : MTA) (e : ResourceExt)
    (rest : List ResourceExt) (resource : Resource)
    (h : findByName Resource.Name e.Name mtaObj.Resources = some resource) :
    mergeResources mtaObj (e :: rest) =
      if (mergeResource resource e).2 = none then
        mergeResources
          { mtaObj with
            Resources := storeByName Resource.Name e.Name (mergeResource resource e).1
              mtaObj.Resources }
          rest
      else
        ({ mtaObj with
            Resources := storeByName Resource.Name e.Name (mergeResource resource e).1
              mtaObj.Resources },
          (mergeResource resource e).2) := by
  rw [mergeResources]
  simp only [MTA.GetResourceByName, h]
  cases hr : (mergeResource resource e).2 <;> simp

/-- The merge of resources keeps the names of the resources and does not touch the
modules. -/
theorem mergeResources_names (l : List ResourceExt) :
    ∀ mtaObj : MTA,
      (mergeResources mtaObj l).1.Resources.map Resource.names =
          mtaObj.Resources.map Resource.names ∧
        (mergeResources mtaObj l).1.Modules = mtaObj.Modules := by
  induction l with
  | nil => intro mtaObj; rw [mergeResources_nil]; exact ⟨rfl, rfl⟩
  | cons e rest ih =>
    intro mtaObj
    cases hf : findByName Resource.Name e.Name mtaObj.Resources with
    | none => rw [mergeResources_cons_unknown mtaObj e rest hf]; exact ⟨rfl, rfl⟩
    | some resource =>
      have hstore := storeByName_map Resource.Name Resource.names e.Name
        (mergeResource resource e).1 resource mtaObj.Resources hf
        (mergeResource_names resource e)
      rw [mergeResources_cons_found mtaObj e rest resource hf]
      split
      · obtain ⟨h1, h2⟩ := ih { mtaObj with
          Resources := storeByName Resource.Name e.Name (mergeResource resource e).1
            mtaObj.Resources }
        exact ⟨h1.trans hstore, h2⟩
      · exact ⟨hstore, rfl⟩

theorem mergeResources_append (xs ys : List ResourceExt) :
    ∀ mtaObj : MTA,
      mergeResources mtaObj (xs ++ ys) =
        if (mergeResources mtaObj xs).2 = none then
          mergeResources (mergeResources mtaObj xs).1 ys
        else mergeResources mtaObj xs := by
  induction xs with
  | nil => intro mtaObj; simp [mergeResources_nil]
  | cons e rest ih =>
    intro mtaObj
    rw [List.cons_append]
    cases hf : findByName Resource.Name e.Name mtaObj.Resources with
    | none =>
      rw [mergeResources_cons_unknown mtaObj e _ hf,
        mergeResources_cons_unknown mtaObj e _ hf]
      simp
    | some resource =>
      rw [mergeResources_cons_found mtaObj e _ resource hf,
        mergeResources_cons_found mtaObj e _ resource hf]
      split
      · exact ih _
      · rfl

theorem mergeResources_prefix_ok (xs ys : List ResourceExt) (mtaObj : MTA)
    (hok : (mergeResources mtaObj (xs ++ ys)).2 = none) :
    (mergeResources mtaObj xs).2 = none := by
  by_contra h
  rw [mergeResources_append, if_neg h] at hok
  exact h hok

/-- An entry that names a resource the descriptor does not have fails with the
message for it, once the entries around it merge. -/
theorem mergeResources_unknown (pre post : List ResourceExt) (R : ResourceExt)
    (mtaObj : MTA) (hname : R.Name ∉ mtaObj.Resources.map Resource.Name)
    (hok : (mergeResources mtaObj (pre ++ post)).2 = none) :
    (mergeResources mtaObj (pre ++ R :: post)).2 =
      some (Wrapf (Errorf resourceNotDefinedMsg [R.Name]) unknownResourceErrorMsg
        [R.Name]) := by
  have hpre := mergeResources_prefix_ok pre post mtaObj hok
  rw [mergeResources_append, if_pos hpre]
  have hnone : findByName Resource.Name R.Name
      (mergeResources mtaObj pre).1.Resources = none := by
    rw [findByName_eq_none_iff]
    have h3 := congrArg (List.map Prod.fst) (mergeResources_names pre mtaObj).1
    simp only [List.map_map] at h3
    exact h3 ▸ hname
  rw [mergeResources_cons_unknown _ R post hnone]

/-- A resource entry that names a required interface the resource does not have fails
with the message for it, once the entries merge without it. -/
theorem mergeResources_requires_unknown (pre post : List ResourceExt) (R : ResourceExt)
    (mtaObj : MTA) (br : Resource) (qpre qpost : List Requires) (q : Requires)
    (hbr : findByName Resource.Name R.Name mtaObj.Resources = some br)
    (hR : R.Requires = qpre ++ q :: qpost)
    (hname : q.Name ∉ br.Requires.map Requires.Name)
    (hok : (mergeResources mtaObj
      (pre ++ { R with Requires := qpre ++ qpost } :: post)).2 = none) :
    (mergeResources mtaObj (pre ++ R :: post)).2 =
      some (Errorf unknownResourceRequiresErrorMsg [q.Name, R.Name]) := by
  have hpre := mergeResources_prefix_ok pre _ mtaObj hok
  rw [mergeResources_append, if_pos hpre] at hok ⊢
  obtain ⟨r1, hfind, hsame⟩ := findByName_of_map_eq Resource.Name Resource.names
    Prod.fst (fun _ => rfl) R.Name _ _ (mergeResources_names pre mtaObj).1 br hbr
  have hname1 : q.Name ∉ r1.Requires.map Requires.Name := by
    have h5 : r1.Requires.map Requires.Name = br.Requires.map Requires.Name := by
      simp only [Resource.names, Prod.mk.injEq] at hsame
      exact hsame.2
    rw [h5]; exact hname
  rw [mergeResources_cons_found _ { R with Requires := qpre ++ qpost } post r1 hfind]
    at hok
  have hbody : (mergeResource r1 { R with Requires := qpre ++ qpost }).2 = none := by
    by_contra h
    rw [if_neg h] at hok
    exact h hok
  rw [mergeResources_cons_found _ R post r1 hfind,
    mergeResource_requires_unknown r1 R qpre qpost q hR hname1 hbody]
  simp

/-! ## The steps of `Merge` -/

theorem Merge_ok_inv (mtaObj : MTA) (mtaExt : EXT) (h : (Merge mtaObj mtaExt).2 = none) :
    (mergeRootParameters mtaObj mtaExt).2 = none ∧
    (mergeModules (mergeRootParameters mtaObj mtaExt).1 mtaExt.Modules).2 = none ∧
    (mergeResources (mergeModules (mergeRootParameters mtaObj mtaExt).1 mtaExt.Modules).1
      mtaExt.Resources).2 = none := by
  simp only [Merge] at h
  cases h1 : (mergeRootParameters mtaObj mtaExt).2 with
  | some err => rw [h1] at h; simp at h
  | none =>
    rw [h1] at h
    cases h2 : (mergeModules (mergeRootParameters mtaObj mtaExt).1 mtaExt.Modules).2 with
    | some err => rw [h2] at h; simp at h
    | none =>
      rw [h2] at h
      cases h3 : (mergeResources
        (mergeModules (mergeRootParameters mtaObj mtaExt).1 mtaExt.Modules).1
        mtaExt.Resources).2 with
      | some err => rw [h3] at h; simp at h
      | none => exact ⟨rfl, rfl, rfl⟩

theorem Merge_modules_failure (mtaObj : MTA) (mtaExt : EXT) (err : String)
    (h1 : (mergeRootParameters mtaObj mtaExt).2 = none)
    (h2 : (mergeModules (mergeRootParameters mtaObj mtaExt).1 mtaExt.Modules).2 =
      some err) :
    (Merge mtaObj mtaExt).2 = some (Wrapf err mergeModulesErrorMsg [mtaExt.ID]) := by
  simp only [Merge, h1, h2]

theorem Merge_resources_failure (mtaObj : MTA) (mtaExt : EXT) (err : String)
    (h1 : (mergeRootParameters mtaObj mtaExt).2 = none)
    (h2 : (mergeModules (mergeRootParameters mtaObj mtaExt).1 mtaExt.Modules).2 = none)
    (h3 : (mergeResources
      (mergeModules (mergeRootParameters mtaObj mtaExt).1 mtaExt.Modules).1
      mtaExt.Resources).2 = some err) :
    (Merge mtaObj mtaExt).2 = some (Wrapf err mergeResourcesErrorMsg [mtaExt.ID]) := by
  simp only [Merge, h1, h2, h3]

theorem Wrapf_eq (err : String) (format args : List String) :
    Wrapf err format args = Sprintf format args ++ ": " ++ err := rfl

/-- C4: when the extension names, at one place, a module, a provided interface, a
required interface (of a module, of a hook or of a resource), a hook or a resource
that the descriptor does not have by that exact name, and the extension without that
entry merges, `Merge` returns an error; its message is the message of the step with
the ID of the extension, then the message that names the entity and says that it is
defined in the MTA extension but not in the "mta.yaml" file, then the cause that the
lookup gave, if any. -/
theorem Merge_unknown_entity (B : MTA) (E E1 : EXT) (step : List String) (text : String)
    (hunknown : UnknownEntity B E E1 step text)
    (hrest : (Merge B E1).2 = none) :
    (∃ cause, (Merge B E).2 = some (Sprintf step [E.ID] ++ ": " ++ (text ++ cause))) ∧
    ∃ subject, text =
      subject ++ " is defined in the MTA extension but not in the \"mta.yaml\" file" := by
  obtain ⟨hroot, hmods, hres⟩ := Merge_ok_inv B E1 hrest
  cases hunknown with
  | module id ps mpre mpost rs M hname =>
    refine ⟨⟨": " ++ Errorf moduleNotDefinedMsg [M.Name], ?_⟩,
      ⟨"the \"" ++ M.Name ++ "\" module", ?_⟩⟩
    · have herr := mergeModules_unknown mpre mpost M
        (mergeRootParameters B ⟨id, ps, mpre ++ mpost, rs⟩).1 hname hmods
      rw [Merge_modules_failure B ⟨id, ps, mpre ++ M :: mpost, rs⟩ _ hroot herr, Wrapf_eq,
        Wrapf_eq, String.append_assoc (Sprintf unknownModuleErrorMsg [M.Name])]
    · simp [Sprintf, unknownModuleErrorMsg, String.append_assoc]
  | moduleProvides id ps mpre mpost rs M bm ppre ppost p hbm hM hname =>
    refine ⟨⟨"", ?_⟩, ⟨"the \"" ++ p.Name ++ "\" provides in the \"" ++ M.Name ++ "\" module", ?_⟩⟩
    · have herr := mergeModules_lift mpre mpost M { M with Provides := ppre ++ ppost }
        (mergeRootParameters B ⟨id, ps, mpre ++ M :: mpost, rs⟩).1 bm
        (Errorf unknownModuleProvidesErrorMsg [p.Name, M.Name]) rfl hbm
        (fun module hn hok => mergeModule_provides_unknown module M ppre ppost p hM
          (by
            have h2 : module.Provides.map Provides.Name = bm.Provides.map Provides.Name := by
              simp only [Module.names, Prod.mk.injEq] at hn
              exact hn.2.1
            rw [h2]; exact hname) hok)
        hmods
      rw [Merge_modules_failure B ⟨id, ps, mpre ++ M :: mpost, rs⟩ _ hroot herr, Wrapf_eq]
      simp [Errorf]
    · simp [Sprintf, unknownModuleProvidesErrorMsg, String.append_assoc]
  | moduleRequires id ps mpre mpost rs M bm qpre qpost q hbm hM hname =>
    refine ⟨⟨"", ?_⟩, ⟨"the \"" ++ q.Name ++ "\" requires in the \"" ++ M.Name ++ "\" module", ?_⟩⟩
    · have herr := mergeModules_lift mpre mpost M { M with Requires := qpre ++ qpost }
        (mergeRootParameters B ⟨id, ps, mpre ++ M :: mpost, rs⟩).1 bm
        (Errorf unknownModuleRequiresErrorMsg [q.Name, M.Name]) rfl hbm
        (fun module hn hok => mergeModule_requires_unknown module M qpre qpost q hM
          (by
            have h2 : module.Requires.map Requires.Name = bm.Requires.map Requires.Name := by
              simp only [Module.names, Prod.mk.injEq] at hn
              exact hn.2.2.1
            rw [h2]; exact hname) hok)
        hmods
      rw [Merge_modules_failure B ⟨id, ps, mpre ++ M :: mpost, rs⟩ _ hroot herr, Wrapf_eq]
      simp [Errorf]
    · simp [Sprintf, unknownModuleRequiresErrorMsg, String.append_assoc]
  | moduleHook id ps mpre mpost rs M bm hpre hpost H hbm hM hname =>
    refine ⟨⟨"", ?_⟩, ⟨"the \"" ++ H.Name ++ "\" hook in the \"" ++ M.Name ++ "\" module", ?_⟩⟩
    · have herr := mergeModules_lift mpre mpost M { M with Hooks := hpre ++ hpost }
        (mergeRootParameters B ⟨id, ps, mpre ++ M :: mpost, rs⟩).1 bm
        (Errorf unknownModuleHookErrorMsg [H.Name, M.Name]) rfl hbm
        (fun module hn hok => mergeModule_hook_unknown module M hpre hpost H hM
          (by
            have h2 : module.Hooks.map Hook.names = bm.Hooks.map Hook.names := by
              simp only [Module.names, Prod.mk.injEq] at hn
              exact hn.2.2.2
            have h3 := congrArg (List.map Prod.fst) h2
            simp only [List.map_map] at h3
            exact h3 ▸ hname) hok)
        hmods
      rw [Merge_modules_failure B ⟨id, ps, mpre ++ M :: mpost, rs⟩ _ hroot herr, Wrapf_eq]
      simp [Errorf]
    · simp [Sprintf, unknownModuleHookErrorMsg, String.append_assoc]
  | moduleHookRequires id ps mpre mpost rs M bm hpre hpost H bh qpre qpost q hbm hM hbh
      hH hname =>
    refine ⟨⟨"", ?_⟩, ⟨"the \"" ++ q.Name ++ "\" requires in the \"" ++ H.Name ++
      "\" hook of the \"" ++ M.Name ++ "\" module", ?_⟩⟩
    · have herr := mergeModules_lift mpre mpost M
        { M with Hooks := hpre ++ { H with Requires := qpre ++ qpost } :: hpost }
        (mergeRootParameters B ⟨id, ps, mpre ++ M :: mpost, rs⟩).1 bm
        (Errorf unknownModuleHookRequiresErrorMsg [q.Name, H.Name, M.Name]) rfl hbm
        (fun module hn hok => mergeModule_hook_requires_unknown module M hpre hpost H bh
          qpre qpost q hM
          (by
            have h2 : module.Hooks.map Hook.names = bm.Hooks.map Hook.names := by
              simp only [Module.names, Prod.mk.injEq] at hn
              exact hn.2.2.2
            rw [findByName_map_congr Hook.Name Hook.names Prod.fst (fun _ => rfl) H.Name
              _ _ h2, hbh]
            rfl) hH hname hok)
        hmods
      rw [Merge_modules_failure B ⟨id, ps, mpre ++ M :: mpost, rs⟩ _ hroot herr, Wrapf_eq]
      simp [Errorf]
    · simp [Sprintf, unknownModuleHookRequiresErrorMsg, String.append_assoc]
  | resource id ps ms rpre rpost R hname =>
    refine ⟨⟨": " ++ Errorf resourceNotDefinedMsg [R.Name], ?_⟩,
      ⟨"the \"" ++ R.Name ++ "\" resource", ?_⟩⟩
    · have hname1 : R.Name ∉ (mergeModules
          (mergeRootParameters B ⟨id, ps, ms, rpre ++ rpost⟩).1 ms).1.Resources.map
            Resource.Name := by
        rw [(mergeModules_names ms _).2]; exact hname
      have herr := mergeResources_unknown rpre rpost R _ hname1 hres
      rw [Merge_resources_failure B ⟨id, ps, ms, rpre ++ R :: rpost⟩ _ hroot hmods herr,
        Wrapf_eq, Wrapf_eq, String.append_assoc (Sprintf unknownResourceErrorMsg [R.Name])]
    · simp [Sprintf, unknownResourceErrorMsg, String.append_assoc]
  | resourceRequires id ps ms rpre rpost R br qpre qpost q hbr hR hname =>
    refine ⟨⟨"", ?_⟩, ⟨"the \"" ++ q.Name ++ "\" requires in the \"" ++ R.Name ++
      "\" resource", ?_⟩⟩
    · have hbr1 : findByName Resource.Name R.Name (mergeModules
          (mergeRootParameters B ⟨id, ps, ms, rpre ++ R :: rpost⟩).1 ms).1.Resources =
            some br := by
        rw [(mergeModules_names ms _).2]; exact hbr
      have herr := mergeResources_requires_unknown rpre rpost R _ br qpre qpost q hbr1 hR
        hname hres
      rw [Merge_resources_failure B ⟨id, ps, ms, rpre ++ R :: rpost⟩ _ hroot hmods herr,
        Wrapf_eq]
      simp [Errorf]
    · simp [Sprintf, unknownResourceRequiresErrorMsg, String.append_assoc]

set_option maxRecDepth 100000 in
/-- The witnesses of C4: an extension that names the resource `cache` next to an
entry for `db`, and one whose entry for the hook `start` of the module `web` names the
required interface `queue`; the descriptor has neither. -/
theorem Merge_unknown_entity_witness :
    ((∃ cause, (Merge sampleBase ⟨"ext", none, [], [sampleDbEntry] ++ sampleCacheEntry :: []⟩).2 =
        some (Sprintf mergeResourcesErrorMsg ["ext"] ++ ": " ++
          (Sprintf unknownResourceErrorMsg ["cache"] ++ cause))) ∧
      ∃ subject, Sprintf unknownResourceErrorMsg ["cache"] =
        subject ++ " is defined in the MTA extension but not in the \"mta.yaml\" file") ∧
    ((∃ cause, (Merge sampleBase ⟨"ext", none, [] ++ sampleWebEntry :: [], []⟩).2 =
        some (Sprintf mergeModulesErrorMsg ["ext"] ++ ": " ++
          (Sprintf unknownModuleHookRequiresErrorMsg ["queue", "start", "web"] ++ cause))) ∧
      ∃ subject, Sprintf unknownModuleHookRequiresErrorMsg ["queue", "start", "web"] =
        subject ++ " is defined in the MTA extension but not in the \"mta.yaml\" file") ∧
    (Merge sampleBase ⟨"ext", none, [], [sampleDbEntry] ++ sampleCacheEntry :: []⟩).2 =
      some ("could not merge resources from MTA extension with ID \"ext\": " ++
        "the \"cache\" resource is defined in the MTA extension but not in the " ++
        "\"mta.yaml\" file: the \"cache\" resource is not defined") ∧
    (Merge sampleBase ⟨"ext", none, [] ++ sampleWebEntry :: [], []⟩).2 =
      some ("could not merge modules from MTA extension with ID \"ext\": " ++
        "the \"queue\" requires in the \"start\" hook of the \"web\" module is defined " ++
        "in the MTA extension but not in the \"mta.yaml\" file") :=
  ⟨Merge_unknown_entity sampleBase _ _ _ _
      (UnknownEntity.resource "ext" none [] [sampleDbEntry] [] sampleCacheEntry
        (by decide))
      (by decide),
    Merge_unknown_entity sampleBase _ _ _ _
      (UnknownEntity.moduleHookRequires "ext" none [] [] [] sampleWebEntry sampleWeb
        [] [] sampleStartEntry sampleStart [] [] sampleQueue rfl rfl rfl rfl (by decide))
      (by decide),
    by decide, by decide⟩

/-! ## Keys of a map under the merge -/

theorem Table.find?_isSome_iff_mem_keys (m : Table) (k : String) :
    (Table.find? m k).isSome = true ↔ k ∈ Table.keys m := by
  induction m with
  | nil => simp [Table.find?, Table.keys]
  | cons p t ih =>
    obtain ⟨k1, v⟩ := p
    by_cases h : k1 = k
    · simp [Table.find?, Table.keys, h]
    · have ih1 : (Table.find? t k).isSome = true ↔ k ∈ List.map Prod.fst t := ih
      simp [Table.find?, Table.keys, h, ih1, Ne.symm h]

theorem Table.set_eq_self (m : Table) (key : String) (value : Value)
    (h : Table.find? m key = some value) : Table.set m key value = m := by
  induction m with
  | nil => simp [Table.find?] at h
  | cons p t ih =>
    obtain ⟨k1, v⟩ := p
    by_cases h1 : k1 = key
    · simp [Table.find?, h1] at h
      simp [Table.set, h1, h]
    · simp [Table.find?, h1] at h
      simp [Table.set, h1, ih h]

/-- What `mergeMapKey` does depends on the map only through the entry of the key: when
it succeeds it writes a value that the entry and the value of the extension fix. -/
theorem mergeMapKey_ok_writes (m : Table) (key : String) (value : Value)
    (hok : (mergeMapKey m key value).2 = none) :
    ∃ written : Value, ∀ m1 : Table, Table.find? m1 key = Table.find? m key →
      mergeMapKey m1 key value = (Table.set m1 key written, none) := by
  by_cases h1 : ((Table.index m key).isNil || value.isNil ||
      (!value.isMap && !(Table.index m key).isMap)) = true
  · refine ⟨value, fun m1 hm1 => ?_⟩
    have hi : Table.index m1 key = Table.index m key := by simp [Table.index, hm1]
    exact mergeMapKey_replace m1 key value (by rw [hi]; exact h1)
  · have h1' := h1
    simp only [Bool.or_eq_true, Bool.and_eq_true, Bool.not_eq_true', not_or, not_and,
      Bool.not_eq_true] at h1
    obtain ⟨⟨hnil, hval⟩, hmap⟩ := h1
    cases hc : (Table.index m key).isMap
    · have hext : value.isMap = true := by
        cases hv : value.isMap
        · exact absurd hc (by simp [hmap hv])
        · rfl
      rw [mergeMapKey_scalar_structured m key value hnil hc hext] at hok
      exact Option.noConfusion hok
    · cases hv : value.isMap
      · rw [mergeMapKey_structured_scalar m key value hval hc hv] at hok
        exact Option.noConfusion hok
      · obtain ⟨c, hc1⟩ : ∃ c, Table.index m key = Value.map c := by
          cases hi : Table.index m key <;> simp [hi, Value.isMap] at hc ⊢
        obtain ⟨e, he⟩ : ∃ e, value = Value.map e := by
          cases value <;> simp [Value.isMap] at hv ⊢
        subst he
        refine ⟨Value.map (extendMapLoop c none e).1, fun m1 hm1 => ?_⟩
        have hi : Table.index m1 key = Value.map c := by
          rw [← hc1]; simp [Table.index, hm1]
        rw [mergeMapKey_maps m key c e hc1] at hok
        rw [mergeMapKey_maps m1 key c e hi]
        simp only [Option.map_eq_none'] at hok
        rw [hok]
        rfl

/-- A failed `mergeMapKey` leaves the key in the map if it was there; a successful one
puts it there. -/
theorem mergeMapKey_keys (m : Table) (key k : String) (value : Value) :
    (k ∈ Table.keys m → k ∈ Table.keys (mergeMapKey m key value).1) ∧
    ((mergeMapKey m key value).2 = none → key ∈ Table.keys (mergeMapKey m key value).1) ∧
    (k ∈ Table.keys (mergeMapKey m key value).1 → k ∈ Table.keys m ∨ k = key) := by
  refine ⟨?_, ?_, ?_⟩
  · intro hk
    by_cases hne : k = key
    · subst hne
      cases hr : (mergeMapKey m k value).2 with
      | none =>
        obtain ⟨w, hw⟩ := mergeMapKey_ok_writes m k value hr
        rw [hw m rfl, ← Table.find?_isSome_iff_mem_keys, Table.find?_set_self]
        rfl
      | some err =>
        by_cases h1 : ((Table.index m k).isNil || value.isNil ||
            (!value.isMap && !(Table.index m k).isMap)) = true
        · rw [mergeMapKey_replace m k value h1] at hr
          exact Option.noConfusion hr
        · simp only [Bool.or_eq_true, Bool.and_eq_true, Bool.not_eq_true', not_or, not_and,
            Bool.not_eq_true] at h1
          obtain ⟨⟨hnil, hval⟩, hmap⟩ := h1
          cases hc : (Table.index m k).isMap
          · have hext : value.isMap = true := by
              cases hv : value.isMap
              · exact absurd hc (by simp [hmap hv])
              · rfl
            rw [mergeMapKey_scalar_structured m k value hnil hc hext]
            exact hk
          · cases hv : value.isMap
            · rw [mergeMapKey_structured_scalar m k value hval hc hv]
              exact hk
            · obtain ⟨c, hc1⟩ : ∃ c, Table.index m k = Value.map c := by
                cases hi : Table.index m k <;> simp [hi, Value.isMap] at hc ⊢
              obtain ⟨e, he⟩ : ∃ e, value = Value.map e := by
                cases value <;> simp [Value.isMap] at hv ⊢
              subst he
              rw [mergeMapKey_maps m k c e hc1, ← Table.find?_isSome_iff_mem_keys,
                Table.find?_set_self]
              rfl
    · rw [← Table.find?_isSome_iff_mem_keys, mergeMapKey_find?_of_ne m key k value hne,
        Table.find?_isSome_iff_mem_keys]
      exact hk
  · intro hr
    obtain ⟨w, hw⟩ := mergeMapKey_ok_writes m key value hr
    rw [hw m rfl, ← Table.find?_isSome_iff_mem_keys, Table.find?_set_self]
    rfl
  · intro hk
    by_cases hne : k = key
    · exact Or.inr hne
    · left
      rw [← Table.find?_isSome_iff_mem_keys, mergeMapKey_find?_of_ne m key k value hne,
        Table.find?_isSome_iff_mem_keys] at hk
      exact hk

/-- The keys of the map after the loop: none is lost, none comes from elsewhere than
the extension, and after a success every key of the extension is there. -/
theorem extendMapLoop_keys (meta : Option MetaTable) (ext : Table) :
    ∀ (m : Table) (k : String),
      (k ∈ Table.keys m → k ∈ Table.keys (extendMapLoop m meta ext).1) ∧
      (k ∈ Table.keys (extendMapLoop m meta ext).1 → k ∈ Table.keys m ∨ k ∈ Table.keys ext) ∧
      ((extendMapLoop m meta ext).2 = none → k ∈ Table.keys ext →
        k ∈ Table.keys (extendMapLoop m meta ext).1) := by
  induction ext with
  | nil =>
    intro m k
    rw [extendMapLoop_nil]
    exact ⟨id, Or.inl, fun _ h => by simp [Table.keys] at h⟩
  | cons p rest ih =>
    obtain ⟨key, value⟩ := p
    intro m k
    obtain ⟨hk1, hk2, hk3⟩ := mergeMapKey_keys m key k value
    have hcons : k ∈ Table.keys ((key, value) :: rest) ↔ k = key ∨ k ∈ Table.keys rest := by
      simp [Table.keys]
    rw [extendMapLoop_cons]
    by_cases h : isFieldOverWritable key meta (some m) = true
    · rw [if_pos h]
      by_cases h1 : (mergeMapKey m key value).2 = none
      · rw [if_pos h1]
        obtain ⟨i1, i2, i3⟩ := ih (mergeMapKey m key value).1 k
        refine ⟨fun hk => i1 (hk1 hk), fun hk => ?_, fun hok hmem => ?_⟩
        · rcases i2 hk with h2 | h2
          · rcases hk3 h2 with h3 | h3
            · exact Or.inl h3
            · exact Or.inr (hcons.2 (Or.inl h3))
          · exact Or.inr (hcons.2 (Or.inr h2))
        · rcases hcons.1 hmem with h2 | h2
          · subst h2
            exact i1 (hk2 h1)
          · exact i3 hok h2
      · rw [if_neg h1]
        refine ⟨hk1, fun hk => ?_, fun hok _ => absurd hok h1⟩
        rcases hk3 hk with h3 | h3
        · exact Or.inl h3
        · exact Or.inr (hcons.2 (Or.inl h3))
    · rw [if_neg h]
      exact ⟨id, Or.inl, fun hok _ => Option.noConfusion hok⟩

/-- C20: `extendMap` touches the keys of the extension map only. Whether the call
succeeds or fails, a key that the extension map does not have holds after the call
what it held before, or is absent as before; after a successful call the keys of the
base map are its keys before the call together with the keys of the extension map.
A nil map is read as a map without entries. -/
theorem extendMap_frame (m : GoMap) (meta : Option MetaTable) (ext : GoMap) :
    (∀ k, k ∉ Table.keys (ext.getD []) →
      Table.find? ((extendMap m meta ext).1.getD []) k = Table.find? (m.getD []) k) ∧
    ((extendMap m meta ext).2 = none → ∀ k,
      k ∈ Table.keys ((extendMap m meta ext).1.getD []) ↔
        k ∈ Table.keys (m.getD []) ∨ k ∈ Table.keys (ext.getD [])) := by
  cases ext with
  | none =>
    refine ⟨fun k _ => rfl, fun _ k => ?_⟩
    simp [extendMap, Table.keys]
  | some e =>
    have hrun : (extendMap m meta (some e)).1.getD [] =
        (extendMapLoop (m.getD []) meta e).1 := rfl
    have herr : (extendMap m meta (some e)).2 = (extendMapLoop (m.getD []) meta e).2 := rfl
    rw [hrun, herr]
    refine ⟨fun k hk => extendMapLoop_find?_of_not_mem meta e _ k hk, fun hok k => ?_⟩
    obtain ⟨i1, i2, i3⟩ := extendMapLoop_keys meta e (m.getD []) k
    constructor
    · exact i2
    · rintro (h | h)
      · exact i1 h
      · exact i3 hok h

/-- C14, as amended: with a nil extension map `extendMap` succeeds and leaves the base
map exactly as it was, nil if it was nil; with an empty extension map that is not nil
it succeeds and leaves a present base map exactly as it was, while a nil base map is
an empty map afterwards. -/
theorem extendMap_absent_or_empty (m : GoMap) (meta : Option MetaTable) :
    extendMap m meta none = (m, none) ∧
    extendMap m meta (some []) = (some (m.getD []), none) ∧
    ∀ t : Table, extendMap (some t) meta (some []) = (some t, none) := by
  refine ⟨rfl, ?_, fun t => ?_⟩
  · simp [extendMap, extendMapLoop_nil]
  · simp [extendMap, extendMapLoop_nil]

/-- The counterexample to C14 as stated: the base map is nil and the extension map is
empty but not nil; after the call the base map is not nil any more. -/
theorem extendMap_empty_makes_nil_base_empty :
    extendMap none none (some []) = (some [], none) ∧
    (extendMap none none (some [])).1 ≠ none := by
  constructor
  · rfl
  · intro h
    exact Option.noConfusion h

/-! ## The merge of one key, case by case -/

/-- The four ways `mergeMapKey` can go. -/
theorem mergeMapKey_cases (m : Table) (key : String) (value : Value) :
    (((Table.index m key).isNil = true ∨ value.isNil = true ∨
        ((Table.index m key).isMap = false ∧ value.isMap = false)) ∧
      mergeMapKey m key value = (Table.set m key value, none)) ∨
    (∃ c e, Table.index m key = Value.map c ∧ value = Value.map e ∧
      mergeMapKey m key value =
        (Table.set m key (Value.map (extendMapLoop c none e).1),
          (extendMapLoop c none e).2.map (fun err => Wrapf err quotedKeyMsg [key]))) ∨
    ((Table.index m key).isMap = true ∧ value.isNil = false ∧ value.isMap = false ∧
      mergeMapKey m key value =
        (m, some (Errorf overwriteStructuredWithScalarErrorMsg [key]))) ∨
    ((Table.index m key).isNil = false ∧ (Table.index m key).isMap = false ∧
      value.isMap = true ∧
      mergeMapKey m key value =
        (m, some (Errorf overwriteScalarWithStructuredErrorMsg [key]))) := by
  by_cases h1 : ((Table.index m key).isNil || value.isNil ||
      (!value.isMap && !(Table.index m key).isMap)) = true
  · left
    refine ⟨?_, mergeMapKey_replace m key value h1⟩
    simp only [Bool.or_eq_true, Bool.and_eq_true, Bool.not_eq_true'] at h1
    rcases h1 with (h | h) | ⟨h2, h3⟩
    · exact Or.inl h
    · exact Or.inr (Or.inl h)
    · exact Or.inr (Or.inr ⟨h3, h2⟩)
  · right
    simp only [Bool.or_eq_true, Bool.and_eq_true, Bool.not_eq_true', not_or, not_and,
      Bool.not_eq_true] at h1
    obtain ⟨⟨hnil, hval⟩, hmap⟩ := h1
    cases hc : (Table.index m key).isMap
    · have hext : value.isMap = true := by
        cases hv : value.isMap
        · exact absurd hc (by simp [hmap hv])
        · rfl
      exact Or.inr (Or.inr ⟨hnil, rfl, hext,
        mergeMapKey_scalar_structured m key value hnil hc hext⟩)
    · cases hv : value.isMap
      · exact Or.inr (Or.inl ⟨rfl, hval, rfl,
          mergeMapKey_structured_scalar m key value hval hc hv⟩)
      · obtain ⟨c, hc1⟩ : ∃ c, Table.index m key = Value.map c := by
          cases hi : Table.index m key <;> simp [hi, Value.isMap] at hc ⊢
        obtain ⟨e, he⟩ : ∃ e, value = Value.map e := by
          cases value <;> simp [Value.isMap] at hv ⊢
        subst he
        exact Or.inl ⟨c, e, hc1, rfl, mergeMapKey_maps m key c e hc1⟩

theorem Table.index_congr (m1 m2 : Table) (key : String)
    (h : Table.find? m1 key = Table.find? m2 key) :
    Table.index m1 key = Table.index m2 key := by
  simp [Table.index, h]

/-- The error of `mergeMapKey` and the entry it leaves at the key depend on the map
only through the entry of the key. -/
theorem mergeMapKey_congr (m1 m2 : Table) (key : String) (value : Value)
    (h : Table.find? m1 key = Table.find? m2 key) :
    (mergeMapKey m1 key value).2 = (mergeMapKey m2 key value).2 ∧
    Table.find? (mergeMapKey m1 key value).1 key =
      Table.find? (mergeMapKey m2 key value).1 key := by
  have hi := Table.index_congr m1 m2 key h
  rcases mergeMapKey_cases m2 key value with ⟨hc, hr⟩ | ⟨c, e, hc, he, hr⟩ |
      ⟨hc, hv, hv2, hr⟩ | ⟨hn, hc, hv, hr⟩
  · have hr1 : mergeMapKey m1 key value = (Table.set m1 key value, none) := by
      apply mergeMapKey_replace
      rw [hi]
      rcases hc with h1 | h1 | ⟨h1, h2⟩
      · simp [h1]
      · simp [h1]
      · simp [h1, h2]
    rw [hr, hr1]
    exact ⟨rfl, by rw [Table.find?_set_self, Table.find?_set_self]⟩
  · subst he
    rw [hr, mergeMapKey_maps m1 key c e (hi.trans hc)]
    exact ⟨rfl, by rw [Table.find?_set_self, Table.find?_set_self]⟩
  · rw [hr, mergeMapKey_structured_scalar m1 key value hv (hi ▸ hc) hv2]
    exact ⟨rfl, h⟩
  · rw [hr, mergeMapKey_scalar_structured m1 key value (hi ▸ hn) (hi ▸ hc) hv]
    exact ⟨rfl, h⟩

/-! ## The loop of `extendMap`, key by key -/

theorem Table.keys_cons (key : String) (value : Value) (rest : Table) :
    Table.keys ((key, value) :: rest) = key :: Table.keys rest := rfl

/-- With distinct keys, the loop succeeds exactly when every key of the extension is
accepted by the base map as it was before the call. -/
theorem extendMapLoop_ok_iff (meta : Option MetaTable) (ext : Table) :
    ∀ m : Table, (Table.keys ext).Nodup →
      ((extendMapLoop m meta ext).2 = none ↔
        ∀ p ∈ ext, isFieldOverWritable p.1 meta (some m) = true ∧
          (mergeMapKey m p.1 p.2).2 = none) := by
  induction ext with
  | nil => intro m _; simp [extendMapLoop_nil]
  | cons p rest ih =>
    obtain ⟨key, value⟩ := p
    intro m hnd
    rw [Table.keys_cons, List.nodup_cons] at hnd
    obtain ⟨hkey, hrest⟩ := hnd
    have hstep : ∀ p ∈ rest,
        (isFieldOverWritable p.1 meta (some (mergeMapKey m key value).1) = true ∧
          (mergeMapKey (mergeMapKey m key value).1 p.1 p.2).2 = none) ↔
        (isFieldOverWritable p.1 meta (some m) = true ∧
          (mergeMapKey m p.1 p.2).2 = none) := by
      intro p hp
      have hne : p.1 ≠ key := by
        intro h
        apply hkey
        rw [← h]
        exact List.mem_map_of_mem Prod.fst hp
      have hf := mergeMapKey_find?_of_ne m key p.1 value hne
      rw [isFieldOverWritable_congr p.1 meta _ m hf,
        (mergeMapKey_congr _ m p.1 p.2 hf).1]
    rw [extendMapLoop_cons]
    by_cases h : isFieldOverWritable key meta (some m) = true
    · rw [if_pos h]
      by_cases h1 : (mergeMapKey m key value).2 = none
      · rw [if_pos h1, ih _ hrest]
        constructor
        · intro hall p hp
          rcases List.mem_cons.1 hp with hp | hp
          · subst hp; exact ⟨h, h1⟩
          · exact (hstep p hp).1 (hall p hp)
        · intro hall p hp
          exact (hstep p hp).2 (hall p (List.mem_cons_of_mem _ hp))
      · rw [if_neg h1]
        constructor
        · intro hok; exact absurd hok h1
        · intro hall
          exact absurd (hall (key, value) (List.mem_cons_self _ _)).2 h1
    · rw [if_neg h]
      constructor
      · intro hok; exact Option.noConfusion hok
      · intro hall
        exact absurd (hall (key, value) (List.mem_cons_self _ _)).1 h

/-- With distinct keys, a key of the extension holds after the loop what its own merge
into the base map leaves, or, when the loop failed before reaching it, what it held
before. -/
theorem extendMapLoop_find?_of_mem (meta : Option MetaTable) (ext : Table) :
    ∀ m : Table, (Table.keys ext).Nodup → ∀ p ∈ ext,
      Table.find? (extendMapLoop m meta ext).1 p.1 =
          Table.find? (mergeMapKey m p.1 p.2).1 p.1 ∨
        ((extendMapLoop m meta ext).2 ≠ none ∧
          Table.find? (extendMapLoop m meta ext).1 p.1 = Table.find? m p.1) := by
  induction ext with
  | nil => intro m _ p hp; simp at hp
  | cons q rest ih =>
    obtain ⟨key, value⟩ := q
    intro m hnd p hp
    rw [Table.keys_cons, List.nodup_cons] at hnd
    obtain ⟨hkey, hrest⟩ := hnd
    rw [extendMapLoop_cons]
    rcases List.mem_cons.1 hp with hp | hp
    · subst hp
      by_cases h : isFieldOverWritable key meta (some m) = true
      · rw [if_pos h]
        by_cases h1 : (mergeMapKey m key value).2 = none
        · rw [if_pos h1]
          exact Or.inl (extendMapLoop_find?_of_not_mem meta rest _ key hkey)
        · rw [if_neg h1]
          exact Or.inl rfl
      · rw [if_neg h]
        exact Or.inr ⟨fun h2 => Option.noConfusion h2, rfl⟩
    · have hne : p.1 ≠ key := by
        intro h
        apply hkey
        rw [← h]
        exact List.mem_map_of_mem Prod.fst hp
      have hf := mergeMapKey_find?_of_ne m key p.1 value hne
      by_cases h : isFieldOverWritable key meta (some m) = true
      · rw [if_pos h]
        by_cases h1 : (mergeMapKey m key value).2 = none
        · rw [if_pos h1]
          rcases ih (mergeMapKey m key value).1 hrest p hp with h2 | ⟨h2, h3⟩
          · exact Or.inl (h2.trans (mergeMapKey_congr _ m p.1 p.2 hf).2)
          · exact Or.inr ⟨h2, h3.trans hf⟩
        · rw [if_neg h1]
          exact Or.inr ⟨h1, hf⟩
      · rw [if_neg h]
        exact Or.inr ⟨fun h2 => Option.noConfusion h2, rfl⟩

/-- C11: with the keys of the extension map pairwise distinct, two iteration orders
of the same key/value pairs give the same outcome: `extendMap` succeeds under one
order exactly when it succeeds under the other, and after a success every key holds
the same entry in both resulting maps, so the two maps are the same map. -/
theorem extendMap_order_independent (m : GoMap) (meta : Option MetaTable)
    (xs ys : Table) (hperm : xs.Perm ys) (hnodup : (Table.keys xs).Nodup) :
    ((extendMap m meta (some xs)).2 = none ↔ (extendMap m meta (some ys)).2 = none) ∧
    ((extendMap m meta (some xs)).2 = none → ∀ k,
      Table.find? ((extendMap m meta (some xs)).1.getD []) k =
        Table.find? ((extendMap m meta (some ys)).1.getD []) k) := by
  have hnodupY : (Table.keys ys).Nodup := (hperm.map Prod.fst).nodup_iff.1 hnodup
  have hX := extendMapLoop_ok_iff meta xs (m.getD []) hnodup
  have hY := extendMapLoop_ok_iff meta ys (m.getD []) hnodupY
  have hiff : (extendMapLoop (m.getD []) meta xs).2 = none ↔
      (extendMapLoop (m.getD []) meta ys).2 = none := by
    rw [hX, hY]
    constructor
    · intro h p hp; exact h p (hperm.mem_iff.2 hp)
    · intro h p hp; exact h p (hperm.mem_iff.1 hp)
  refine ⟨hiff, fun hok k => ?_⟩
  have hokX : (extendMapLoop (m.getD []) meta xs).2 = none := hok
  have hokY := hiff.1 hokX
  show Table.find? (extendMapLoop (m.getD []) meta xs).1 k =
    Table.find? (extendMapLoop (m.getD []) meta ys).1 k
  by_cases hk : k ∈ Table.keys xs
  · obtain ⟨p, hp, hpk⟩ := List.mem_map.1 hk
    subst hpk
    rcases extendMapLoop_find?_of_mem meta xs (m.getD []) hnodup p hp with h1 | ⟨h1, _⟩
    · rcases extendMapLoop_find?_of_mem meta ys (m.getD []) hnodupY p
          (hperm.mem_iff.1 hp) with h2 | ⟨h2, _⟩
      · rw [h1, h2]
      · exact absurd hokY h2
    · exact absurd hokX h1
  · have hkY : k ∉ Table.keys ys := fun h => hk ((hperm.map Prod.fst).mem_iff.2 h)
    rw [extendMapLoop_find?_of_not_mem meta xs _ k hk,
      extendMapLoop_find?_of_not_mem meta ys _ k hkY]

/-- The witness of C11: two keys, one new and one merged into a nested map, in the
two orders. -/
theorem extendMap_order_independent_witness :
    ((extendMap (some [("a", Value.map [("x", Value.num 1)])]) none
        (some [("a", Value.map [("y", Value.num 2)]), ("b", Value.num 3)])).2 = none ↔
      (extendMap (some [("a", Value.map [("x", Value.num 1)])]) none
        (some [("b", Value.num 3), ("a", Value.map [("y", Value.num 2)])])).2 = none) ∧
    ((extendMap (some [("a", Value.map [("x", Value.num 1)])]) none
        (some [("a", Value.map [("y", Value.num 2)]), ("b", Value.num 3)])).2 = none →
      ∀ k,
        Table.find? ((extendMap (some [("a", Value.map [("x", Value.num 1)])]) none
          (some [("a", Value.map [("y", Value.num 2)]), ("b", Value.num 3)])).1.getD []) k =
        Table.find? ((extendMap (some [("a", Value.map [("x", Value.num 1)])]) none
          (some [("b", Value.num 3), ("a", Value.map [("y", Value.num 2)])])).1.getD []) k) :=
  extendMap_order_independent (some [("a", Value.map [("x", Value.num 1)])]) none
    [("a", Value.map [("y", Value.num 2)]), ("b", Value.num 3)]
    [("b", Value.num 3), ("a", Value.map [("y", Value.num 2)])]
    (List.Perm.swap _ _ _) (by decide)

/-! ## The shape of a value under the merge -/

theorem Value.isNil_of_isMap (v : Value) (h : v.isMap = true) : v.isNil = false := by
  cases v <;> simp [Value.isMap, Value.isNil] at h ⊢

theorem Value.eq_null_of_isNil (v : Value) (h : v.isNil = true) : v = Value.null := by
  cases v <;> simp [Value.isNil] at h ⊢

/-- The value at the key after `mergeMapKey`: a mapping stays a mapping unless the
value of the extension is null, and a non-nil value that is not a mapping does not
become one. -/
theorem mergeMapKey_shape (m : Table) (key : String) (value : Value) :
    ((Table.index m key).isMap = true →
      (Table.index (mergeMapKey m key value).1 key).isMap = true ∨
        (value.isNil = true ∧ (Table.index (mergeMapKey m key value).1 key).isNil = true)) ∧
    ((Table.index m key).isNil = false → (Table.index m key).isMap = false →
      (Table.index (mergeMapKey m key value).1 key).isMap = false) := by
  rcases mergeMapKey_cases m key value with ⟨hc, hr⟩ | ⟨c, e, hc, he, hr⟩ |
      ⟨hc, hv, hv2, hr⟩ | ⟨hn, hc, hv, hr⟩
  · rw [hr]
    simp only [Table.index_set_self]
    constructor
    · intro hmap
      have hnn := Value.isNil_of_isMap _ hmap
      rcases hc with h1 | h1 | ⟨h1, _⟩
      · rw [hnn] at h1; exact Bool.noConfusion h1
      · exact Or.inr ⟨h1, h1⟩
      · rw [hmap] at h1; exact Bool.noConfusion h1
    · intro hnn hnm
      rcases hc with h1 | h1 | ⟨_, h2⟩
      · rw [hnn] at h1; exact Bool.noConfusion h1
      · rw [Value.eq_null_of_isNil value h1]; rfl
      · exact h2
  · rw [hr]
    simp only [Table.index_set_self]
    constructor
    · intro _; exact Or.inl rfl
    · intro _ hnm
      rw [hc] at hnm
      exact Bool.noConfusion hnm
  · rw [hr]
    exact ⟨fun h => Or.inl h, fun _ h => h⟩
  · rw [hr]
    exact ⟨fun h => Or.inl h, fun _ h => h⟩

/-- C12, as amended: with the keys of the extension map pairwise distinct, and whether
`extendMap` succeeds or fails, a key that held a mapping before the call holds a
mapping afterwards, or null when the extension map gives the null value for it; a key
that held a non-nil value that is not a mapping does not hold a mapping afterwards;
and when two non-nil values of which exactly one is a mapping meet at a key, the call
fails. -/
theorem extendMap_keeps_shape (m : Table) (meta : Option MetaTable) (ext : Table)
    (hnodup : (Table.keys ext).Nodup) (k : String) :
    ((Table.index m k).isMap = true →
      (Table.index ((extendMap (some m) meta (some ext)).1.getD []) k).isMap = true ∨
        ((k, Value.null) ∈ ext ∧
          (Table.index ((extendMap (some m) meta (some ext)).1.getD []) k).isNil = true)) ∧
    ((Table.index m k).isNil = false → (Table.index m k).isMap = false →
      (Table.index ((extendMap (some m) meta (some ext)).1.getD []) k).isMap = false) ∧
    (∀ v, (k, v) ∈ ext → (Table.index m k).isNil = false → v.isNil = false →
      (Table.index m k).isMap ≠ v.isMap →
      (extendMap (some m) meta (some ext)).2 ≠ none) := by
  have hrun : (extendMap (some m) meta (some ext)).1.getD [] =
      (extendMapLoop m meta ext).1 := rfl
  have herr : (extendMap (some m) meta (some ext)).2 = (extendMapLoop m meta ext).2 := rfl
  rw [hrun, herr]
  have hcases : Table.index (extendMapLoop m meta ext).1 k = Table.index m k ∨
      ∃ v, (k, v) ∈ ext ∧
        Table.index (extendMapLoop m meta ext).1 k =
          Table.index (mergeMapKey m k v).1 k := by
    by_cases hk : k ∈ Table.keys ext
    · obtain ⟨p, hp, hpk⟩ := List.mem_map.1 hk
      obtain ⟨k1, v⟩ := p
      simp only at hpk
      subst hpk
      rcases extendMapLoop_find?_of_mem meta ext m hnodup (k1, v) hp with h1 | ⟨_, h1⟩
      · exact Or.inr ⟨v, hp, Table.index_congr _ _ k1 h1⟩
      · exact Or.inl (Table.index_congr _ _ k1 h1)
    · exact Or.inl (Table.index_congr _ _ k
        (extendMapLoop_find?_of_not_mem meta ext m k hk))
  refine ⟨fun hmap => ?_, fun hnn hnm => ?_, fun v hv hnn hvn hne hok => ?_⟩
  · rcases hcases with h | ⟨v, hv, h⟩
    · rw [h]; exact Or.inl hmap
    · rw [h]
      rcases (mergeMapKey_shape m k v).1 hmap with h1 | ⟨h1, h2⟩
      · exact Or.inl h1
      · exact Or.inr ⟨Value.eq_null_of_isNil v h1 ▸ hv, h2⟩
  · rcases hcases with h | ⟨v, _, h⟩
    · rw [h]; exact hnm
    · rw [h]; exact (mergeMapKey_shape m k v).2 hnn hnm
  · have hall := (extendMapLoop_ok_iff meta ext m hnodup).1 hok (k, v) hv
    rcases mergeMapKey_cases m k v with ⟨hc, _⟩ | ⟨c, e, hc, he, _⟩ |
        ⟨_, _, _, hr⟩ | ⟨_, _, _, hr⟩
    · rcases hc with h1 | h1 | ⟨h1, h2⟩
      · rw [hnn] at h1; exact Bool.noConfusion h1
      · rw [hvn] at h1; exact Bool.noConfusion h1
      · exact hne (h1.trans h2.symm)
    · apply hne
      rw [hc, he]
      rfl
    · have h2 := hall.2
      simp only at h2
      rw [hr] at h2
      exact Option.noConfusion h2
    · have h2 := hall.2
      simp only at h2
      rw [hr] at h2
      exact Option.noConfusion h2

/-- The witness of C12: `p` holds a mapping and `s` a string; the extension gives a
mapping for `p` and a number for `s`. -/
theorem extendMap_keeps_shape_witness :
    ((Table.index [("p", Value.map [("a", Value.num 1)]), ("s", Value.str "x")] "p").isMap
        = true →
      (Table.index ((extendMap
          (some [("p", Value.map [("a", Value.num 1)]), ("s", Value.str "x")]) none
          (some [("p", Value.map [("b", Value.num 2)]), ("s", Value.num 3)])).1.getD [])
          "p").isMap = true ∨
        (("p", Value.null) ∈ [("p", Value.map [("b", Value.num 2)]), ("s", Value.num 3)] ∧
          (Table.index ((extendMap
            (some [("p", Value.map [("a", Value.num 1)]), ("s", Value.str "x")]) none
            (some [("p", Value.map [("b", Value.num 2)]), ("s", Value.num 3)])).1.getD [])
            "p").isNil = true)) ∧
    ((Table.index [("p", Value.map [("a", Value.num 1)]), ("s", Value.str "x")] "p").isNil
        = false →
      (Table.index [("p", Value.map [("a", Value.num 1)]), ("s", Value.str "x")] "p").isMap
        = false →
      (Table.index ((extendMap
          (some [("p", Value.map [("a", Value.num 1)]), ("s", Value.str "x")]) none
          (some [("p", Value.map [("b", Value.num 2)]), ("s", Value.num 3)])).1.getD [])
          "p").isMap = false) ∧
    (∀ v, ("p", v) ∈ [("p", Value.map [("b", Value.num 2)]), ("s", Value.num 3)] →
      (Table.index [("p", Value.map [("a", Value.num 1)]), ("s", Value.str "x")] "p").isNil
        = false →
      v.isNil = false →
      (Table.index [("p", Value.map [("a", Value.num 1)]), ("s", Value.str "x")] "p").isMap
        ≠ v.isMap →
      (extendMap (some [("p", Value.map [("a", Value.num 1)]), ("s", Value.str "x")]) none
        (some [("p", Value.map [("b", Value.num 2)]), ("s", Value.num 3)])).2 ≠ none) :=
  extendMap_keeps_shape [("p", Value.map [("a", Value.num 1)]), ("s", Value.str "x")] none
    [("p", Value.map [("b", Value.num 2)]), ("s", Value.num 3)] (by decide) "p"

/-- The counterexample to C12 as stated: `p` holds a mapping, the extension gives the
null value for `p`, the call succeeds and `p` holds null, not a mapping. -/
theorem extendMap_null_replaces_mapping :
    (Table.index [("p", Value.map [("a", Value.num 1)])] "p").isMap = true ∧
    extendMap (some [("p", Value.map [("a", Value.num 1)])]) none
      (some [("p", Value.null)]) = (some [("p", Value.null)], none) ∧
    (Table.index ((extendMap (some [("p", Value.map [("a", Value.num 1)])]) none
      (some [("p", Value.null)])).1.getD []) "p").isMap = false := by
  refine ⟨rfl, rfl, rfl⟩

/-! ## Where a failed loop stops -/

theorem extendMapLoop_single (m : Table) (meta : Option MetaTable) (key : String)
    (value : Value) :
    extendMapLoop m meta [(key, value)] =
      if isFieldOverWritable key meta (some m) then mergeMapKey m key value
      else (m, some (Errorf overwriteNonOverwritableErrorMsg [key])) := by
  rw [extendMapLoop_cons]
  by_cases h : isFieldOverWritable key meta (some m) = true
  · rw [if_pos h, if_pos h]
    by_cases h1 : (mergeMapKey m key value).2 = none
    · rw [if_pos h1, extendMapLoop_nil, ← h1]
    · rw [if_neg h1]
  · rw [if_neg h, if_neg h]

/-- A failed loop has merged a first part of the extension and stopped at the key
after it, whose merge into what the first part left is the failure. -/
theorem extendMapLoop_fail_split (meta : Option MetaTable) (ext : Table) :
    ∀ (m : Table) (err : String), (extendMapLoop m meta ext).2 = some err →
      ∃ pre k v post, ext = pre ++ (k, v) :: post ∧
        (extendMapLoop m meta pre).2 = none ∧
        extendMapLoop m meta ext =
          extendMapLoop (extendMapLoop m meta pre).1 meta [(k, v)] := by
  induction ext with
  | nil =>
    intro m err h
    rw [extendMapLoop_nil] at h
    exact Option.noConfusion h
  | cons p rest ih =>
    obtain ⟨key, value⟩ := p
    intro m err h
    by_cases hstep : (extendMapLoop m meta [(key, value)]).2 = none
    · have hcut := extendMapLoop_append meta [(key, value)] rest m
      rw [if_pos hstep] at hcut
      have hcut1 : extendMapLoop m meta ((key, value) :: rest) =
          extendMapLoop (extendMapLoop m meta [(key, value)]).1 meta rest := hcut
      rw [hcut1] at h
      obtain ⟨pre, k, v, post, hsplit, hpre, hrun⟩ := ih _ err h
      refine ⟨(key, value) :: pre, k, v, post, by rw [hsplit]; rfl, ?_, ?_⟩
      · have h2 := extendMapLoop_append meta [(key, value)] pre m
        rw [if_pos hstep] at h2
        have h3 : extendMapLoop m meta ((key, value) :: pre) =
            extendMapLoop (extendMapLoop m meta [(key, value)]).1 meta pre := h2
        rw [h3]; exact hpre
      · have h2 := extendMapLoop_append meta [(key, value)] pre m
        rw [if_pos hstep] at h2
        have h3 : extendMapLoop m meta ((key, value) :: pre) =
            extendMapLoop (extendMapLoop m meta [(key, value)]).1 meta pre := h2
        rw [hcut1, h3]; exact hrun
    · refine ⟨[], key, value, rest, rfl, extendMapLoop_nil m meta ▸ rfl, ?_⟩
      have hcut := extendMapLoop_append meta [(key, value)] rest m
      rw [if_neg hstep] at hcut
      rw [extendMapLoop_nil]
      exact hcut

/-- C18: `extendMap` is not transactional across the keys of one map. With the keys
of the extension map pairwise distinct, a failed call has stopped at a key `k` such
that every key iterated before `k` is accepted and `k` is the first that is rejected;
the error returned is the one of `k`; every key iterated before `k` holds its merged
value, and every key iterated after `k` holds what it held before the call. There are
inputs for which the call fails and the base map is not what it was. -/
theorem extendMap_fails_at_first_rejected_key (m : GoMap) (meta : Option MetaTable)
    (ext : Table) (err : String) (hnodup : (Table.keys ext).Nodup)
    (hfail : (extendMap m meta (some ext)).2 = some err) :
    (∃ pre k v post, ext = pre ++ (k, v) :: post ∧
      (∀ p ∈ pre, isFieldOverWritable p.1 meta (some (m.getD [])) = true ∧
        (mergeMapKey (m.getD []) p.1 p.2).2 = none) ∧
      ((isFieldOverWritable k meta (some (m.getD [])) = false ∧
          err = Errorf overwriteNonOverwritableErrorMsg [k]) ∨
        (isFieldOverWritable k meta (some (m.getD [])) = true ∧
          (mergeMapKey (m.getD []) k v).2 = some err)) ∧
      (∀ p ∈ pre, Table.find? ((extendMap m meta (some ext)).1.getD []) p.1 =
        Table.find? (mergeMapKey (m.getD []) p.1 p.2).1 p.1) ∧
      (∀ p ∈ post, Table.find? ((extendMap m meta (some ext)).1.getD []) p.1 =
        Table.find? (m.getD []) p.1)) ∧
    (∃ (base0 ext0 r0 : Table) (e0 : String),
      extendMap (some base0) none (some ext0) = (some r0, some e0) ∧
      Table.find? r0 "a" ≠ Table.find? base0 "a") := by
  constructor
  · have hrun : (extendMap m meta (some ext)).1.getD [] =
        (extendMapLoop (m.getD []) meta ext).1 := rfl
    have hfail1 : (extendMapLoop (m.getD []) meta ext).2 = some err := hfail
    rw [hrun]
    obtain ⟨pre, k, v, post, hsplit, hpre, hstop⟩ :=
      extendMapLoop_fail_split meta ext (m.getD []) err hfail1
    have hnd : (Table.keys pre ++ k :: Table.keys post).Nodup := by
      have h := hnodup
      rw [hsplit] at h
      simpa [Table.keys] using h
    have hndpre : (Table.keys pre).Nodup := (List.nodup_append.1 hnd).1
    have hkpre : k ∉ Table.keys pre := by
      intro h
      exact (List.nodup_append.1 hnd).2.2 h (List.mem_cons_self _ _) 
    have hpostpre : ∀ p ∈ post, p.1 ∉ Table.keys pre := by
      intro p hp h
      exact (List.nodup_append.1 hnd).2.2 h
        (List.mem_cons_of_mem _ (List.mem_map_of_mem Prod.fst hp))
    have hkpost : ∀ p ∈ post, p.1 ≠ k := by
      intro p hp h
      have h2 := (List.nodup_cons.1 (List.nodup_append.1 hnd).2.1).1
      apply h2
      rw [← h]
      exact List.mem_map_of_mem Prod.fst hp
    have hprek : ∀ p ∈ pre, p.1 ≠ k := by
      intro p hp h
      apply hkpre
      rw [← h]
      exact List.mem_map_of_mem Prod.fst hp
    have hfk := extendMapLoop_find?_of_not_mem meta pre (m.getD []) k hkpre
    have hpreok := (extendMapLoop_ok_iff meta pre (m.getD []) hndpre).1 hpre
    have hprefind : ∀ p ∈ pre,
        Table.find? (extendMapLoop (m.getD []) meta pre).1 p.1 =
          Table.find? (mergeMapKey (m.getD []) p.1 p.2).1 p.1 := by
      intro p hp
      rcases extendMapLoop_find?_of_mem meta pre (m.getD []) hndpre p hp with h | ⟨h, _⟩
      · exact h
      · exact absurd hpre h
    rw [hstop, extendMapLoop_single] at hfail1
    rw [hstop, extendMapLoop_single]
    refine ⟨pre, k, v, post, hsplit, hpreok, ?_, ?_, ?_⟩
    · by_cases how : isFieldOverWritable k meta (some (extendMapLoop (m.getD []) meta pre).1)
          = true
      · rw [if_pos how] at hfail1
        right
        rw [← isFieldOverWritable_congr k meta _ (m.getD []) hfk,
          ← (mergeMapKey_congr _ (m.getD []) k v hfk).1]
        exact ⟨how, hfail1⟩
      · rw [if_neg how] at hfail1
        left
        rw [← isFieldOverWritable_congr k meta _ (m.getD []) hfk]
        simp only [Option.some.injEq] at hfail1
        exact ⟨by simpa using how, hfail1.symm⟩
    · intro p hp
      by_cases how : isFieldOverWritable k meta (some (extendMapLoop (m.getD []) meta pre).1)
          = true
      · rw [if_pos how, mergeMapKey_find?_of_ne _ k p.1 v (hprek p hp)]
        exact hprefind p hp
      · rw [if_neg how]
        exact hprefind p hp
    · intro p hp
      have h1 := extendMapLoop_find?_of_not_mem meta pre (m.getD []) p.1 (hpostpre p hp)
      by_cases how : isFieldOverWritable k meta (some (extendMapLoop (m.getD []) meta pre).1)
          = true
      · rw [if_pos how, mergeMapKey_find?_of_ne _ k p.1 v (hkpost p hp)]
        exact h1
      · rw [if_neg how]
        exact h1
  · refine ⟨[("b", Value.num 1)], [("a", Value.num 2), ("b", Value.map [])],
      [("b", Value.num 1), ("a", Value.num 2)],
      "\"b\": cannot overwrite a scalar value with a structured value",
      Prod.ext rfl (by decide), ?_⟩
    intro h
    simp [Table.find?] at h

/-- The witness of C18: `a` is merged, `b` is rejected for its shape, `c` is never
reached. -/
theorem extendMap_fails_at_first_rejected_key_witness :
    (∃ pre k v post,
      [("a", Value.num 2), ("b", Value.map []), ("c", Value.num 3)] =
        pre ++ (k, v) :: post ∧
      (∀ p ∈ pre, isFieldOverWritable p.1 none
          (some ((some [("b", Value.num 1)] : GoMap).getD [])) = true ∧
        (mergeMapKey ((some [("b", Value.num 1)] : GoMap).getD []) p.1 p.2).2 = none) ∧
      ((isFieldOverWritable k none
            (some ((some [("b", Value.num 1)] : GoMap).getD [])) = false ∧
          "\"b\": cannot overwrite a scalar value with a structured value" =
            Errorf overwriteNonOverwritableErrorMsg [k]) ∨
        (isFieldOverWritable k none
            (some ((some [("b", Value.num 1)] : GoMap).getD [])) = true ∧
          (mergeMapKey ((some [("b", Value.num 1)] : GoMap).getD []) k v).2 =
            some "\"b\": cannot overwrite a scalar value with a structured value")) ∧
      (∀ p ∈ pre,
        Table.find? ((extendMap (some [("b", Value.num 1)]) none
          (some [("a", Value.num 2), ("b", Value.map []), ("c", Value.num 3)])).1.getD [])
          p.1 =
        Table.find? (mergeMapKey ((some [("b", Value.num 1)] : GoMap).getD []) p.1 p.2).1
          p.1) ∧
      (∀ p ∈ post,
        Table.find? ((extendMap (some [("b", Value.num 1)]) none
          (some [("a", Value.num 2), ("b", Value.map []), ("c", Value.num 3)])).1.getD [])
          p.1 =
        Table.find? ((some [("b", Value.num 1)] : GoMap).getD []) p.1)) ∧
    (∃ (base0 ext0 r0 : Table) (e0 : String),
      extendMap (some base0) none (some ext0) = (some r0, some e0) ∧
      Table.find? r0 "a" ≠ Table.find? base0 "a") :=
  extendMap_fails_at_first_rejected_key (some [("b", Value.num 1)]) none
    [("a", Value.num 2), ("b", Value.map []), ("c", Value.num 3)]
    "\"b\": cannot overwrite a scalar value with a structured value"
    (by decide) (by decide)

/-! ## What `Merge` leaves behind -/

/-- C13: `Merge` never changes the named entities of the descriptor. Whether it
succeeds or fails, the modules keep their names in order, and so do the provided
interfaces, the required interfaces and the hooks of every module and the required
interfaces of every hook; the resources keep their names in order, and so do the
required interfaces of every resource. -/
theorem Merge_keeps_names (mtaObj : MTA) (mtaExt : EXT) :
    (Merge mtaObj mtaExt).1.Modules.map Module.names = mtaObj.Modules.map Module.names ∧
    (Merge mtaObj mtaExt).1.Resources.map Resource.names =
      mtaObj.Resources.map Resource.names := by
  have hM := mergeModules_names mtaExt.Modules (mergeRootParameters mtaObj mtaExt).1
  have hR := mergeResources_names mtaExt.Resources
    (mergeModules (mergeRootParameters mtaObj mtaExt).1 mtaExt.Modules).1
  have h0M : (mergeRootParameters mtaObj mtaExt).1.Modules = mtaObj.Modules := rfl
  have h0R : (mergeRootParameters mtaObj mtaExt).1.Resources = mtaObj.Resources := rfl
  simp only [Merge]
  cases h1 : (mergeRootParameters mtaObj mtaExt).2 with
  | some err => exact ⟨rfl, rfl⟩
  | none =>
    cases h2 : (mergeModules (mergeRootParameters mtaObj mtaExt).1 mtaExt.Modules).2 with
    | some err =>
      simp only
      exact ⟨hM.1.trans (by rw [h0M]), by rw [hM.2, h0R]⟩
    | none =>
      have hres : (mergeResources
          (mergeModules (mergeRootParameters mtaObj mtaExt).1 mtaExt.Modules).1
          mtaExt.Resources).1.Modules.map Module.names =
            mtaObj.Modules.map Module.names ∧
          (mergeResources
            (mergeModules (mergeRootParameters mtaObj mtaExt).1 mtaExt.Modules).1
            mtaExt.Resources).1.Resources.map Resource.names =
            mtaObj.Resources.map Resource.names := by
        constructor
        · rw [hR.2, hM.1, h0M]
        · rw [hR.1, hM.2, h0R]
      cases h3 : (mergeResources
          (mergeModules (mergeRootParameters mtaObj mtaExt).1 mtaExt.Modules).1
          mtaExt.Resources).2 with
      | some err => exact hres
      | none => exact hres

/-! ## The fail-fast chain -/

theorem chainError.extendMap_of_err (v : chainError) (x : String) (hv : v.err = some x)
    (m : GoMap) (meta : Option MetaTable) (ext : GoMap) (msg args : List String) :
    v.extendMap m meta ext msg args = (v, m) := by
  simp [chainError.extendMap, hv]

theorem chainError.extendIncludes_of_err (v : chainError) (x : String)
    (hv : v.err = some x) (m ext : Option (List Includes)) (msg args : List String) :
    v.extendIncludes m ext msg args = (v, m) := by
  simp [chainError.extendIncludes, hv]

theorem chainError.extendBool_of_err (v : chainError) (x : String) (hv : v.err = some x)
    (m : Bool) (ext : Option Bool) (msg args : List String) :
    v.extendBool m ext msg args = (v, m) := by
  simp [chainError.extendBool, hv]

/-- A step called on a chain that holds an error does nothing. -/
theorem chainStep.run_of_err (v : chainError) (x : String) (hv : v.err = some x)
    (s : chainStep) : s.run v = (v, s) := by
  cases s <;>
    simp [chainStep.run, chainError.extendMap, chainError.extendIncludes,
      chainError.extendBool, hv]

/-- A step called on a chain without an error leaves its own failure in the chain. -/
theorem chainStep.run_chain_err (s : chainStep) : (s.run chain).1.err = s.failure := by
  cases s with
  | extendMap m meta ext msg args =>
    simp only [chainStep.run, chainStep.failure, chainError.extendMap, chain]
    rcases hr : mta.extendMap m meta ext with ⟨m1, _ | err⟩ <;> simp
  | extendIncludes m ext msg args => rfl
  | extendBool m ext msg args => rfl

theorem chainError.eq_chain (v : chainError) (h : v.err = none) : v = chain := by
  cases v
  simp only [chain] at h ⊢
  rw [h]

theorem runChain_of_err (v : chainError) (x : String) (hv : v.err = some x) :
    ∀ steps : List chainStep, runChain v steps = (v, steps) := by
  intro steps
  induction steps with
  | nil => rfl
  | cons s rest ih =>
    simp only [runChain, chainStep.run_of_err v x hv s, ih]

theorem runChain_cons_ok (s : chainStep) (rest : List chainStep)
    (h : s.failure = none) :
    runChain chain (s :: rest) =
      ((runChain chain rest).1, (s.run chain).2 :: (runChain chain rest).2) := by
  have h1 : (s.run chain).1 = chain :=
    chainError.eq_chain _ ((chainStep.run_chain_err s).trans h)
  simp only [runChain, h1]

theorem runChain_cons_err (s : chainStep) (rest : List chainStep) (e : String)
    (h : s.failure = some e) :
    runChain chain (s :: rest) = ((s.run chain).1, (s.run chain).2 :: rest) := by
  have h1 : (s.run chain).1.err = some e := (chainStep.run_chain_err s).trans h
  simp only [runChain, runChain_of_err _ e h1 rest]

/-- C16: a chain of steps, started without an error, ends without an error exactly
when every step succeeds on its own target. Otherwise its error is the error of the
first failing step with the message of that step in front; the steps before it have
worked on their targets and every step after it leaves its target map, list or flag
as it was. The chain of `mergeModules` on the fields of a module is such a chain: when
the merge of the properties fails, the parameters, the build parameters and the
includes of the module are untouched. -/
theorem runChain_fail_fast (steps : List chainStep) :
    ((runChain chain steps).1.err = none ↔ ∀ s ∈ steps, s.failure = none) ∧
    (∀ pre s post e, steps = pre ++ s :: post → (∀ t ∈ pre, t.failure = none) →
      s.failure = some e →
      (runChain chain steps).1.err = some e ∧
      (runChain chain steps).2 =
        pre.map (fun t => (t.run chain).2) ++ (s.run chain).2 :: post) ∧
    (∀ (module : Module) (extModule : ModuleExt),
      (runChain chain
        [.extendMap module.Properties module.PropertiesMetaData extModule.Properties
            mergeModulePropertiesErrorMsg [module.Name],
          .extendMap module.Parameters module.ParametersMetaData extModule.Parameters
            mergeModuleParametersErrorMsg [module.Name],
          .extendMap module.BuildParams none extModule.BuildParams
            mergeModuleBuildParametersErrorMsg [module.Name],
          .extendIncludes module.Includes extModule.Includes
            mergeModuleIncludesErrorMsg [module.Name]]).1.err =
        (mergeModuleFields module extModule).2 ∧
      ((extendMap module.Properties module.PropertiesMetaData
          extModule.Properties).2 ≠ none →
        (mergeModuleFields module extModule).1.Parameters = module.Parameters ∧
        (mergeModuleFields module extModule).1.BuildParams = module.BuildParams ∧
        (mergeModuleFields module extModule).1.Includes = module.Includes)) := by
  refine ⟨?_, ?_, ?_⟩
  · induction steps with
    | nil => simp [runChain, chain]
    | cons s rest ih =>
      cases hs : s.failure with
      | none =>
        rw [runChain_cons_ok s rest hs]
        simp only [List.mem_cons, forall_eq_or_imp, hs, true_and]
        exact ih
      | some e =>
        rw [runChain_cons_err s rest e hs]
        simp only [chainStep.run_chain_err, hs, List.mem_cons, forall_eq_or_imp]
        constructor
        · intro h; exact Option.noConfusion h
        · intro h; exact Option.noConfusion h.1
  · intro pre
    induction pre generalizing steps with
    | nil =>
      intro s post e hsplit _ hs
      rw [hsplit, List.nil_append, runChain_cons_err s post e hs]
      exact ⟨(chainStep.run_chain_err s).trans hs, rfl⟩
    | cons t pre ih =>
      intro s post e hsplit hpre hs
      have ht : t.failure = none := hpre t (List.mem_cons_self _ _)
      obtain ⟨h1, h2⟩ := ih (pre ++ s :: post) s post e rfl
        (fun u hu => hpre u (List.mem_cons_of_mem _ hu)) hs
      rw [hsplit, List.cons_append, runChain_cons_ok t _ ht]
      exact ⟨h1, by simp only [h2, List.map_cons, List.cons_append]⟩
  · intro module extModule
    refine ⟨rfl, fun hfail => ?_⟩
    cases hr : (extendMap module.Properties module.PropertiesMetaData
        extModule.Properties).2 with
    | none => exact absurd hr hfail
    | some err =>
      have hs : (chain.extendMap module.Properties module.PropertiesMetaData
          extModule.Properties mergeModulePropertiesErrorMsg [module.Name]).1.err =
          some (Wrapf err mergeModulePropertiesErrorMsg [module.Name]) := by
        simp only [chainError.extendMap, chain]
        rcases hx : extendMap module.Properties module.PropertiesMetaData
          extModule.Properties with ⟨m1, _ | e1⟩
        · rw [hx] at hr; exact Option.noConfusion hr
        · rw [hx] at hr
          simp only [Option.some.injEq] at hr
          simp [hr]
      have h2 := chainError.extendMap_of_err _ _ hs module.Parameters
        module.ParametersMetaData extModule.Parameters mergeModuleParametersErrorMsg
        [module.Name]
      have h3 := chainError.extendMap_of_err _ _ hs module.BuildParams none
        extModule.BuildParams mergeModuleBuildParametersErrorMsg [module.Name]
      have h4 := chainError.extendIncludes_of_err _ _ hs module.Includes
        extModule.Includes mergeModuleIncludesErrorMsg [module.Name]
      refine ⟨?_, ?_, ?_⟩
      · simp only [mergeModuleFields, h2]
      · simp only [mergeModuleFields, h2, h3]
      · simp only [mergeModuleFields, h2, h3, h4]

/-! ## Merging twice -/

theorem Table.distinctKeys_cons (k : String) (v : Value) (rest : Table) :
    Table.distinctKeys ((k, v) :: rest) = true ↔
      k ∉ Table.keys rest ∧ Value.distinctKeys v = true ∧
        Table.distinctKeys rest = true := by
  rw [Table.distinctKeys]
  simp [Table.keys, and_assoc]

theorem Table.nodup_of_distinctKeys (ext : Table) (h : Table.distinctKeys ext = true) :
    (Table.keys ext).Nodup := by
  induction ext with
  | nil => simp [Table.keys]
  | cons p rest ih =>
    obtain ⟨k, v⟩ := p
    obtain ⟨h1, _, h3⟩ := (Table.distinctKeys_cons k v rest).1 h
    rw [Table.keys_cons, List.nodup_cons]
    exact ⟨h1, ih h3⟩

theorem Table.find?_eq_none_of_not_mem (m : Table) (k : String) (h : k ∉ Table.keys m) :
    Table.find? m k = none := by
  cases hf : Table.find? m k with
  | none => rfl
  | some v =>
    exact absurd ((Table.find?_isSome_iff_mem_keys m k).1 (by rw [hf]; rfl)) h

theorem Table.set_of_not_mem (m : Table) (k : String) (v : Value)
    (h : k ∉ Table.keys m) : Table.set m k v = m ++ [(k, v)] := by
  induction m with
  | nil => rfl
  | cons p t ih =>
    obtain ⟨k1, v1⟩ := p
    have hne : ¬ k1 = k := by
      intro h1; apply h; simp [Table.keys, h1]
    have ht : k ∉ Table.keys t := by
      intro h1; apply h; simp only [Table.keys, List.map_cons, List.mem_cons]
      exact Or.inr h1
    simp [Table.set, hne, ih ht]

theorem isFieldOverWritable_nil_meta (field : String) (m : GoMap) :
    isFieldOverWritable field none m = true := by
  simp [isFieldOverWritable]

/-- Without metadata, the loop puts the pairs of an extension whose keys are distinct
and new to the map at the end of the map, in order. -/
theorem extendMapLoop_fresh (e : Table) :
    ∀ m : Table, (Table.keys e).Nodup → (∀ k ∈ Table.keys e, k ∉ Table.keys m) →
      extendMapLoop m none e = (m ++ e, none) := by
  induction e with
  | nil => intro m _ _; rw [extendMapLoop_nil, List.append_nil]
  | cons p rest ih =>
    obtain ⟨k, v⟩ := p
    intro m hnd hnew
    rw [Table.keys_cons, List.nodup_cons] at hnd
    have hk : k ∉ Table.keys m := hnew k (by simp [Table.keys])
    have hidx : (Table.index m k).isNil = true := by
      simp [Table.index, Table.find?_eq_none_of_not_mem m k hk, Value.isNil]
    have hstep : mergeMapKey m k v = (m ++ [(k, v)], none) := by
      rw [mergeMapKey_replace m k v (by simp [hidx]), Table.set_of_not_mem m k v hk]
    rw [extendMapLoop_cons, isFieldOverWritable_nil_meta, if_pos rfl, hstep, if_pos rfl]
    simp only
    rw [ih (m ++ [(k, v)]) hnd.2, List.append_assoc]
    · rfl
    · intro k1 hk1 hmem
      simp only [Table.keys, List.map_append, List.map_cons, List.map_nil, List.mem_append,
        List.mem_singleton] at hmem
      rcases hmem with hmem | hmem
      · exact hnew k1 (by simp only [Table.keys, List.map_cons, List.mem_cons]
                          exact Or.inr hk1) hmem
      · apply hnd.1
        rw [← hmem]; exact hk1

/-- A value that is not a mapping, once merged, merges again without a change. -/
theorem mergeMapKey_idem_of_not_map (v : Value) (hv : v.isMap = false) (m : Table)
    (k : String) (m1 : Table) (h : mergeMapKey m k v = (m1, none)) :
    mergeMapKey m1 k v = (m1, none) := by
  rcases mergeMapKey_cases m k v with ⟨_, hr⟩ | ⟨c, e, _, he, _⟩ |
      ⟨_, _, _, hr⟩ | ⟨_, _, _, hr⟩
  · rw [hr] at h
    simp only [Prod.mk.injEq, and_true] at h
    subst h
    rw [mergeMapKey_replace _ k v (by simp [Table.index_set_self, hv]),
      Table.set_eq_self _ k v (Table.find?_set_self m k v)]
  · rw [he] at hv; exact Bool.noConfusion hv
  · rw [hr] at h; simp at h
  · rw [hr] at h; simp at h

mutual
/-- Without metadata, a successful loop over an extension with distinct keys at every
depth, run again on its result, succeeds and leaves the result as it is. -/
theorem extendMapLoop_idem : ∀ (ext : Table), Table.distinctKeys ext = true →
    ∀ (m r : Table), extendMapLoop m none ext = (r, none) →
      extendMapLoop r none ext = (r, none)
  | [], _, m, r, h => by
    rw [extendMapLoop_nil]
  | (k, v) :: rest, hd, m, r, h => by
    obtain ⟨hk, hv, hrest⟩ := (Table.distinctKeys_cons k v rest).1 hd
    rw [extendMapLoop_cons, isFieldOverWritable_nil_meta, if_pos rfl] at h
    have hok : (mergeMapKey m k v).2 = none := by
      by_contra hne
      rw [if_neg hne] at h
      exact hne (by rw [h])
    rw [if_pos hok] at h
    have hkey := mergeMapKey_idem v hv m k (mergeMapKey m k v).1
      (Prod.ext rfl hok)
    obtain ⟨w, hw⟩ := mergeMapKey_ok_writes (mergeMapKey m k v).1 k v (by rw [hkey])
    have hself := hw (mergeMapKey m k v).1 rfl
    rw [hkey] at hself
    have hfind1 : Table.find? (mergeMapKey m k v).1 k = some w := by
      have h2 := Table.find?_set_self (mergeMapKey m k v).1 k w
      rw [← (Prod.mk.inj hself).1] at h2
      exact h2
    have hfr : Table.find? r k = Table.find? (mergeMapKey m k v).1 k := by
      have h2 := extendMapLoop_find?_of_not_mem none rest (mergeMapKey m k v).1 k hk
      rw [h] at h2
      exact h2
    have hkeyr : mergeMapKey r k v = (r, none) := by
      rw [hw r hfr, Table.set_eq_self r k w (hfr.trans hfind1)]
    rw [extendMapLoop_cons, isFieldOverWritable_nil_meta, if_pos rfl, hkeyr, if_pos rfl]
    exact extendMapLoop_idem rest hrest (mergeMapKey m k v).1 r h
/-- Without metadata, a value with distinct keys at every depth, once merged under a
key, merges again under the key without a change. -/
theorem mergeMapKey_idem : ∀ (v : Value), Value.distinctKeys v = true →
    ∀ (m : Table) (k : String) (m1 : Table), mergeMapKey m k v = (m1, none) →
      mergeMapKey m1 k v = (m1, none)
  | Value.map e, hd, m, k, m1, h => by
    have hde : Table.distinctKeys e = true := by
      rw [Value.distinctKeys] at hd; exact hd
    rcases mergeMapKey_cases m k (Value.map e) with ⟨_, hr⟩ | ⟨c, e1, hc, he, hr⟩ |
        ⟨_, _, _, hr⟩ | ⟨_, _, _, hr⟩
    · rw [hr] at h
      simp only [Prod.mk.injEq, and_true] at h
      subst h
      have hself : extendMapLoop e none e = (e, none) := by
        have hfresh := extendMapLoop_fresh e [] (Table.nodup_of_distinctKeys e hde)
          (fun _ _ hm => by simp [Table.keys] at hm)
        rw [List.nil_append] at hfresh
        exact extendMapLoop_idem e hde [] e hfresh
      rw [mergeMapKey_maps _ k e e (Table.index_set_self m k (Value.map e)), hself]
      simp only [Option.map_none']
      rw [Table.set_eq_self _ k _ (Table.find?_set_self m k (Value.map e))]
    · simp only [Value.map.injEq] at he
      subst he
      rw [hr] at h
      simp only [Prod.mk.injEq, Option.map_eq_none'] at h
      obtain ⟨hm1, hnone⟩ := h
      subst hm1
      have hagain := extendMapLoop_idem e hde c (extendMapLoop c none e).1
        (Prod.ext rfl hnone)
      rw [mergeMapKey_maps _ k (extendMapLoop c none e).1 e
        (Table.index_set_self m k _), hagain]
      simp only [Option.map_none']
      rw [Table.set_eq_self _ k _ (Table.find?_set_self m k _)]
    · rw [hr] at h; simp at h
    · rw [hr] at h; simp at h
  | Value.null, _, m, k, m1, h => mergeMapKey_idem_of_not_map Value.null rfl m k m1 h
  | Value.bool b, _, m, k, m1, h => mergeMapKey_idem_of_not_map (Value.bool b) rfl m k m1 h
  | Value.num n, _, m, k, m1, h => mergeMapKey_idem_of_not_map (Value.num n) rfl m k m1 h
  | Value.str s, _, m, k, m1, h => mergeMapKey_idem_of_not_map (Value.str s) rfl m k m1 h
  | Value.list xs, _, m, k, m1, h =>
    mergeMapKey_idem_of_not_map (Value.list xs) rfl m k m1 h
end

/-- C19: without overwrite metadata `extendMap` is idempotent: when the merge of an
extension map into a base map succeeds with the result `r`, the merge of the same
extension map into `r` succeeds as well and leaves `r` as it is. The extension map
has pairwise distinct keys at every depth, as every Go map has. -/
theorem extendMap_idempotent (base ext r : GoMap)
    (hd : Table.distinctKeys (ext.getD []) = true)
    (h : extendMap base none ext = (r, none)) :
    extendMap r none ext = (r, none) := by
  cases ext with
  | none => rfl
  | some e =>
    simp only [extendMap, Prod.mk.injEq] at h
    obtain ⟨hr, hnone⟩ := h
    subst hr
    have hagain := extendMapLoop_idem e hd (base.getD [])
      (extendMapLoop (base.getD []) none e).1 (Prod.ext rfl hnone)
    simp only [extendMap, Option.getD_some, hagain]

/-- The witness of C19: a nested mapping is merged and a key is added; merging the
same extension again changes nothing. -/
theorem extendMap_idempotent_witness :
    extendMap
        (some [("a", Value.map [("x", Value.num 1), ("y", Value.num 2)]),
          ("b", Value.num 3)]) none
        (some [("a", Value.map [("y", Value.num 2)]), ("b", Value.num 3)]) =
      (some [("a", Value.map [("x", Value.num 1), ("y", Value.num 2)]),
        ("b", Value.num 3)], none) :=
  extendMap_idempotent (some [("a", Value.map [("x", Value.num 1)])])
    (some [("a", Value.map [("y", Value.num 2)]), ("b", Value.num 3)])
    (some [("a", Value.map [("x", Value.num 1), ("y", Value.num 2)]), ("b", Value.num 3)])
    (by decide) rfl

/-! ## The text of the errors of a map merge -/

theorem keyPathText_cons (k : String) (path : List String) (leaf : String) :
    keyPathText (k :: path) leaf = "\"" ++ k ++ "\": " ++ keyPathText path leaf := rfl

theorem keyPathText_wrap (k : String) (inner : String) :
    Wrapf inner quotedKeyMsg [k] = "\"" ++ k ++ "\": " ++ inner := by
  have h : ("\": " : String) = "\"" ++ ": " := by decide
  simp only [Wrapf, quotedKeyMsg, Sprintf, h, String.append_assoc]

theorem keyPathText_structured (k : String) :
    Errorf overwriteStructuredWithScalarErrorMsg [k] =
      keyPathText [k] "cannot overwrite a structured value with a scalar value" := by
  have h : ("\": cannot overwrite a structured value with a scalar value" : String) =
      "\": " ++ "cannot overwrite a structured value with a scalar value" := by decide
  simp only [Errorf, overwriteStructuredWithScalarErrorMsg, Sprintf, keyPathText, h,
    String.append_assoc]

theorem keyPathText_scalar (k : String) :
    Errorf overwriteScalarWithStructuredErrorMsg [k] =
      keyPathText [k] "cannot overwrite a scalar value with a structured value" := by
  have h : ("\": cannot overwrite a scalar value with a structured value" : String) =
      "\": " ++ "cannot overwrite a scalar value with a structured value" := by decide
  simp only [Errorf, overwriteScalarWithStructuredErrorMsg, Sprintf, keyPathText, h,
    String.append_assoc]

theorem chainError.extendIncludes_fst (v : chainError) (m ext : Option (List Includes))
    (msg args : List String) : (v.extendIncludes m ext msg args).1 = v := by
  simp only [chainError.extendIncludes]
  split <;> rfl

theorem chainError.extendBool_fst (v : chainError) (m : Bool) (ext : Option Bool)
    (msg args : List String) : (v.extendBool m ext msg args).1 = v := by
  simp only [chainError.extendBool]
  split <;> rfl

/-! ## The traversal of `Merge` as a run of steps -/

/-- A step on a fresh chain: the map is what `extendMap` leaves, and the error is the
error of `extendMap` with the message of the step in front. -/
theorem chain_extendMap (m : GoMap) (meta : Option MetaTable) (ext : GoMap)
    (msg args : List String) :
    chain.extendMap m meta ext msg args =
      (⟨(extendMap m meta ext).2.map (fun err => Wrapf err msg args)⟩,
        (extendMap m meta ext).1) := by
  simp only [chainError.extendMap, chain]
  rcases h : mta.extendMap m meta ext with ⟨m1, _ | err⟩ <;> rfl

theorem mergeRootParameters_eq_step (mtaObj : MTA) (mtaExt : EXT) :
    mergeRootParameters mtaObj mtaExt = specRootParametersStep mtaExt mtaObj := by
  simp only [mergeRootParameters, specRootParametersStep, chain_extendMap]

theorem specRunSteps_nil (mtaObj : MTA) : specRunSteps mtaObj [] = (mtaObj, none) := rfl

theorem specRunSteps_cons (mtaObj : MTA) (step : MTA → MTA × Option String)
    (rest : List (MTA → MTA × Option String)) :
    specRunSteps mtaObj (step :: rest) =
      if (step mtaObj).2 = none then specRunSteps (step mtaObj).1 rest else step mtaObj := by
  rw [specRunSteps]
  cases h : (step mtaObj).2 with
  | none => simp
  | some err => simp only [reduceCtorEq, if_false]; rw [← h]

theorem specRunSteps_append (xs ys : List (MTA → MTA × Option String)) :
    ∀ mtaObj : MTA,
      specRunSteps mtaObj (xs ++ ys) =
        if (specRunSteps mtaObj xs).2 = none then specRunSteps (specRunSteps mtaObj xs).1 ys
        else specRunSteps mtaObj xs := by
  induction xs with
  | nil => intro mtaObj; simp [specRunSteps_nil]
  | cons step rest ih =>
    intro mtaObj
    rw [List.cons_append, specRunSteps_cons, specRunSteps_cons]
    by_cases h : (step mtaObj).2 = none
    · rw [if_pos h, if_pos h]; exact ih _
    · rw [if_neg h, if_neg h, if_neg h]

theorem specModuleStep_unknown (id : String) (e : ModuleExt) (mtaObj : MTA)
    (h : findByName Module.Name e.Name mtaObj.Modules = none) :
    specModuleStep id e mtaObj =
      (mtaObj,
        some (Wrapf (Wrapf (Errorf moduleNotDefinedMsg [e.Name]) unknownModuleErrorMsg
          [e.Name]) mergeModulesErrorMsg [id])) := by
  simp only [specModuleStep, MTA.GetModuleByName, h]

theorem specModuleStep_found (id : String) (e : ModuleExt) (mtaObj : MTA) (module : Module)
    (h : findByName Module.Name e.Name mtaObj.Modules = some module) :
    specModuleStep id e mtaObj =
      ({ mtaObj with
          Modules := storeByName Module.Name e.Name (mergeModule module e).1
            mtaObj.Modules },
        (mergeModule module e).2.map (fun err => Wrapf err mergeModulesErrorMsg [id])) := by
  simp only [specModuleStep, MTA.GetModuleByName, h]

theorem specResourceStep_unknown (id : String) (e : ResourceExt) (mtaObj : MTA)
    (h : findByName Resource.Name e.Name mtaObj.Resources = none) :
    specResourceStep id e mtaObj =
      (mtaObj,
        some (Wrapf (Wrapf (Errorf resourceNotDefinedMsg [e.Name]) unknownResourceErrorMsg
          [e.Name]) mergeResourcesErrorMsg [id])) := by
  simp only [specResourceStep, MTA.GetResourceByName, h]

theorem specResourceStep_found (id : String) (e : ResourceExt) (mtaObj : MTA)
    (resource : Resource)
    (h : findByName Resource.Name e.Name mtaObj.Resources = some resource) :
    specResourceStep id e mtaObj =
      ({ mtaObj with
          Resources := storeByName Resource.Name e.Name (mergeResource resource e).1
            mtaObj.Resources },
        (mergeResource resource e).2.map
          (fun err => Wrapf err mergeResourcesErrorMsg [id])) := by
  simp only [specResourceStep, MTA.GetResourceByName, h]

/-- The steps for the module entries, run in order, are the loop of `mergeModules`
with the message for the modules in front of its error. -/
theorem specRunSteps_modules (id : String) (l : List ModuleExt) :
    ∀ mtaObj : MTA,
      specRunSteps mtaObj (l.map (specModuleStep id)) =
        ((mergeModules mtaObj l).1,
          (mergeModules mtaObj l).2.map
            (fun err => Wrapf err mergeModulesErrorMsg [id])) := by
  induction l with
  | nil => intro mtaObj; rw [mergeModules_nil]; rfl
  | cons e rest ih =>
    intro mtaObj
    rw [List.map_cons, specRunSteps_cons]
    cases hf : findByName Module.Name e.Name mtaObj.Modules with
    | none =>
      rw [specModuleStep_unknown id e mtaObj hf, mergeModules_cons_unknown mtaObj e rest hf]
      rfl
    | some module =>
      rw [specModuleStep_found id e mtaObj module hf,
        mergeModules_cons_found mtaObj e rest module hf]
      cases hr : (mergeModule module e).2 with
      | none => simp only [Option.map_none', if_true]; exact ih _
      | some err => simp

/-- The steps for the resource entries, run in order, are the loop of
`mergeResources` with the message for the resources in front of its error. -/
theorem specRunSteps_resources (id : String) (l : List ResourceExt) :
    ∀ mtaObj : MTA,
      specRunSteps mtaObj (l.map (specResourceStep id)) =
        ((mergeResources mtaObj l).1,
          (mergeResources mtaObj l).2.map
            (fun err => Wrapf err mergeResourcesErrorMsg [id])) := by
  induction l with
  | nil => intro mtaObj; rw [mergeResources_nil]; rfl
  | cons e rest ih =>
    intro mtaObj
    rw [List.map_cons, specRunSteps_cons]
    cases hf : findByName Resource.Name e.Name mtaObj.Resources with
    | none =>
      rw [specResourceStep_unknown id e mtaObj hf,
        mergeResources_cons_unknown mtaObj e rest hf]
      rfl
    | some resource =>
      rw [specResourceStep_found id e mtaObj resource hf,
        mergeResources_cons_found mtaObj e rest resource hf]
      cases hr : (mergeResource resource e).2 with
      | none => simp only [Option.map_none', if_true]; exact ih _
      | some err => simp

/-- `Merge` is the run of the steps of the traversal. -/
theorem Merge_eq_runSteps (mtaObj : MTA) (mtaExt : EXT) :
    Merge mtaObj mtaExt = specRunSteps mtaObj (specMergeSteps mtaExt) := by
  rw [specMergeSteps, specRunSteps_cons, ← mergeRootParameters_eq_step, specRunSteps_append,
    specRunSteps_modules, specRunSteps_resources]
  simp only [Merge]
  cases h1 : (mergeRootParameters mtaObj mtaExt).2 with
  | some err => simp only [reduceCtorEq, if_false]; rw [← h1]
  | none =>
    simp only [if_true]
    cases h2 : (mergeModules (mergeRootParameters mtaObj mtaExt).1 mtaExt.Modules).2 with
    | some err => simp
    | none =>
      simp only [Option.map_none', if_true]
      cases h3 : (mergeResources
        (mergeModules (mergeRootParameters mtaObj mtaExt).1 mtaExt.Modules).1
        mtaExt.Resources).2 with
      | some err => simp
      | none => simp

/-- A failing step ends the run: what follows it plays no part. -/
theorem specRunSteps_stops (pre post : List (MTA → MTA × Option String))
    (step : MTA → MTA × Option String) (mtaObj : MTA) (err : String)
    (hpre : (specRunSteps mtaObj pre).2 = none)
    (hstep : (step (specRunSteps mtaObj pre).1).2 = some err) :
    specRunSteps mtaObj (pre ++ step :: post) = ((step (specRunSteps mtaObj pre).1).1, some err) := by
  rw [specRunSteps_append, if_pos hpre, specRunSteps_cons, hstep]
  simp only [reduceCtorEq, if_false]
  rw [← hstep]

theorem specModuleStep_keeps (id : String) (e : ModuleExt) (mtaObj : MTA) :
    (specModuleStep id e mtaObj).1.Resources = mtaObj.Resources ∧
    (specModuleStep id e mtaObj).1.Parameters = mtaObj.Parameters := by
  cases hf : findByName Module.Name e.Name mtaObj.Modules with
  | none => rw [specModuleStep_unknown id e mtaObj hf]; exact ⟨rfl, rfl⟩
  | some module => rw [specModuleStep_found id e mtaObj module hf]; exact ⟨rfl, rfl⟩

theorem specResourceStep_keeps (id : String) (e : ResourceExt) (mtaObj : MTA) :
    (specResourceStep id e mtaObj).1.Modules = mtaObj.Modules ∧
    (specResourceStep id e mtaObj).1.Parameters = mtaObj.Parameters := by
  cases hf : findByName Resource.Name e.Name mtaObj.Resources with
  | none => rw [specResourceStep_unknown id e mtaObj hf]; exact ⟨rfl, rfl⟩
  | some resource => rw [specResourceStep_found id e mtaObj resource hf]; exact ⟨rfl, rfl⟩

/-- The steps for module entries touch neither the resources nor the root
parameters. -/
theorem specRunSteps_modules_keeps (id : String) (l : List ModuleExt) :
    ∀ mtaObj : MTA,
      (specRunSteps mtaObj (l.map (specModuleStep id))).1.Resources = mtaObj.Resources ∧
      (specRunSteps mtaObj (l.map (specModuleStep id))).1.Parameters = mtaObj.Parameters := by
  induction l with
  | nil => intro mtaObj; exact ⟨rfl, rfl⟩
  | cons e rest ih =>
    intro mtaObj
    rw [List.map_cons, specRunSteps_cons]
    have hk := specModuleStep_keeps id e mtaObj
    split
    · have h := ih (specModuleStep id e mtaObj).1
      exact ⟨h.1.trans hk.1, h.2.trans hk.2⟩
    · exact hk

/-- The steps for resource entries touch neither the modules nor the root
parameters. -/
theorem specRunSteps_resources_keeps (id : String) (l : List ResourceExt) :
    ∀ mtaObj : MTA,
      (specRunSteps mtaObj (l.map (specResourceStep id))).1.Modules = mtaObj.Modules ∧
      (specRunSteps mtaObj (l.map (specResourceStep id))).1.Parameters = mtaObj.Parameters := by
  induction l with
  | nil => intro mtaObj; exact ⟨rfl, rfl⟩
  | cons e rest ih =>
    intro mtaObj
    rw [List.map_cons, specRunSteps_cons]
    have hk := specResourceStep_keeps id e mtaObj
    split
    · have h := ih (specResourceStep id e mtaObj).1
      exact ⟨h.1.trans hk.1, h.2.trans hk.2⟩
    · exact hk

/-- Whatever the outcome, the root parameters that `Merge` leaves are those that the
generic map merger leaves when called on the root parameters of the descriptor. -/
theorem Merge_parameters (mtaObj : MTA) (mtaExt : EXT) :
    (Merge mtaObj mtaExt).1.Parameters =
      (extendMap mtaObj.Parameters mtaObj.ParametersMetaData mtaExt.Parameters).1 := by
  rw [Merge_eq_runSteps, specMergeSteps, specRunSteps_cons]
  split
  · rw [specRunSteps_append]
    split
    · rw [(specRunSteps_resources_keeps _ _ _).2, (specRunSteps_modules_keeps _ _ _).2]
      rfl
    · rw [(specRunSteps_modules_keeps _ _ _).2]
      rfl
  · rfl

/-- C17: `Merge` is the run of the steps of the traversal, the root parameters first,
then the module entries in the order of the extension, then the resource entries in
the order of the extension, each step on what the step before it leaves, and the run
stops at the first step that fails. The root parameters that `Merge` leaves are those
that `extendMap` leaves on the root parameters of the descriptor. When a step fails
after the steps before it have succeeded, `Merge` returns what that step leaves and
its error. When the merge of the root parameters fails, `Merge` returns the
descriptor with nothing but its root parameters touched, and the error with the
message for the root parameters. When a module entry fails after the root parameters
and the module entries before it have merged, `Merge` returns what that step leaves:
the entries after it and the resource entries of the extension play no part, and the
resources of the descriptor are as before the call. -/
theorem Merge_runs_steps_in_order (mtaObj : MTA) (mtaExt : EXT) :
    Merge mtaObj mtaExt = specRunSteps mtaObj (specMergeSteps mtaExt) ∧
    (Merge mtaObj mtaExt).1.Parameters =
      (extendMap mtaObj.Parameters mtaObj.ParametersMetaData mtaExt.Parameters).1 ∧
    (∀ (pre post : List (MTA → MTA × Option String)) (step : MTA → MTA × Option String)
        (err : String),
      specMergeSteps mtaExt = pre ++ step :: post →
      (specRunSteps mtaObj pre).2 = none →
      (step (specRunSteps mtaObj pre).1).2 = some err →
      Merge mtaObj mtaExt = ((step (specRunSteps mtaObj pre).1).1, some err)) ∧
    (∀ err : String,
      (extendMap mtaObj.Parameters mtaObj.ParametersMetaData mtaExt.Parameters).2 =
        some err →
      Merge mtaObj mtaExt =
        ({ mtaObj with
            Parameters :=
              (extendMap mtaObj.Parameters mtaObj.ParametersMetaData
                mtaExt.Parameters).1 },
          some (Wrapf err mergeRootParametersErrorMsg [mtaExt.ID]))) ∧
    (∀ (pre post : List ModuleExt) (M : ModuleExt) (err : String),
      mtaExt.Modules = pre ++ M :: post →
      (specRunSteps mtaObj
        (specRootParametersStep mtaExt :: pre.map (specModuleStep mtaExt.ID))).2 = none →
      (specModuleStep mtaExt.ID M
        (specRunSteps mtaObj
          (specRootParametersStep mtaExt :: pre.map (specModuleStep mtaExt.ID))).1).2 =
        some err →
      Merge mtaObj mtaExt =
        ((specModuleStep mtaExt.ID M
          (specRunSteps mtaObj
            (specRootParametersStep mtaExt :: pre.map (specModuleStep mtaExt.ID))).1).1,
          some err) ∧
      Merge mtaObj mtaExt =
        Merge mtaObj ⟨mtaExt.ID, mtaExt.Parameters, pre ++ [M], []⟩ ∧
      (Merge mtaObj mtaExt).1.Resources = mtaObj.Resources) := by
  refine ⟨Merge_eq_runSteps mtaObj mtaExt, Merge_parameters mtaObj mtaExt, ?_, ?_, ?_⟩
  · intro pre post step err hsteps hpre hstep
    rw [Merge_eq_runSteps, hsteps]
    exact specRunSteps_stops pre post step mtaObj err hpre hstep
  · intro err herr
    rw [Merge_eq_runSteps, specMergeSteps, specRunSteps_cons]
    have h2 : (specRootParametersStep mtaExt mtaObj).2 =
        some (Wrapf err mergeRootParametersErrorMsg [mtaExt.ID]) := by
      simp only [specRootParametersStep, herr, Option.map_some']
    rw [if_neg (by rw [h2]; exact fun h => Option.noConfusion h)]
    exact Prod.ext rfl h2
  · intro pre post M err hM hpre hstep
    have hrun : ∀ (tail : List ModuleExt) (rs : List ResourceExt),
        Merge mtaObj ⟨mtaExt.ID, mtaExt.Parameters, pre ++ M :: tail, rs⟩ =
          ((specModuleStep mtaExt.ID M
            (specRunSteps mtaObj
              (specRootParametersStep mtaExt :: pre.map (specModuleStep mtaExt.ID))).1).1,
            some err) := by
      intro tail rs
      rw [Merge_eq_runSteps]
      have hsplit : specMergeSteps ⟨mtaExt.ID, mtaExt.Parameters, pre ++ M :: tail, rs⟩ =
          (specRootParametersStep mtaExt :: pre.map (specModuleStep mtaExt.ID)) ++
            specModuleStep mtaExt.ID M ::
              (tail.map (specModuleStep mtaExt.ID) ++ rs.map (specResourceStep mtaExt.ID)) := by
        simp only [specMergeSteps, List.map_append, List.map_cons, List.cons_append,
          List.append_assoc]
        rfl
      rw [hsplit]
      exact specRunSteps_stops _ _ _ mtaObj err hpre hstep
    have hfull : Merge mtaObj mtaExt =
        ((specModuleStep mtaExt.ID M
          (specRunSteps mtaObj
            (specRootParametersStep mtaExt :: pre.map (specModuleStep mtaExt.ID))).1).1,
          some err) := by
      have h := hrun post mtaExt.Resources
      rw [← hM] at h
      exact h
    refine ⟨hfull, hfull.trans (hrun [] []).symm, ?_⟩
    rw [hfull]
    simp only
    rw [(specModuleStep_keeps _ _ _).1, specRunSteps_cons]
    split
    · rw [(specRunSteps_modules_keeps _ _ _).1]; rfl
    · rfl

set_option maxRecDepth 100000 in
/-- The witness of C17. In the first run the root parameter `env` is set, the first
entry for `web` merges and the second fails on the protected property `memory`: the
entry after it and the entry for the resource `db` play no part. In the second run
the root parameter, the entry for `web` and the first entry for `db` merge, and the
second entry for `db` fails: the descriptor holds what the steps before it wrote. -/
theorem Merge_runs_steps_in_order_witness :
    (Merge sampleBase sampleExtFailingModule =
        ((specModuleStep "ext" sampleWebMemoryEntry
          (specRunSteps sampleBase
            (specRootParametersStep sampleExtFailingModule ::
              [sampleWebOkEntry].map (specModuleStep "ext"))).1).1,
          some ("could not merge modules from MTA extension with ID \"ext\": " ++
            "could not merge the properties of the \"web\" module: " ++
            "the \"memory\" field is not overwritable")) ∧
      Merge sampleBase sampleExtFailingModule =
        Merge sampleBase
          ⟨"ext", some [("env", Value.str "prod")],
            [sampleWebOkEntry] ++ [sampleWebMemoryEntry], []⟩ ∧
      (Merge sampleBase sampleExtFailingModule).1.Resources = sampleBase.Resources) ∧
    (Merge sampleBase sampleExtFailingModule).1.Parameters =
      some [("env", Value.str "prod")] ∧
    (Merge sampleBase sampleExtFailingModule).1.Modules.map Module.Parameters =
      [some [("instances", Value.num 2)]] ∧
    (Merge sampleBase sampleExtFailingResource).2 =
      some ("could not merge resources from MTA extension with ID \"ext\": " ++
        "could not merge the properties of the \"db\" resource: " ++
        "\"host\": cannot overwrite a scalar value with a structured value") ∧
    (Merge sampleBase sampleExtFailingResource).1.Parameters =
      some [("env", Value.str "prod")] ∧
    (Merge sampleBase sampleExtFailingResource).1.Modules.map Module.Parameters =
      [some [("instances", Value.num 2)]] ∧
    (Merge sampleBase sampleExtFailingResource).1.Resources.map Resource.Parameters =
      [some [("size", Value.num 1)]] :=
  ⟨(Merge_runs_steps_in_order sampleBase sampleExtFailingModule).2.2.2.2
      [sampleWebOkEntry] [sampleWebOkEntry] sampleWebMemoryEntry
      ("could not merge modules from MTA extension with ID \"ext\": " ++
        "could not merge the properties of the \"web\" module: " ++
        "the \"memory\" field is not overwritable")
      rfl (by decide) (by decide),
    rfl, rfl, by decide, rfl, rfl, rfl⟩

/-! ## The common shape of the loops -/

theorem loopByName_nil {α ε : Type} (nameOf : α → String) (entryName : ε → String)
    (body : α → ε → α × Option String) (unknown : ε → String) (base : List α) :
    loopByName nameOf entryName body unknown base [] = (base, none) := by
  rw [loopByName]

theorem loopByName_cons_unknown {α ε : Type} (nameOf : α → String)
    (entryName : ε → String) (body : α → ε → α × Option String) (unknown : ε → String)
    (base : List α) (e : ε) (rest : List ε)
    (h : findByName nameOf (entryName e) base = none) :
    loopByName nameOf entryName body unknown base (e :: rest) =
      (base, some (unknown e)) := by
  rw [loopByName]
  simp only [h]

theorem loopByName_cons_found {α ε : Type} (nameOf : α → String)
    (entryName : ε → String) (body : α → ε → α × Option String) (unknown : ε → String)
    (base : List α) (e : ε) (rest : List ε) (found : α)
    (h : findByName nameOf (entryName e) base = some found) :
    loopByName nameOf entryName body unknown base (e :: rest) =
      if (body found e).2 = none then
        loopByName nameOf entryName body unknown
          (storeByName nameOf (entryName e) (body found e).1 base) rest
      else
        (storeByName nameOf (entryName e) (body found e).1 base, (body found e).2) := by
  rw [loopByName]
  simp only [h]
  cases hr : (body found e).2 <;> simp

/-- The entity found under a name after the pointer for a name has been written
through. -/
theorem findByName_storeByName {α : Type} (nameOf : α → String) (name stored : String)
    (new : α) (hnew : nameOf new = stored) :
    ∀ (l : List α) (old : α), findByName nameOf stored l = some old →
      findByName nameOf name (storeByName nameOf stored new l) =
        if name = stored then some new else findByName nameOf name l := by
  intro l
  induction l with
  | nil => intro old h; simp [findByName] at h
  | cons y ys ih =>
    intro old h
    by_cases hy : nameOf y = stored
    · simp only [storeByName, hy, if_true, findByName, hnew]
      by_cases hn : name = stored
      · simp [hn]
      · have hn2 : ¬ stored = name := fun h2 => hn h2.symm
        simp [hn, hn2]
    · simp only [findByName, hy, if_false] at h
      simp only [storeByName, hy, if_false, findByName]
      by_cases hyn : nameOf y = name
      · have hn : ¬ name = stored := fun h2 => hy (hyn.trans h2)
        simp [hyn, hn]
      · simp only [hyn, if_false]
        exact ih old h

/-- What holds of the entity with a name, and is kept by the body of the loop, holds
of the entity with that name after the loop, whether the loop succeeds or fails. -/
theorem loopByName_keeps {α ε : Type} (nameOf : α → String) (entryName : ε → String)
    (body : α → ε → α × Option String) (unknown : ε → String) (Q : α → Prop)
    (hname : ∀ x e, nameOf (body x e).1 = nameOf x)
    (hQ : ∀ x e, Q x → Q (body x e).1) (name : String) (l : List ε) :
    ∀ (base : List α) (x : α), findByName nameOf name base = some x → Q x →
      ∃ y, findByName nameOf name
        (loopByName nameOf entryName body unknown base l).1 = some y ∧ Q y := by
  induction l with
  | nil => intro base x hx hq; rw [loopByName_nil]; exact ⟨x, hx, hq⟩
  | cons e rest ih =>
    intro base x hx hq
    cases hf : findByName nameOf (entryName e) base with
    | none =>
      rw [loopByName_cons_unknown nameOf entryName body unknown base e rest hf]
      exact ⟨x, hx, hq⟩
    | some found =>
      have hnew : nameOf (body found e).1 = entryName e := by
        rw [hname]; exact findByName_name nameOf _ base found hf
      have hstored := findByName_storeByName nameOf name (entryName e) (body found e).1
        hnew base found hf
      have hkept : ∃ y, findByName nameOf name
          (storeByName nameOf (entryName e) (body found e).1 base) = some y ∧ Q y := by
        by_cases hn : name = entryName e
        · rw [hstored, if_pos hn]
          rw [hn, hf] at hx
          simp only [Option.some.injEq] at hx
          subst hx
          exact ⟨_, rfl, hQ _ e hq⟩
        · rw [hstored, if_neg hn]
          exact ⟨x, hx, hq⟩
      rw [loopByName_cons_found nameOf entryName body unknown base e rest found hf]
      split
      · obtain ⟨y, hy, hqy⟩ := hkept
        exact ih _ y hy hqy
      · exact hkept

/-- When the body of the loop fails on every entity of which `Q` holds for every entry
of which `R` holds, and keeps `Q`, the loop fails as soon as the entries hold one of
which `R` holds for the name of an entity of which `Q` holds. -/
theorem loopByName_fails {α ε : Type} (nameOf : α → String) (entryName : ε → String)
    (body : α → ε → α × Option String) (unknown : ε → String) (Q : α → Prop)
    (R : ε → Prop) (hname : ∀ x e, nameOf (body x e).1 = nameOf x)
    (hQ : ∀ x e, Q x → Q (body x e).1)
    (hfail : ∀ x e, Q x → R e → (body x e).2 ≠ none) (name : String) (l : List ε) :
    ∀ (base : List α) (x : α), findByName nameOf name base = some x → Q x →
      (∃ e, e ∈ l ∧ entryName e = name ∧ R e) →
      (loopByName nameOf entryName body unknown base l).2 ≠ none := by
  induction l with
  | nil =>
    intro base x _ _ he
    obtain ⟨e, hm, _⟩ := he
    simp at hm
  | cons e rest ih =>
    intro base x hx hq he
    cases hf : findByName nameOf (entryName e) base with
    | none =>
      rw [loopByName_cons_unknown nameOf entryName body unknown base e rest hf]
      exact fun h => Option.noConfusion h
    | some found =>
      rw [loopByName_cons_found nameOf entryName body unknown base e rest found hf]
      by_cases hok : (body found e).2 = none
      · rw [if_pos hok]
        have hnew : nameOf (body found e).1 = entryName e := by
          rw [hname]; exact findByName_name nameOf _ base found hf
        have hstored := findByName_storeByName nameOf name (entryName e)
          (body found e).1 hnew base found hf
        obtain ⟨e1, hm, hn1, hr1⟩ := he
        rcases List.mem_cons.mp hm with h1 | h1
        · subst h1
          rw [hn1, hx] at hf
          simp only [Option.some.injEq] at hf
          subst hf
          exact absurd hok (hfail _ _ hq hr1)
        · have hkept : ∃ y, findByName nameOf name
              (storeByName nameOf (entryName e) (body found e).1 base) = some y ∧
              Q y := by
            by_cases hn : name = entryName e
            · rw [hstored, if_pos hn]
              rw [hn, hf] at hx
              simp only [Option.some.injEq] at hx
              subst hx
              exact ⟨_, rfl, hQ _ e hq⟩
            · rw [hstored, if_neg hn]
              exact ⟨x, hx, hq⟩
          obtain ⟨y, hy, hqy⟩ := hkept
          exact ih _ y hy hqy ⟨e1, h1, hn1, hr1⟩
      · rw [if_neg hok]
        exact hok

/-! ## The five loops of `ext.go` in the common shape -/

theorem mergeRequires_eq_loop (u p q : msg) (requires : List Requires) :
    ∀ provider : List Requires,
      mergeRequires requires provider u p q =
        loopByName Requires.Name Requires.Name
          (fun found e => mergeRequiresFields found e p q)
          (fun e => Errorf u.msg (u.getArgs [e.Name])) provider requires := by
  induction requires with
  | nil => intro provider; rw [mergeRequires_nil, loopByName_nil]
  | cons e rest ih =>
    intro provider
    cases hf : GetRequiresByName provider e.Name with
    | none =>
      rw [mergeRequires_cons_unknown e rest provider u p q hf,
        loopByName_cons_unknown _ _ _ _ provider e rest hf]
    | some found =>
      rw [mergeRequires_cons_found e rest provider u p q found hf,
        loopByName_cons_found _ _ _ _ provider e rest found hf, ih]

theorem mergeModuleProvidesLoop_eq_loop (X : ModuleExt) (l : List ProvidesExt) :
    ∀ module : Module,
      mergeModuleProvidesLoop module X l =
        ({ module with
            Provides :=
              (loopByName Provides.Name ProvidesExt.Name
                (fun found e => mergeProvide found e module)
                (fun e => Errorf unknownModuleProvidesErrorMsg [e.Name, X.Name])
                module.Provides l).1 },
          (loopByName Provides.Name ProvidesExt.Name
            (fun found e => mergeProvide found e module)
            (fun e => Errorf unknownModuleProvidesErrorMsg [e.Name, X.Name])
            module.Provides l).2) := by
  induction l with
  | nil => intro module; rw [mergeModuleProvidesLoop_nil, loopByName_nil]
  | cons e rest ih =>
    intro module
    cases hf : module.GetProvidesByName e.Name with
    | none =>
      rw [mergeModuleProvidesLoop_cons_unknown module X e rest hf,
        loopByName_cons_unknown _ _ _ _ module.Provides e rest hf]
    | some found =>
      rw [mergeModuleProvidesLoop_cons_found module X e rest found hf,
        loopByName_cons_found _ _ _ _ module.Provides e rest found hf]
      by_cases hok : (mergeProvide found e module).2 = none
      · rw [if_pos hok, if_pos hok, ih]
        rfl
      · rw [if_neg hok, if_neg hok]

theorem mergeModuleHooksLoop_eq_loop (X : ModuleExt) (l : List HookExt) :
    ∀ module : Module,
      mergeModuleHooksLoop module X l =
        ({ module with
            Hooks :=
              (loopByName Hook.Name HookExt.Name
                (fun found e => mergeHook found e module X)
                (fun e => Errorf unknownModuleHookErrorMsg [e.Name, X.Name])
                module.Hooks l).1 },
          (loopByName Hook.Name HookExt.Name
            (fun found e => mergeHook found e module X)
            (fun e => Errorf unknownModuleHookErrorMsg [e.Name, X.Name])
            module.Hooks l).2) := by
  induction l with
  | nil => intro module; rw [mergeModuleHooksLoop_nil, loopByName_nil]
  | cons e rest ih =>
    intro module
    cases hf : module.GetHookByName e.Name with
    | none =>
      rw [mergeModuleHooksLoop_cons_unknown module X e rest hf,
        loopByName_cons_unknown _ _ _ _ module.Hooks e rest hf]
    | some found =>
      rw [mergeModuleHooksLoop_cons_found module X e rest found hf,
        loopByName_cons_found _ _ _ _ module.Hooks e rest found hf]
      by_cases hok : (mergeHook found e module X).2 = none
      · rw [if_pos hok, if_pos hok, ih]
        rfl
      · rw [if_neg hok, if_neg hok]

theorem mergeModules_eq_loop (l : List ModuleExt) :
    ∀ mtaObj : MTA,
      mergeModules mtaObj l =
        ({ mtaObj with
            Modules :=
              (loopByName Module.Name ModuleExt.Name mergeModule
                (fun e => Wrapf (Errorf moduleNotDefinedMsg [e.Name])
                  unknownModuleErrorMsg [e.Name])
                mtaObj.Modules l).1 },
          (loopByName Module.Name ModuleExt.Name mergeModule
            (fun e => Wrapf (Errorf moduleNotDefinedMsg [e.Name])
              unknownModuleErrorMsg [e.Name])
            mtaObj.Modules l).2) := by
  induction l with
  | nil => intro mtaObj; rw [mergeModules_nil, loopByName_nil]
  | cons e rest ih =>
    intro mtaObj
    cases hf : findByName Module.Name e.Name mtaObj.Modules with
    | none =>
      rw [mergeModules_cons_unknown mtaObj e rest hf,
        loopByName_cons_unknown _ _ _ _ mtaObj.Modules e rest hf]
    | some found =>
      rw [mergeModules_cons_found mtaObj e rest found hf,
        loopByName_cons_found _ _ _ _ mtaObj.Modules e rest found hf]
      by_cases hok : (mergeModule found e).2 = none
      · rw [if_pos hok, if_pos hok, ih]
      · rw [if_neg hok, if_neg hok]

theorem mergeResources_eq_loop (l : List ResourceExt) :
    ∀ mtaObj : MTA,
      mergeResources mtaObj l =
        ({ mtaObj with
            Resources :=
              (loopByName Resource.Name ResourceExt.Name mergeResource
                (fun e => Wrapf (Errorf resourceNotDefinedMsg [e.Name])
                  unknownResourceErrorMsg [e.Name])
                mtaObj.Resources l).1 },
          (loopByName Resource.Name ResourceExt.Name mergeResource
            (fun e => Wrapf (Errorf resourceNotDefinedMsg [e.Name])
              unknownResourceErrorMsg [e.Name])
            mtaObj.Resources l).2) := by
  induction l with
  | nil => intro mtaObj; rw [mergeResources_nil, loopByName_nil]
  | cons e rest ih =>
    intro mtaObj
    cases hf : findByName Resource.Name e.Name mtaObj.Resources with
    | none =>
      rw [mergeResources_cons_unknown mtaObj e rest hf,
        loopByName_cons_unknown _ _ _ _ mtaObj.Resources e rest hf]
    | some found =>
      rw [mergeResources_cons_found mtaObj e rest found hf,
        loopByName_cons_found _ _ _ _ mtaObj.Resources e rest found hf]
      by_cases hok : (mergeResource found e).2 = none
      · rw [if_pos hok, if_pos hok, ih]
      · rw [if_neg hok, if_neg hok]

/-! ## The chains, written out -/

theorem chainError.extendMap_err (v : chainError) (m : GoMap) (meta : Option MetaTable)
    (ext : GoMap) (msg args : List String) :
    (v.extendMap m meta ext msg args).1.err =
      if v.err = none then (mta.extendMap m meta ext).2.map (fun err => Wrapf err msg args)
      else v.err := by
  cases hv : v.err with
  | some x => rw [chainError.extendMap_of_err v x hv]; simp [hv]
  | none =>
    have hc := chainError.eq_chain v hv
    subst hc
    rw [chain_extendMap]
    simp

theorem chainError.extendMap_snd (v : chainError) (m : GoMap) (meta : Option MetaTable)
    (ext : GoMap) (msg args : List String) :
    (v.extendMap m meta ext msg args).2 =
      if v.err = none then (mta.extendMap m meta ext).1 else m := by
  cases hv : v.err with
  | some x => rw [chainError.extendMap_of_err v x hv]; simp
  | none =>
    have hc := chainError.eq_chain v hv
    subst hc
    rw [chain_extendMap]
    simp

theorem Option.map_eq_none_iff_of {α β : Type} (f : α → β) (o : Option α) :
    o.map f = none ↔ o = none := by
  cases o <;> simp

/-- The error of the chain of `mergeRequires`: that of the properties, else that of
the parameters, each with its message in front. -/
theorem mergeRequiresFields_err (requires extRequires : Requires) (p q : msg) :
    (mergeRequiresFields requires extRequires p q).2 =
      if (extendMap requires.Properties requires.PropertiesMetaData
          extRequires.Properties).2 = none then
        (extendMap requires.Parameters requires.ParametersMetaData
          extRequires.Parameters).2.map
          (fun err => Wrapf err q.msg (q.getArgs [requires.Name]))
      else
        (extendMap requires.Properties requires.PropertiesMetaData
          extRequires.Properties).2.map
          (fun err => Wrapf err p.msg (p.getArgs [requires.Name])) := by
  simp only [mergeRequiresFields, chainError.extendMap_err, chain_extendMap,
    Option.map_eq_none_iff_of]

/-- What the chain of `mergeRequires` leaves: the properties as `extendMap` leaves
them, and the parameters as well when the merge of the properties does not fail. -/
theorem mergeRequiresFields_fst (requires extRequires : Requires) (p q : msg) :
    (mergeRequiresFields requires extRequires p q).1 =
      { requires with
        Properties := (extendMap requires.Properties requires.PropertiesMetaData
          extRequires.Properties).1
        Parameters :=
          if (extendMap requires.Properties requires.PropertiesMetaData
              extRequires.Properties).2 = none then
            (extendMap requires.Parameters requires.ParametersMetaData
              extRequires.Parameters).1
          else requires.Parameters } := by
  simp only [mergeRequiresFields, chainError.extendMap_snd, chain_extendMap,
    Option.map_eq_none_iff_of]

theorem mergeProvide_err (provide : Provides) (extProvide : ProvidesExt)
    (module : Module) :
    (mergeProvide provide extProvide module).2 =
      (extendMap provide.Properties provide.PropertiesMetaData
        extProvide.Properties).2.map
        (fun err => Wrapf err mergeModuleProvidesPropertiesErrorMsg
          [provide.Name, module.Name]) := by
  simp only [mergeProvide, chain_extendMap]

theorem mergeProvide_fst (provide : Provides) (extProvide : ProvidesExt)
    (module : Module) :
    (mergeProvide provide extProvide module).1 =
      { provide with
        Properties := (extendMap provide.Properties provide.PropertiesMetaData
          extProvide.Properties).1 } := by
  simp only [mergeProvide, chain_extendMap]

/-- The error of the chain of `mergeModules` on the fields of a module: that of the
properties, else that of the parameters, else that of the build parameters, each with
its message in front. -/
theorem mergeModuleFields_err (module : Module) (extModule : ModuleExt) :
    (mergeModuleFields module extModule).2 =
      if (extendMap module.Properties module.PropertiesMetaData
          extModule.Properties).2 = none then
        if (extendMap module.Parameters module.ParametersMetaData
            extModule.Parameters).2 = none then
          (extendMap module.BuildParams none extModule.BuildParams).2.map
            (fun err => Wrapf err mergeModuleBuildParametersErrorMsg [module.Name])
        else
          (extendMap module.Parameters module.ParametersMetaData
            extModule.Parameters).2.map
            (fun err => Wrapf err mergeModuleParametersErrorMsg [module.Name])
      else
        (extendMap module.Properties module.PropertiesMetaData
          extModule.Properties).2.map
          (fun err => Wrapf err mergeModulePropertiesErrorMsg [module.Name]) := by
  simp only [mergeModuleFields, chainError.extendIncludes_fst, chainError.extendMap_err,
    chain_extendMap, Option.map_eq_none_iff_of]
  split <;> split <;> simp_all

theorem mergeModuleFields_properties (module : Module) (extModule : ModuleExt) :
    (mergeModuleFields module extModule).1.Properties =
      (extendMap module.Properties module.PropertiesMetaData extModule.Properties).1 := by
  simp only [mergeModuleFields, chain_extendMap]

theorem mergeModuleFields_parameters (module : Module) (extModule : ModuleExt) :
    (mergeModuleFields module extModule).1.Parameters =
      if (extendMap module.Properties module.PropertiesMetaData
          extModule.Properties).2 = none then
        (extendMap module.Parameters module.ParametersMetaData extModule.Parameters).1
      else module.Parameters := by
  simp only [mergeModuleFields, chainError.extendMap_snd, chain_extendMap,
    Option.map_eq_none_iff_of]

/-- The error of the chain of `mergeResources` on the fields of a resource: that of
the properties, else that of the parameters, each with its message in front. -/
theorem mergeResourceFields_err (resource : Resource) (extResource : ResourceExt) :
    (mergeResourceFields resource extResource).2 =
      if (extendMap resource.Properties resource.PropertiesMetaData
          extResource.Properties).2 = none then
        (extendMap resource.Parameters resource.ParametersMetaData
          extResource.Parameters).2.map
          (fun err => Wrapf err mergeResourceParametersErrorMsg [resource.Name])
      else
        (extendMap resource.Properties resource.PropertiesMetaData
          extResource.Properties).2.map
          (fun err => Wrapf err mergeResourcePropertiesErrorMsg [resource.Name]) := by
  have hb : (chain.extendBool resource.Active (some extResource.Active)
      mergeResourceActiveErrorMsg [resource.Name]).1 = chain :=
    chainError.extendBool_fst _ _ _ _ _
  simp only [mergeResourceFields, hb, chainError.extendMap_err, chain_extendMap,
    Option.map_eq_none_iff_of]

theorem mergeResourceFields_properties (resource : Resource)
    (extResource : ResourceExt) :
    (mergeResourceFields resource extResource).1.Properties =
      (extendMap resource.Properties resource.PropertiesMetaData
        extResource.Properties).1 := by
  have hb : (chain.extendBool resource.Active (some extResource.Active)
      mergeResourceActiveErrorMsg [resource.Name]).1 = chain :=
    chainError.extendBool_fst _ _ _ _ _
  simp only [mergeResourceFields, hb, chain_extendMap]

theorem mergeResourceFields_parameters (resource : Resource)
    (extResource : ResourceExt) :
    (mergeResourceFields resource extResource).1.Parameters =
      if (extendMap resource.Properties resource.PropertiesMetaData
          extResource.Properties).2 = none then
        (extendMap resource.Parameters resource.ParametersMetaData
          extResource.Parameters).1
      else resource.Parameters := by
  have hb : (chain.extendBool resource.Active (some extResource.Active)
      mergeResourceActiveErrorMsg [resource.Name]).1 = chain :=
    chainError.extendBool_fst _ _ _ _ _
  simp only [mergeResourceFields, hb, chainError.extendMap_snd, chain_extendMap,
    Option.map_eq_none_iff_of]

/-- The body of the loop of `mergeModuleHooks`, written out: the parameters as
`extendMap` leaves them; when that fails, its error with the message in front; else
the loop of `mergeRequires` on the required interfaces of the hook. -/
theorem mergeHook_eq (hook : Hook) (extHook : HookExt) (module : Module)
    (extModule : ModuleExt) :
    mergeHook hook extHook module extModule =
      if (extendMap hook.Parameters hook.ParametersMetaData extHook.Parameters).2 =
          none then
        ({ hook with
            Parameters :=
              (extendMap hook.Parameters hook.ParametersMetaData extHook.Parameters).1
            Requires :=
              (mergeRequires extHook.Requires hook.Requires
                ⟨unknownModuleHookRequiresErrorMsg, [extHook.Name, extModule.Name]⟩
                ⟨mergeModuleHookRequiresPropertiesErrorMsg, [hook.Name, module.Name]⟩
                ⟨mergeModuleHookRequiresParametersErrorMsg,
                  [hook.Name, module.Name]⟩).1 },
          (mergeRequires extHook.Requires hook.Requires
            ⟨unknownModuleHookRequiresErrorMsg, [extHook.Name, extModule.Name]⟩
            ⟨mergeModuleHookRequiresPropertiesErrorMsg, [hook.Name, module.Name]⟩
            ⟨mergeModuleHookRequiresParametersErrorMsg, [hook.Name, module.Name]⟩).2)
      else
        ({ hook with
            Parameters :=
              (extendMap hook.Parameters hook.ParametersMetaData
                extHook.Parameters).1 },
          (extendMap hook.Parameters hook.ParametersMetaData extHook.Parameters).2.map
            (fun err => Wrapf err mergeModuleHookParametersErrorMsg
              [hook.Name, module.Name])) := by
  simp only [mergeHook, chain_extendMap]
  cases h : (extendMap hook.Parameters hook.ParametersMetaData extHook.Parameters).2 with
  | none => simp
  | some err => simp

theorem mergeHook_congr_module (hook : Hook) (extHook : HookExt) (module module1 : Module)
    (X : ModuleExt) (h : module1.Name = module.Name) :
    mergeHook hook extHook module1 X = mergeHook hook extHook module X := by
  simp only [mergeHook, h]

/-- The body of the loop of `mergeResources`, written out. -/
theorem mergeResource_eq (resource : Resource) (extResource : ResourceExt) :
    mergeResource resource extResource =
      if (mergeResourceFields resource extResource).2 = none then
        ({ (mergeResourceFields resource extResource).1 with
            Requires :=
              (mergeRequires extResource.Requires resource.Requires
                ⟨unknownResourceRequiresErrorMsg, [extResource.Name]⟩
                ⟨mergeResourceRequiresPropertiesErrorMsg, [resource.Name]⟩
                ⟨mergeResourceRequiresParametersErrorMsg, [resource.Name]⟩).1 },
          (mergeRequires extResource.Requires resource.Requires
            ⟨unknownResourceRequiresErrorMsg, [extResource.Name]⟩
            ⟨mergeResourceRequiresPropertiesErrorMsg, [resource.Name]⟩
            ⟨mergeResourceRequiresParametersErrorMsg, [resource.Name]⟩).2)
      else mergeResourceFields resource extResource := by
  simp only [mergeResource]
  cases h : (mergeResourceFields resource extResource).2 with
  | none => simp only [if_true]; rfl
  | some err => simp only [reduceCtorEq, if_false]; rw [← h]

/-! ## The error of a shape conflict at a nested key path -/

/-- A shape conflict at a nested key path makes the loop of `extendMap` fail, and the
error is the text for the conflict behind every key of the path, outermost first. -/
theorem ConflictAt_err (m : Table) (meta : Option MetaTable) (ext : Table)
    (path : List String) (leaf : String) (h : ConflictAt m meta ext path leaf) :
    (extendMapLoop m meta ext).2 = some (keyPathText path leaf) := by
  induction h with
  | structured m meta key value rest hover hcur hnil hvalue =>
    rw [extendMapLoop_cons, if_pos hover,
      mergeMapKey_structured_scalar m key value hnil hcur hvalue,
      if_neg (fun h => Option.noConfusion h), keyPathText_structured]
  | scalar m meta key value rest hover hnil hcur hvalue =>
    rw [extendMapLoop_cons, if_pos hover,
      mergeMapKey_scalar_structured m key value hnil hcur hvalue,
      if_neg (fun h => Option.noConfusion h), keyPathText_scalar]
  | nested m meta key cur e rest path leaf hover hcur _ ih =>
    rw [extendMapLoop_cons, if_pos hover, mergeMapKey_maps m key cur e hcur, ih]
    simp only [Option.map_some', reduceCtorEq, if_false]
    rw [keyPathText_wrap, keyPathText_cons]
  | later m meta key value rest path leaf hover hok _ ih =>
    rw [extendMapLoop_cons, if_pos hover, if_pos hok]
    exact ih

/-- The text for a conflict is one of the two that `mergeMapKey` has, and the path to
a conflict has a key. -/
theorem ConflictAt_leaf (m : Table) (meta : Option MetaTable) (ext : Table)
    (path : List String) (leaf : String) (h : ConflictAt m meta ext path leaf) :
    (leaf = "cannot overwrite a structured value with a scalar value" ∨
      leaf = "cannot overwrite a scalar value with a structured value") ∧ path ≠ [] := by
  induction h with
  | structured => exact ⟨Or.inl rfl, List.cons_ne_nil _ _⟩
  | scalar => exact ⟨Or.inr rfl, List.cons_ne_nil _ _⟩
  | nested _ _ _ _ _ _ _ _ _ _ _ ih => exact ⟨ih.1, List.cons_ne_nil _ _⟩
  | later _ _ _ _ _ _ _ _ _ _ ih => exact ih

/-- An error of `mergeMapKey` for a value that is not a mapping is the conflict at the
key, which holds a mapping. -/
theorem mergeMapKey_conflict_of_not_map (v : Value) (hv : v.isMap = false) (m : Table)
    (k : String) (err : String) (h : (mergeMapKey m k v).2 = some err) :
    (Table.index m k).isMap = true ∧ v.isNil = false ∧
      err = keyPathText [k] "cannot overwrite a structured value with a scalar value" := by
  rcases mergeMapKey_cases m k v with ⟨_, hr⟩ | ⟨c, e, _, he, _⟩ |
      ⟨hc, hn, _, hr⟩ | ⟨_, _, hv2, _⟩
  · rw [hr] at h; exact Option.noConfusion h
  · rw [he] at hv; exact Bool.noConfusion hv
  · rw [hr] at h
    simp only [Option.some.injEq] at h
    exact ⟨hc, hn, by rw [← h, keyPathText_structured]⟩
  · rw [hv] at hv2; exact Bool.noConfusion hv2

mutual
/-- An error of the loop of `extendMap` is the denial of a key of the extension, met
with every key before it merged, or the text of a shape conflict at a nested key
path. -/
theorem extendMapLoop_conflict : ∀ (ext : Table) (m : Table) (meta : Option MetaTable)
    (err : String), (extendMapLoop m meta ext).2 = some err →
      (∃ pre k v post, ext = pre ++ (k, v) :: post ∧
        (extendMapLoop m meta pre).2 = none ∧
        isFieldOverWritable k meta (some (extendMapLoop m meta pre).1) = false ∧
        err = "the \"" ++ k ++ "\" field is not overwritable") ∨
      (∃ path leaf, ConflictAt m meta ext path leaf ∧ err = keyPathText path leaf)
  | [], m, meta, err, h => by
    rw [extendMapLoop_nil] at h
    exact Option.noConfusion h
  | (k, v) :: rest, m, meta, err, h => by
    rw [extendMapLoop_cons] at h
    by_cases how : isFieldOverWritable k meta (some m) = true
    · rw [if_pos how] at h
      by_cases hok : (mergeMapKey m k v).2 = none
      · rw [if_pos hok] at h
        rcases extendMapLoop_conflict rest _ meta err h with
          ⟨pre, k1, v1, post, hsplit, hpre, hden, he⟩ | ⟨path, leaf, hp, he⟩
        · refine Or.inl ⟨(k, v) :: pre, k1, v1, post, by rw [hsplit]; rfl, ?_, ?_, he⟩
          · rw [extendMapLoop_cons, if_pos how, if_pos hok]; exact hpre
          · rw [extendMapLoop_cons, if_pos how, if_pos hok]; exact hden
        · exact Or.inr ⟨path, leaf, ConflictAt.later m meta k v rest path leaf how hok hp,
            he⟩
      · rw [if_neg hok] at h
        obtain ⟨path, leaf, hp, he⟩ := mergeMapKey_conflict v m k meta rest err how h
        exact Or.inr ⟨path, leaf, hp, he⟩
    · rw [if_neg how] at h
      simp only [Option.some.injEq] at h
      refine Or.inl ⟨[], k, v, rest, rfl, by rw [extendMapLoop_nil], ?_, ?_⟩
      · rw [extendMapLoop_nil]
        exact Bool.eq_false_iff.mpr how
      · rw [← h, Errorf, overwriteNonOverwritableErrorMsg, Sprintf_one]
/-- An error of `mergeMapKey` for an overwritable key is the text of a shape conflict
at the key or below it. -/
theorem mergeMapKey_conflict : ∀ (v : Value) (m : Table) (k : String)
    (meta : Option MetaTable) (rest : Table) (err : String),
    isFieldOverWritable k meta (some m) = true →
    (mergeMapKey m k v).2 = some err →
      ∃ path leaf, ConflictAt m meta ((k, v) :: rest) path leaf ∧
        err = keyPathText path leaf
  | Value.map e, m, k, meta, rest, err, how, h => by
    rcases mergeMapKey_cases m k (Value.map e) with ⟨_, hr⟩ | ⟨c, e1, hc, he, hr⟩ |
        ⟨_, _, hv, _⟩ | ⟨hn, hc, hv, hr⟩
    · rw [hr] at h; exact Option.noConfusion h
    · simp only [Value.map.injEq] at he
      subst he
      rw [hr] at h
      simp only [Option.map_eq_some'] at h
      obtain ⟨inner, hinner, hwrap⟩ := h
      rcases extendMapLoop_conflict e c none inner hinner with
        ⟨pre, k1, v1, post, _, _, hden, _⟩ | ⟨path, leaf, hp, he⟩
      · rw [isFieldOverWritable_nil_meta] at hden
        exact Bool.noConfusion hden
      · refine ⟨k :: path, leaf, ConflictAt.nested m meta k c e rest path leaf how hc hp, ?_⟩
        rw [← hwrap, keyPathText_wrap, he, keyPathText_cons]
    · exact Bool.noConfusion hv
    · rw [hr] at h
      simp only [Option.some.injEq] at h
      exact ⟨[k], _, ConflictAt.scalar m meta k (Value.map e) rest how hn hc hv,
        by rw [← h, keyPathText_scalar]⟩
  | Value.null, m, k, meta, rest, err, how, h => by
    obtain ⟨hc, hn, he⟩ := mergeMapKey_conflict_of_not_map Value.null rfl m k err h
    exact ⟨[k], _, ConflictAt.structured m meta k Value.null rest how hc hn rfl, he⟩
  | Value.bool b, m, k, meta, rest, err, how, h => by
    obtain ⟨hc, hn, he⟩ := mergeMapKey_conflict_of_not_map (Value.bool b) rfl m k err h
    exact ⟨[k], _, ConflictAt.structured m meta k (Value.bool b) rest how hc hn rfl, he⟩
  | Value.num n, m, k, meta, rest, err, how, h => by
    obtain ⟨hc, hn, he⟩ := mergeMapKey_conflict_of_not_map (Value.num n) rfl m k err h
    exact ⟨[k], _, ConflictAt.structured m meta k (Value.num n) rest how hc hn rfl, he⟩
  | Value.str s, m, k, meta, rest, err, how, h => by
    obtain ⟨hc, hn, he⟩ := mergeMapKey_conflict_of_not_map (Value.str s) rfl m k err h
    exact ⟨[k], _, ConflictAt.structured m meta k (Value.str s) rest how hc hn rfl, he⟩
  | Value.list xs, m, k, meta, rest, err, how, h => by
    obtain ⟨hc, hn, he⟩ := mergeMapKey_conflict_of_not_map (Value.list xs) rfl m k err h
    exact ⟨[k], _, ConflictAt.structured m meta k (Value.list xs) rest how hc hn rfl, he⟩
end

/-! ## The error of a place that a run comes to -/

/-- The error of a place that the loop comes to is the error of the loop, when the
same holds of the body of the loop. -/
theorem loopByName_reaches {α ε : Type} (nameOf : α → String) (entryName : ε → String)
    (body : α → ε → α × Option String) (unknown : ε → String)
    (reaches : α → ε → failurePoint → Prop) (err : String)
    (hbody : ∀ x e point, reaches x e point → point.failure = some err →
      (body x e).2 = some err)
    (base : List α) (l : List ε) (point : failurePoint)
    (h : LoopReaches nameOf entryName body unknown reaches base l point)
    (hfail : point.failure = some err) :
    (loopByName nameOf entryName body unknown base l).2 = some err := by
  induction h with
  | unknown base e rest hfind =>
    rw [loopByName_cons_unknown nameOf entryName body unknown base e rest hfind]
    exact hfail
  | here base e rest found point hfind hpoint =>
    rw [loopByName_cons_found nameOf entryName body unknown base e rest found hfind,
      hbody found e point hpoint hfail]
    simp
  | later base e rest found point hfind hok _ ih =>
    rw [loopByName_cons_found nameOf entryName body unknown base e rest found hfind,
      if_pos hok]
    exact ih hfail

/-- Every error of the loop is the error of a place that the loop comes to, when the
same holds of the body of the loop. -/
theorem loopByName_complete {α ε : Type} (nameOf : α → String) (entryName : ε → String)
    (body : α → ε → α × Option String) (unknown : ε → String)
    (reaches : α → ε → failurePoint → Prop)
    (hbody : ∀ x e err, (body x e).2 = some err →
      ∃ point, reaches x e point ∧ point.failure = some err)
    (l : List ε) :
    ∀ (base : List α) (err : String),
      (loopByName nameOf entryName body unknown base l).2 = some err →
      ∃ point, LoopReaches nameOf entryName body unknown reaches base l point ∧
        point.failure = some err := by
  induction l with
  | nil =>
    intro base err h
    rw [loopByName_nil] at h
    exact Option.noConfusion h
  | cons e rest ih =>
    intro base err h
    cases hf : findByName nameOf (entryName e) base with
    | none =>
      rw [loopByName_cons_unknown nameOf entryName body unknown base e rest hf] at h
      exact ⟨.lookup (unknown e), LoopReaches.unknown base e rest hf, h⟩
    | some found =>
      rw [loopByName_cons_found nameOf entryName body unknown base e rest found hf] at h
      by_cases hok : (body found e).2 = none
      · rw [if_pos hok] at h
        obtain ⟨point, hp, hfail⟩ := ih _ err h
        exact ⟨point, LoopReaches.later base e rest found point hf hok hp, hfail⟩
      · rw [if_neg hok] at h
        obtain ⟨point, hp, hfail⟩ := hbody found e err h
        exact ⟨point, LoopReaches.here base e rest found point hf hp, hfail⟩

theorem chainStep.failure_none_of_ok (m : GoMap) (meta : Option MetaTable) (ext : GoMap)
    (msg args : List String) (err : String)
    (h : (failurePoint.step (chainStep.extendMap m meta ext msg args)).failure =
      some err) :
    ¬ (mta.extendMap m meta ext).2 = none := by
  intro h0
  simp only [failurePoint.failure, chainStep.failure, h0, Option.map_none'] at h
  exact Option.noConfusion h

theorem failurePoint.failure_step (m : GoMap) (meta : Option MetaTable) (ext : GoMap)
    (msg args : List String) :
    (failurePoint.step (chainStep.extendMap m meta ext msg args)).failure =
      (mta.extendMap m meta ext).2.map (fun err => Wrapf err msg args) := rfl

theorem RequiresReaches_err (requires extRequires : Requires) (p q : msg)
    (point : failurePoint) (err : String)
    (h : RequiresReaches requires extRequires p q point)
    (hfail : point.failure = some err) :
    (mergeRequiresFields requires extRequires p q).2 = some err := by
  cases h with
  | properties =>
    rw [mergeRequiresFields_err, if_neg (chainStep.failure_none_of_ok _ _ _ _ _ err hfail)]
    exact hfail
  | parameters hp =>
    rw [mergeRequiresFields_err, if_pos hp]
    exact hfail

theorem mergeRequires_reaches (u p q : msg) (requires provider : List Requires)
    (point : failurePoint) (err : String)
    (h : LoopReaches Requires.Name Requires.Name
      (fun found e => mergeRequiresFields found e p q)
      (fun e => Errorf u.msg (u.getArgs [e.Name]))
      (fun found e => RequiresReaches found e p q) provider requires point)
    (hfail : point.failure = some err) :
    (mergeRequires requires provider u p q).2 = some err := by
  rw [mergeRequires_eq_loop]
  exact loopByName_reaches _ _ _ _ _ err
    (fun x e s hs hf => RequiresReaches_err x e p q s err hs hf) provider requires point h
    hfail

theorem ProvideReaches_err (provide : Provides) (extProvide : ProvidesExt)
    (module : Module) (point : failurePoint) (err : String)
    (h : ProvideReaches provide extProvide module point)
    (hfail : point.failure = some err) :
    (mergeProvide provide extProvide module).2 = some err := by
  cases h with
  | properties => rw [mergeProvide_err]; exact hfail

theorem HookReaches_err (hook : Hook) (extHook : HookExt) (module : Module)
    (extModule : ModuleExt) (point : failurePoint) (err : String)
    (h : HookReaches hook extHook module extModule point)
    (hfail : point.failure = some err) :
    (mergeHook hook extHook module extModule).2 = some err := by
  cases h with
  | parameters =>
    rw [mergeHook_eq, if_neg (chainStep.failure_none_of_ok _ _ _ _ _ err hfail)]
    exact hfail
  | requires point hp hloop =>
    rw [mergeHook_eq, if_pos hp]
    exact mergeRequires_reaches _ _ _ _ _ point err hloop hfail

theorem mergeProvide_congr_module (provide : Provides) (e : ProvidesExt)
    (module module1 : Module) (h : module1.Name = module.Name) :
    mergeProvide provide e module1 = mergeProvide provide e module := by
  simp only [mergeProvide, h]

/-- The merge of the provided interfaces of a module, as a loop on the collection:
nothing else of the module is touched. -/
theorem mergeModuleProvides_eq (module : Module) (X : ModuleExt) :
    mergeModuleProvides module X =
      ({ module with
          Provides :=
            (loopByName Provides.Name ProvidesExt.Name
              (fun found e => mergeProvide found e module)
              (fun e => Errorf unknownModuleProvidesErrorMsg [e.Name, X.Name])
              module.Provides X.Provides).1 },
        (loopByName Provides.Name ProvidesExt.Name
          (fun found e => mergeProvide found e module)
          (fun e => Errorf unknownModuleProvidesErrorMsg [e.Name, X.Name])
          module.Provides X.Provides).2) := by
  rw [mergeModuleProvides, mergeModuleProvidesLoop_eq_loop]

/-- The merge of the hooks of a module, as a loop on the collection: nothing else of
the module is touched. -/
theorem mergeModuleHooks_eq (module : Module) (X : ModuleExt) :
    mergeModuleHooks module X =
      ({ module with
          Hooks :=
            (loopByName Hook.Name HookExt.Name
              (fun found e => mergeHook found e module X)
              (fun e => Errorf unknownModuleHookErrorMsg [e.Name, X.Name])
              module.Hooks X.Hooks).1 },
        (loopByName Hook.Name HookExt.Name
          (fun found e => mergeHook found e module X)
          (fun e => Errorf unknownModuleHookErrorMsg [e.Name, X.Name])
          module.Hooks X.Hooks).2) := by
  rw [mergeModuleHooks, mergeModuleHooksLoop_eq_loop]

theorem mergeModule_err_fields (module : Module) (X : ModuleExt) (err : String)
    (h : (mergeModuleFields module X).2 = some err) :
    (mergeModule module X).2 = some err := by
  rw [mergeModule, andThen_of_err (mergeModuleFields module X) _ err h]
  rfl

theorem mergeModule_err_provides (module : Module) (X : ModuleExt) (err : String)
    (h1 : (mergeModuleFields module X).2 = none)
    (h2 : (mergeModuleProvides (mergeModuleFields module X).1 X).2 = some err) :
    (mergeModule module X).2 = some err := by
  rw [mergeModule, andThen_of_ok (mergeModuleFields module X) _ h1,
    andThen_of_err (mergeModuleProvides (mergeModuleFields module X).1 X) _ err h2]
  rfl

theorem mergeModule_err_requires (module : Module) (X : ModuleExt) (err : String)
    (h1 : (mergeModuleFields module X).2 = none)
    (h2 : (mergeModuleProvides (mergeModuleFields module X).1 X).2 = none)
    (h3 : (mergeModuleRequires
      (mergeModuleProvides (mergeModuleFields module X).1 X).1 X).2 = some err) :
    (mergeModule module X).2 = some err := by
  rw [mergeModule, andThen_of_ok (mergeModuleFields module X) _ h1,
    andThen_of_ok (mergeModuleProvides (mergeModuleFields module X).1 X) _ h2,
    andThen_of_err _ _ err h3]

theorem mergeModule_err_hooks (module : Module) (X : ModuleExt)
    (h1 : (mergeModuleFields module X).2 = none)
    (h2 : (mergeModuleProvides (mergeModuleFields module X).1 X).2 = none)
    (h3 : (mergeModuleRequires
      (mergeModuleProvides (mergeModuleFields module X).1 X).1 X).2 = none) :
    mergeModule module X =
      mergeModuleHooks
        (mergeModuleRequires
          (mergeModuleProvides (mergeModuleFields module X).1 X).1 X).1 X := by
  rw [mergeModule, andThen_of_ok (mergeModuleFields module X) _ h1,
    andThen_of_ok (mergeModuleProvides (mergeModuleFields module X).1 X) _ h2,
    andThen_of_ok _ _ h3]

/-- What the chain on the fields of a module leaves untouched. -/
theorem mergeModuleFields_keeps (module : Module) (X : ModuleExt) :
    (mergeModuleFields module X).1.Name = module.Name ∧
    (mergeModuleFields module X).1.Provides = module.Provides ∧
    (mergeModuleFields module X).1.Requires = module.Requires ∧
    (mergeModuleFields module X).1.Hooks = module.Hooks ∧
    (mergeModuleFields module X).1.PropertiesMetaData = module.PropertiesMetaData ∧
    (mergeModuleFields module X).1.ParametersMetaData = module.ParametersMetaData :=
  ⟨rfl, rfl, rfl, rfl, rfl, rfl⟩

/-- What the merge of the provided interfaces of a module leaves untouched. -/
theorem mergeModuleProvides_keeps (module : Module) (X : ModuleExt) :
    (mergeModuleProvides module X).1.Name = module.Name ∧
    (mergeModuleProvides module X).1.Requires = module.Requires ∧
    (mergeModuleProvides module X).1.Hooks = module.Hooks ∧
    (mergeModuleProvides module X).1.Properties = module.Properties ∧
    (mergeModuleProvides module X).1.PropertiesMetaData = module.PropertiesMetaData ∧
    (mergeModuleProvides module X).1.Parameters = module.Parameters ∧
    (mergeModuleProvides module X).1.ParametersMetaData = module.ParametersMetaData := by
  rw [mergeModuleProvides_eq]
  exact ⟨rfl, rfl, rfl, rfl, rfl, rfl, rfl⟩

/-- What the merge of the required interfaces of a module leaves untouched. -/
theorem mergeModuleRequires_keeps (module : Module) (X : ModuleExt) :
    (mergeModuleRequires module X).1.Name = module.Name ∧
    (mergeModuleRequires module X).1.Provides = module.Provides ∧
    (mergeModuleRequires module X).1.Hooks = module.Hooks ∧
    (mergeModuleRequires module X).1.Properties = module.Properties ∧
    (mergeModuleRequires module X).1.PropertiesMetaData = module.PropertiesMetaData ∧
    (mergeModuleRequires module X).1.Parameters = module.Parameters ∧
    (mergeModuleRequires module X).1.ParametersMetaData = module.ParametersMetaData :=
  ⟨rfl, rfl, rfl, rfl, rfl, rfl, rfl⟩

/-- What the merge of the hooks of a module leaves untouched. -/
theorem mergeModuleHooks_keeps (module : Module) (X : ModuleExt) :
    (mergeModuleHooks module X).1.Name = module.Name ∧
    (mergeModuleHooks module X).1.Provides = module.Provides ∧
    (mergeModuleHooks module X).1.Requires = module.Requires ∧
    (mergeModuleHooks module X).1.Properties = module.Properties ∧
    (mergeModuleHooks module X).1.PropertiesMetaData = module.PropertiesMetaData ∧
    (mergeModuleHooks module X).1.Parameters = module.Parameters ∧
    (mergeModuleHooks module X).1.ParametersMetaData = module.ParametersMetaData := by
  rw [mergeModuleHooks_eq]
  exact ⟨rfl, rfl, rfl, rfl, rfl, rfl, rfl⟩

/-- The merge of the provided interfaces after the chain on the fields, as a loop on
the provided interfaces of the module as it was. -/
theorem mergeModuleProvides_after_fields (module : Module) (X : ModuleExt) :
    (mergeModuleProvides (mergeModuleFields module X).1 X).2 =
      (loopByName Provides.Name ProvidesExt.Name
        (fun found e => mergeProvide found e module)
        (fun e => Errorf unknownModuleProvidesErrorMsg [e.Name, X.Name])
        module.Provides X.Provides).2 := by
  rw [mergeModuleProvides_eq]
  rfl

/-- The merge of the required interfaces after the steps before it, as the loop of
`mergeRequires` on the required interfaces of the module as it was. -/
theorem mergeModuleRequires_after_provides (module : Module) (X : ModuleExt) :
    (mergeModuleRequires (mergeModuleProvides (mergeModuleFields module X).1 X).1 X).2 =
      (mergeRequires X.Requires module.Requires
        ⟨unknownModuleRequiresErrorMsg, [X.Name]⟩
        ⟨mergeModuleRequiresPropertiesErrorMsg, [module.Name]⟩
        ⟨mergeModuleRequiresParametersErrorMsg, [module.Name]⟩).2 := by
  have hk := mergeModuleProvides_keeps (mergeModuleFields module X).1 X
  simp only [mergeModuleRequires, hk.1, hk.2.1]
  rfl

/-- The merge of the hooks after the steps before it, as a loop on the hooks of the
module as it was. -/
theorem mergeModuleHooks_after_requires (module : Module) (X : ModuleExt) :
    (mergeModuleHooks
      (mergeModuleRequires
        (mergeModuleProvides (mergeModuleFields module X).1 X).1 X).1 X).2 =
      (loopByName Hook.Name HookExt.Name
        (fun found e => mergeHook found e module X)
        (fun e => Errorf unknownModuleHookErrorMsg [e.Name, X.Name])
        module.Hooks X.Hooks).2 := by
  have hk := mergeModuleProvides_keeps (mergeModuleFields module X).1 X
  have hname : (mergeModuleRequires
      (mergeModuleProvides (mergeModuleFields module X).1 X).1 X).1.Name =
      module.Name := hk.1
  have hhooks : (mergeModuleRequires
      (mergeModuleProvides (mergeModuleFields module X).1 X).1 X).1.Hooks =
      module.Hooks := hk.2.2.1
  have hbody : (fun (found : Hook) (e : HookExt) => mergeHook found e
      (mergeModuleRequires
        (mergeModuleProvides (mergeModuleFields module X).1 X).1 X).1 X) =
      (fun found e => mergeHook found e module X) := by
    funext found e
    exact mergeHook_congr_module found e module _ X hname
  rw [mergeModuleHooks_eq]
  simp only [hbody, hhooks]

theorem ModuleReaches_err (module : Module) (X : ModuleExt) (point : failurePoint)
    (err : String) (h : ModuleReaches module X point) (hfail : point.failure = some err) :
    (mergeModule module X).2 = some err := by
  cases h with
  | properties =>
    apply mergeModule_err_fields
    rw [mergeModuleFields_err,
      if_neg (chainStep.failure_none_of_ok _ _ _ _ _ err hfail)]
    exact hfail
  | parameters hp =>
    apply mergeModule_err_fields
    rw [mergeModuleFields_err, if_pos hp,
      if_neg (chainStep.failure_none_of_ok _ _ _ _ _ err hfail)]
    exact hfail
  | buildParameters hp hq =>
    apply mergeModule_err_fields
    rw [mergeModuleFields_err, if_pos hp, if_pos hq]
    exact hfail
  | provides point hfields hloop =>
    apply mergeModule_err_provides module X err hfields
    rw [mergeModuleProvides_after_fields]
    exact loopByName_reaches _ _ _ _ _ err
      (fun x e s hs hf => ProvideReaches_err x e module s err hs hf) _ _ point hloop hfail
  | requires point hfields hprovides hloop =>
    apply mergeModule_err_requires module X err hfields hprovides
    rw [mergeModuleRequires_after_provides]
    exact mergeRequires_reaches _ _ _ _ _ point err hloop hfail
  | hooks point hfields hprovides hrequires hloop =>
    rw [mergeModule_err_hooks module X hfields hprovides hrequires,
      mergeModuleHooks_after_requires]
    exact loopByName_reaches _ _ _ _ _ err
      (fun x e s hs hf => HookReaches_err x e module X s err hs hf) _ _ point hloop hfail

theorem ResourceReaches_err (resource : Resource) (R : ResourceExt) (point : failurePoint)
    (err : String) (h : ResourceReaches resource R point)
    (hfail : point.failure = some err) :
    (mergeResource resource R).2 = some err := by
  cases h with
  | properties =>
    have hF : (mergeResourceFields resource R).2 = some err := by
      rw [mergeResourceFields_err,
        if_neg (chainStep.failure_none_of_ok _ _ _ _ _ err hfail)]
      exact hfail
    rw [mergeResource_eq, if_neg (by rw [hF]; exact fun h => Option.noConfusion h)]
    exact hF
  | parameters hp =>
    have hF : (mergeResourceFields resource R).2 = some err := by
      rw [mergeResourceFields_err, if_pos hp]
      exact hfail
    rw [mergeResource_eq, if_neg (by rw [hF]; exact fun h => Option.noConfusion h)]
    exact hF
  | requires point hfields hloop =>
    rw [mergeResource_eq, if_pos hfields]
    exact mergeRequires_reaches _ _ _ _ _ point err hloop hfail

/-- The error of the loop of `mergeModules` reads the modules of the descriptor
only. -/
theorem mergeModules_err_congr (l : List ModuleExt) (mtaObj mtaObj1 : MTA)
    (h : mtaObj1.Modules = mtaObj.Modules) :
    (mergeModules mtaObj1 l).2 = (mergeModules mtaObj l).2 := by
  rw [mergeModules_eq_loop, mergeModules_eq_loop, h]

/-- The error of the loop of `mergeResources` reads the resources of the descriptor
only. -/
theorem mergeResources_err_congr (l : List ResourceExt) (mtaObj mtaObj1 : MTA)
    (h : mtaObj1.Resources = mtaObj.Resources) :
    (mergeResources mtaObj1 l).2 = (mergeResources mtaObj l).2 := by
  rw [mergeResources_eq_loop, mergeResources_eq_loop, h]

theorem mergeRootParameters_err (mtaObj : MTA) (mtaExt : EXT) :
    (mergeRootParameters mtaObj mtaExt).2 =
      (extendMap mtaObj.Parameters mtaObj.ParametersMetaData mtaExt.Parameters).2.map
        (fun err => Wrapf err mergeRootParametersErrorMsg [mtaExt.ID]) := by
  rw [mergeRootParameters_eq_step]
  rfl

/-- The error of a map merge that `Merge` comes to is the error of `Merge`, behind
what `Merge` puts in front of it. -/
theorem MergeReaches_err (mtaObj : MTA) (mtaExt : EXT) (outer : String)
    (point : failurePoint) (err : String) (h : MergeReaches mtaObj mtaExt outer point)
    (hfail : point.failure = some err) :
    (Merge mtaObj mtaExt).2 = some (outer ++ err) := by
  cases h with
  | root =>
    have h1 : (mergeRootParameters mtaObj mtaExt).2 = some err := by
      rw [mergeRootParameters_err]; exact hfail
    simp only [Merge, h1, String.empty_append]
  | modules point hroot hloop =>
    have h1 : (mergeRootParameters mtaObj mtaExt).2 = none := by
      rw [mergeRootParameters_err, hroot]; rfl
    have h2 : (mergeModules (mergeRootParameters mtaObj mtaExt).1 mtaExt.Modules).2 =
        some err := by
      rw [mergeModules_err_congr mtaExt.Modules mtaObj (mergeRootParameters mtaObj mtaExt).1
        rfl, mergeModules_eq_loop]
      exact loopByName_reaches _ _ _ _ _ err
        (fun x e s hs hf => ModuleReaches_err x e s err hs hf) _ _ point hloop hfail
    rw [Merge_modules_failure mtaObj mtaExt err h1 h2, Wrapf_eq]
  | resources point hroot hmodules hloop =>
    have h1 : (mergeRootParameters mtaObj mtaExt).2 = none := by
      rw [mergeRootParameters_err, hroot]; rfl
    have h2 : (mergeModules (mergeRootParameters mtaObj mtaExt).1 mtaExt.Modules).2 =
        none := by
      rw [mergeModules_err_congr mtaExt.Modules mtaObj (mergeRootParameters mtaObj mtaExt).1
        rfl]
      exact hmodules
    have h3 : (mergeResources
        (mergeModules (mergeRootParameters mtaObj mtaExt).1 mtaExt.Modules).1
        mtaExt.Resources).2 = some err := by
      rw [mergeResources_err_congr mtaExt.Resources mtaObj
        (mergeModules (mergeRootParameters mtaObj mtaExt).1 mtaExt.Modules).1
        ((mergeModules_names mtaExt.Modules _).2.trans rfl), mergeResources_eq_loop]
      exact loopByName_reaches _ _ _ _ _ err
        (fun x e s hs hf => ResourceReaches_err x e s err hs hf) _ _ point hloop hfail
    rw [Merge_resources_failure mtaObj mtaExt err h1 h2 h3, Wrapf_eq]

/-! ## Every error is the error of a place that the run comes to -/

theorem RequiresReaches_complete (requires extRequires : Requires) (p q : msg)
    (err : String) (h : (mergeRequiresFields requires extRequires p q).2 = some err) :
    ∃ point, RequiresReaches requires extRequires p q point ∧
      point.failure = some err := by
  rw [mergeRequiresFields_err] at h
  by_cases hp : (extendMap requires.Properties requires.PropertiesMetaData
      extRequires.Properties).2 = none
  · rw [if_pos hp] at h
    exact ⟨_, RequiresReaches.parameters hp, h⟩
  · rw [if_neg hp] at h
    exact ⟨_, RequiresReaches.properties, h⟩

theorem mergeRequires_complete (u p q : msg) (requires provider : List Requires)
    (err : String) (h : (mergeRequires requires provider u p q).2 = some err) :
    ∃ point, LoopReaches Requires.Name Requires.Name
        (fun found e => mergeRequiresFields found e p q)
        (fun e => Errorf u.msg (u.getArgs [e.Name]))
        (fun found e => RequiresReaches found e p q) provider requires point ∧
      point.failure = some err := by
  rw [mergeRequires_eq_loop] at h
  exact loopByName_complete _ _ _ _ _
    (fun x e err h => RequiresReaches_complete x e p q err h) requires provider err h

theorem ProvideReaches_complete (provide : Provides) (extProvide : ProvidesExt)
    (module : Module) (err : String)
    (h : (mergeProvide provide extProvide module).2 = some err) :
    ∃ point, ProvideReaches provide extProvide module point ∧
      point.failure = some err := by
  rw [mergeProvide_err] at h
  exact ⟨_, ProvideReaches.properties, h⟩

theorem HookReaches_complete (hook : Hook) (extHook : HookExt) (module : Module)
    (extModule : ModuleExt) (err : String)
    (h : (mergeHook hook extHook module extModule).2 = some err) :
    ∃ point, HookReaches hook extHook module extModule point ∧
      point.failure = some err := by
  rw [mergeHook_eq] at h
  by_cases hp : (extendMap hook.Parameters hook.ParametersMetaData
      extHook.Parameters).2 = none
  · rw [if_pos hp] at h
    obtain ⟨point, hloop, hfail⟩ := mergeRequires_complete _ _ _ _ _ err h
    exact ⟨point, HookReaches.requires point hp hloop, hfail⟩
  · rw [if_neg hp] at h
    exact ⟨_, HookReaches.parameters, h⟩

theorem ModuleReaches_complete (module : Module) (X : ModuleExt) (err : String)
    (h : (mergeModule module X).2 = some err) :
    ∃ point, ModuleReaches module X point ∧ point.failure = some err := by
  cases hF : (mergeModuleFields module X).2 with
  | some e0 =>
    rw [mergeModule_err_fields module X e0 hF] at h
    simp only [Option.some.injEq] at h
    subst h
    rw [mergeModuleFields_err] at hF
    by_cases hp : (extendMap module.Properties module.PropertiesMetaData
        X.Properties).2 = none
    · rw [if_pos hp] at hF
      by_cases hq : (extendMap module.Parameters module.ParametersMetaData
          X.Parameters).2 = none
      · rw [if_pos hq] at hF
        exact ⟨_, ModuleReaches.buildParameters hp hq, hF⟩
      · rw [if_neg hq] at hF
        exact ⟨_, ModuleReaches.parameters hp, hF⟩
    · rw [if_neg hp] at hF
      exact ⟨_, ModuleReaches.properties, hF⟩
  | none =>
    cases hP : (mergeModuleProvides (mergeModuleFields module X).1 X).2 with
    | some e0 =>
      rw [mergeModule_err_provides module X e0 hF hP] at h
      simp only [Option.some.injEq] at h
      subst h
      rw [mergeModuleProvides_after_fields] at hP
      obtain ⟨point, hloop, hfail⟩ := loopByName_complete _ _ _ _ _
        (fun x e err h => ProvideReaches_complete x e module err h) _ _ _ hP
      exact ⟨point, ModuleReaches.provides point hF hloop, hfail⟩
    | none =>
      cases hR : (mergeModuleRequires
          (mergeModuleProvides (mergeModuleFields module X).1 X).1 X).2 with
      | some e0 =>
        rw [mergeModule_err_requires module X e0 hF hP hR] at h
        simp only [Option.some.injEq] at h
        subst h
        rw [mergeModuleRequires_after_provides] at hR
        obtain ⟨point, hloop, hfail⟩ := mergeRequires_complete _ _ _ _ _ _ hR
        exact ⟨point, ModuleReaches.requires point hF hP hloop, hfail⟩
      | none =>
        rw [mergeModule_err_hooks module X hF hP hR, mergeModuleHooks_after_requires] at h
        obtain ⟨point, hloop, hfail⟩ := loopByName_complete _ _ _ _ _
          (fun x e err h => HookReaches_complete x e module X err h) _ _ _ h
        exact ⟨point, ModuleReaches.hooks point hF hP hR hloop, hfail⟩

theorem ResourceReaches_complete (resource : Resource) (R : ResourceExt) (err : String)
    (h : (mergeResource resource R).2 = some err) :
    ∃ point, ResourceReaches resource R point ∧ point.failure = some err := by
  rw [mergeResource_eq] at h
  by_cases hF : (mergeResourceFields resource R).2 = none
  · rw [if_pos hF] at h
    obtain ⟨point, hloop, hfail⟩ := mergeRequires_complete _ _ _ _ _ err h
    exact ⟨point, ResourceReaches.requires point hF hloop, hfail⟩
  · rw [if_neg hF] at h
    rw [mergeResourceFields_err] at h
    by_cases hp : (extendMap resource.Properties resource.PropertiesMetaData
        R.Properties).2 = none
    · rw [if_pos hp] at h
      exact ⟨_, ResourceReaches.parameters hp, h⟩
    · rw [if_neg hp] at h
      exact ⟨_, ResourceReaches.properties, h⟩

/-- Every error that `Merge` returns is the error of a place that `Merge` comes to,
behind what `Merge` puts in front of it. -/
theorem MergeReaches_complete (mtaObj : MTA) (mtaExt : EXT) (err : String)
    (h : (Merge mtaObj mtaExt).2 = some err) :
    ∃ outer point e, MergeReaches mtaObj mtaExt outer point ∧
      point.failure = some e ∧ err = outer ++ e := by
  simp only [Merge] at h
  cases h1 : (mergeRootParameters mtaObj mtaExt).2 with
  | some e1 =>
    rw [h1] at h
    simp only [Option.some.injEq] at h
    rw [mergeRootParameters_err] at h1
    exact ⟨"", _, e1, MergeReaches.root, h1, by rw [← h, String.empty_append]⟩
  | none =>
    rw [h1] at h
    have hroot : (extendMap mtaObj.Parameters mtaObj.ParametersMetaData
        mtaExt.Parameters).2 = none := by
      rw [mergeRootParameters_err] at h1
      exact (Option.map_eq_none_iff_of _ _).mp h1
    cases h2 : (mergeModules (mergeRootParameters mtaObj mtaExt).1 mtaExt.Modules).2 with
    | some e2 =>
      rw [h2] at h
      simp only [Option.some.injEq] at h
      rw [mergeModules_err_congr mtaExt.Modules mtaObj
        (mergeRootParameters mtaObj mtaExt).1 rfl, mergeModules_eq_loop] at h2
      obtain ⟨point, hloop, hfail⟩ := loopByName_complete _ _ _ _ _
        (fun x e err h => ModuleReaches_complete x e err h) _ _ _ h2
      exact ⟨_, point, e2, MergeReaches.modules point hroot hloop, hfail,
        by rw [← h, Wrapf_eq]⟩
    | none =>
      rw [h2] at h
      have hmodules : (mergeModules mtaObj mtaExt.Modules).2 = none := by
        rw [← mergeModules_err_congr mtaExt.Modules mtaObj
          (mergeRootParameters mtaObj mtaExt).1 rfl]
        exact h2
      cases h3 : (mergeResources
          (mergeModules (mergeRootParameters mtaObj mtaExt).1 mtaExt.Modules).1
          mtaExt.Resources).2 with
      | some e3 =>
        rw [h3] at h
        simp only [Option.some.injEq] at h
        rw [mergeResources_err_congr mtaExt.Resources mtaObj
          (mergeModules (mergeRootParameters mtaObj mtaExt).1 mtaExt.Modules).1
          ((mergeModules_names mtaExt.Modules _).2.trans rfl),
          mergeResources_eq_loop] at h3
        obtain ⟨point, hloop, hfail⟩ := loopByName_complete _ _ _ _ _
          (fun x e err h => ResourceReaches_complete x e err h) _ _ _ h3
        exact ⟨_, point, e3, MergeReaches.resources point hroot hmodules hloop, hfail,
          by rw [← h, Wrapf_eq]⟩
      | none =>
        rw [h3] at h
        exact Option.noConfusion h

/-! ## The context of an error of `Merge` -/

/-- What `Merge` puts in front of the error of a place, with the error: the message
of one of its three steps, with the ID of the extension, a colon and a blank, and the
rest. -/
theorem MergeReaches_outer (mtaObj : MTA) (mtaExt : EXT) (outer : String)
    (point : failurePoint) (e : String) (h : MergeReaches mtaObj mtaExt outer point)
    (hfail : point.failure = some e) :
    ∃ step rest,
      (step = mergeRootParametersErrorMsg ∨ step = mergeModulesErrorMsg ∨
        step = mergeResourcesErrorMsg) ∧
      outer ++ e = Sprintf step [mtaExt.ID] ++ ": " ++ rest := by
  cases h with
  | root =>
    rw [failurePoint.failure_step] at hfail
    simp only [Option.map_eq_some'] at hfail
    obtain ⟨e0, _, hw⟩ := hfail
    exact ⟨mergeRootParametersErrorMsg, e0, Or.inl rfl,
      by rw [← hw, Wrapf_eq, String.empty_append]⟩
  | modules point hroot hloop => exact ⟨mergeModulesErrorMsg, e, Or.inr (Or.inl rfl), rfl⟩
  | resources point hroot hmodules hloop =>
    exact ⟨mergeResourcesErrorMsg, e, Or.inr (Or.inr rfl), rfl⟩

/-- C15: every error that `Merge` returns carries its context from the outside in.
The errors that `Merge` returns are exactly the errors of the places that `Merge`
comes to with no error before them (a call of `extendMap` on a map of the descriptor
as it is then, or a lookup that finds nothing), each behind what `Merge` puts in front
of it. Every such error starts with the message of the step of `Merge` that failed,
which names the ID of the extension. When `Merge` comes to the merge of a map and
that merge meets a conflict of shape at the nested key path `path`, the error of
`Merge` is the context of the step, then every key of `path`, outermost first, each
between double quotes and followed by a colon and a blank, then the text for the
conflict. Every error of `extendMap` is such a conflict at a nested key path, of any
depth, or the denial of a key that is not overwritable, met with every key before it
merged. -/
theorem Merge_error_context (mtaObj : MTA) (mtaExt : EXT) :
    (∀ err : String, (Merge mtaObj mtaExt).2 = some err ↔
      ∃ outer point e, MergeReaches mtaObj mtaExt outer point ∧
        point.failure = some e ∧ err = outer ++ e) ∧
    (∀ err : String, (Merge mtaObj mtaExt).2 = some err →
      ∃ step rest,
        (step = mergeRootParametersErrorMsg ∨ step = mergeModulesErrorMsg ∨
          step = mergeResourcesErrorMsg) ∧
        err = Sprintf step [mtaExt.ID] ++ ": " ++ rest) ∧
    (∀ (outer : String) (m : GoMap) (meta : Option MetaTable) (ext : Table)
        (msg args : List String) (path : List String) (leaf : String),
      MergeReaches mtaObj mtaExt outer (.step (.extendMap m meta (some ext) msg args)) →
      ConflictAt (m.getD []) meta ext path leaf →
      (Merge mtaObj mtaExt).2 =
        some (outer ++ (Sprintf msg args ++ ": " ++ keyPathText path leaf))) ∧
    (∀ (m : GoMap) (meta : Option MetaTable) (ext : Table) (e : String),
      (extendMap m meta (some ext)).2 = some e →
        (∃ pre k v post, ext = pre ++ (k, v) :: post ∧
          (extendMap m meta (some pre)).2 = none ∧
          isFieldOverWritable k meta (extendMap m meta (some pre)).1 = false ∧
          e = "the \"" ++ k ++ "\" field is not overwritable") ∨
        (∃ path leaf, ConflictAt (m.getD []) meta ext path leaf ∧
          (leaf = "cannot overwrite a structured value with a scalar value" ∨
            leaf = "cannot overwrite a scalar value with a structured value") ∧
          e = keyPathText path leaf)) := by
  refine ⟨?_, ?_, ?_, ?_⟩
  · intro err
    constructor
    · exact MergeReaches_complete mtaObj mtaExt err
    · rintro ⟨outer, point, e, hreach, hfail, rfl⟩
      exact MergeReaches_err mtaObj mtaExt outer point e hreach hfail
  · intro err h
    obtain ⟨outer, point, e, hreach, hfail, he⟩ := MergeReaches_complete mtaObj mtaExt err h
    rw [he]
    exact MergeReaches_outer mtaObj mtaExt outer point e hreach hfail
  · intro outer m meta ext msg args path leaf hreach hconflict
    apply MergeReaches_err mtaObj mtaExt outer _ _ hreach
    rw [failurePoint.failure_step]
    have h1 : (extendMap m meta (some ext)).2 = some (keyPathText path leaf) :=
      ConflictAt_err (m.getD []) meta ext path leaf hconflict
    rw [h1, Option.map_some', Wrapf_eq]
  · intro m meta ext e he
    rcases extendMapLoop_conflict ext (m.getD []) meta e he with
      ⟨pre, k, v, post, hsplit, hpre, hden, htext⟩ | ⟨path, leaf, hp, htext⟩
    · exact Or.inl ⟨pre, k, v, post, hsplit, hpre, hden, htext⟩
    · exact Or.inr ⟨path, leaf, hp, (ConflictAt_leaf _ _ _ _ _ hp).1, htext⟩

set_option maxRecDepth 100000 in
/-- The witness of C15. The extension gives, for the root parameter `a`, a mapping
with a mapping under `b`, where the descriptor holds a number: the error names `a`,
then `b`. The extension gives a mapping for the property `host` of the resource
`db`, which holds a string: the error names the extension, the resource and the
key. And the extension gives, for the required interface `db` of the hook `start` of
the module `web`, a mapping three keys deep where the descriptor holds a number: the
error names the extension, then the required interface, the hook and the module,
then the three keys. Each error is given a second time as `Merge` computes it. -/
theorem Merge_error_context_witness :
    ((Merge sampleNestedBase sampleNestedExt).2 =
        some ("" ++ (Sprintf mergeRootParametersErrorMsg ["ext"] ++ ": " ++
          keyPathText ["a", "b"]
            "cannot overwrite a scalar value with a structured value")) ∧
      "" ++ (Sprintf mergeRootParametersErrorMsg ["ext"] ++ ": " ++
          keyPathText ["a", "b"]
            "cannot overwrite a scalar value with a structured value") =
        "could not merge parameters from MTA extension with ID \"ext\": " ++
          "\"a\": \"b\": cannot overwrite a scalar value with a structured value") ∧
    ((Merge sampleBase ⟨"ext", none, [], [sampleDbHostEntry]⟩).2 =
        some (Sprintf mergeResourcesErrorMsg ["ext"] ++ ": " ++
          (Sprintf mergeResourcePropertiesErrorMsg ["db"] ++ ": " ++
            keyPathText ["host"]
              "cannot overwrite a scalar value with a structured value")) ∧
      Sprintf mergeResourcesErrorMsg ["ext"] ++ ": " ++
          (Sprintf mergeResourcePropertiesErrorMsg ["db"] ++ ": " ++
            keyPathText ["host"]
              "cannot overwrite a scalar value with a structured value") =
        "could not merge resources from MTA extension with ID \"ext\": " ++
          "could not merge the properties of the \"db\" resource: " ++
          "\"host\": cannot overwrite a scalar value with a structured value") ∧
    (Merge sampleDeepBase sampleDeepExt).2 =
      some (Sprintf mergeModulesErrorMsg ["ext"] ++ ": " ++
        (Sprintf mergeModuleHookRequiresPropertiesErrorMsg ["db", "start", "web"] ++
          ": " ++
          keyPathText ["a", "b", "c"]
            "cannot overwrite a scalar value with a structured value")) ∧
    (Merge sampleNestedBase sampleNestedExt).2 =
      some ("could not merge parameters from MTA extension with ID \"ext\": " ++
        "\"a\": \"b\": cannot overwrite a scalar value with a structured value") ∧
    (Merge sampleBase ⟨"ext", none, [], [sampleDbHostEntry]⟩).2 =
      some ("could not merge resources from MTA extension with ID \"ext\": " ++
        "could not merge the properties of the \"db\" resource: " ++
        "\"host\": cannot overwrite a scalar value with a structured value") ∧
    (Merge sampleDeepBase sampleDeepExt).2 =
      some ("could not merge modules from MTA extension with ID \"ext\": " ++
        "could not merge the properties of the \"db\" requires in the \"start\" hook " ++
        "of the \"web\" module: " ++
        "\"a\": \"b\": \"c\": cannot overwrite a scalar value with a structured value") :=
  ⟨⟨(Merge_error_context sampleNestedBase sampleNestedExt).2.2.1 ""
        (some [("a", Value.map [("b", Value.num 1)])]) none
        [("a", Value.map [("b", Value.map [("c", Value.num 2)])])]
        mergeRootParametersErrorMsg ["ext"] ["a", "b"]
        "cannot overwrite a scalar value with a structured value"
        MergeReaches.root
        (ConflictAt.nested _ none "a" [("b", Value.num 1)]
          [("b", Value.map [("c", Value.num 2)])] [] ["b"] _ rfl rfl
          (ConflictAt.scalar _ none "b" (Value.map [("c", Value.num 2)]) [] rfl rfl rfl
            rfl)),
      by decide⟩,
    ⟨(Merge_error_context sampleBase ⟨"ext", none, [], [sampleDbHostEntry]⟩).2.2.1
        (Sprintf mergeResourcesErrorMsg ["ext"] ++ ": ")
        (some [("host", Value.str "x")]) none
        [("host", Value.map [("primary", Value.str "y")])]
        mergeResourcePropertiesErrorMsg ["db"] ["host"]
        "cannot overwrite a scalar value with a structured value"
        (MergeReaches.resources _ rfl rfl
          (LoopReaches.here _ sampleDbHostEntry [] sampleDb _ rfl
            ResourceReaches.properties))
        (ConflictAt.scalar _ none "host" (Value.map [("primary", Value.str "y")]) [] rfl
          rfl rfl rfl),
      by decide⟩,
    (Merge_error_context sampleDeepBase sampleDeepExt).2.2.1
      (Sprintf mergeModulesErrorMsg ["ext"] ++ ": ")
      sampleDeepRequires.Properties none
      [("a", Value.map [("b", Value.map [("c", Value.map [("d", Value.num 2)])])])]
      mergeModuleHookRequiresPropertiesErrorMsg ["db", "start", "web"] ["a", "b", "c"]
      "cannot overwrite a scalar value with a structured value"
      (MergeReaches.modules _ rfl
        (LoopReaches.here _ _ [] sampleDeepWeb _ rfl
          (ModuleReaches.hooks _ rfl rfl rfl
            (LoopReaches.here _ _ [] sampleDeepHook _ rfl
              (HookReaches.requires _ rfl
                (LoopReaches.here _ sampleDeepEntry [] sampleDeepRequires _ rfl
                  RequiresReaches.properties))))))
      (ConflictAt.nested _ none "a" [("b", Value.map [("c", Value.num 1)])]
        [("b", Value.map [("c", Value.map [("d", Value.num 2)])])] [] ["b", "c"] _ rfl rfl
        (ConflictAt.nested _ none "b" [("c", Value.num 1)]
          [("c", Value.map [("d", Value.num 2)])] [] ["c"] _ rfl rfl
          (ConflictAt.scalar _ none "c" (Value.map [("d", Value.num 2)]) [] rfl rfl rfl
            rfl))),
    by decide, by decide, by decide⟩

/-! ## Protected entries under the merge of the entity tree -/

theorem Protects_some (f : String) (v : Value) (meta : Option MetaTable) (m : GoMap)
    (meta1 : Option MetaTable) :
    Protects f v meta (some (m, meta1)) ↔
      meta1 = meta ∧ isFieldOverWritable f meta m = false ∧
        Table.find? (m.getD []) f = some v := by
  constructor
  · rintro ⟨m1, h, h1, h2⟩
    simp only [Option.some.injEq, Prod.mk.injEq] at h
    obtain ⟨hm, hmeta⟩ := h
    subst hm
    exact ⟨hmeta, h1, h2⟩
  · rintro ⟨hmeta, h1, h2⟩
    exact ⟨m, by rw [hmeta], h1, h2⟩

theorem Protects_map {α : Type} (f : String) (v : Value) (meta : Option MetaTable)
    (o : Option α) (g : α → GoMap × Option MetaTable) :
    Protects f v meta (o.map g) ↔ ∃ x, o = some x ∧ Protects f v meta (some (g x)) := by
  cases o with
  | none =>
    constructor
    · rintro ⟨m, h, _⟩; exact Option.noConfusion h
    · rintro ⟨x, h, _⟩; exact Option.noConfusion h
  | some y =>
    constructor
    · intro h; exact ⟨y, rfl, h⟩
    · rintro ⟨x, h, hp⟩
      simp only [Option.some.injEq] at h
      subst h
      exact hp

theorem Protects_bind {α : Type} (f : String) (v : Value) (meta : Option MetaTable)
    (o : Option α) (g : α → Option (GoMap × Option MetaTable)) :
    Protects f v meta (o.bind g) ↔ ∃ x, o = some x ∧ Protects f v meta (g x) := by
  cases o with
  | none =>
    constructor
    · rintro ⟨m, h, _⟩; exact Option.noConfusion h
    · rintro ⟨x, h, _⟩; exact Option.noConfusion h
  | some y =>
    constructor
    · intro h; exact ⟨y, rfl, h⟩
    · rintro ⟨x, h, hp⟩
      simp only [Option.some.injEq] at h
      subst h
      exact hp

/-- A map in which `isFieldOverWritable` denies a field is not nil. -/
theorem isFieldOverWritable_false_some (f : String) (meta : Option MetaTable) (m : GoMap)
    (h : isFieldOverWritable f meta m = false) : ∃ t, m = some t := by
  cases m with
  | some t => exact ⟨t, rfl⟩
  | none =>
    cases meta with
    | none => simp [isFieldOverWritable] at h
    | some table => simp [isFieldOverWritable, GoMap.index, Value.isNil] at h

/-- A protected entry is the same after `extendMap`, whether it succeeds or fails,
and stays protected. -/
theorem extendMap_keeps_protected (f : String) (v : Value) (meta : Option MetaTable)
    (m ext : GoMap) (h1 : isFieldOverWritable f meta m = false)
    (h2 : Table.find? (m.getD []) f = some v) :
    isFieldOverWritable f meta (extendMap m meta ext).1 = false ∧
      Table.find? ((extendMap m meta ext).1.getD []) f = some v := by
  obtain ⟨t, ht⟩ := isFieldOverWritable_false_some f meta m h1
  subst ht
  cases ext with
  | none => exact ⟨h1, h2⟩
  | some e =>
    have hfind : Table.find? (extendMapLoop t meta e).1 f = Table.find? t f := by
      by_cases hf : f ∈ Table.keys e
      · exact (extendMapLoop_protected meta f e t h1 hf).2
      · exact extendMapLoop_find?_of_not_mem meta e t f hf
    refine ⟨?_, ?_⟩
    · show isFieldOverWritable f meta (some (extendMapLoop t meta e).1) = false
      rw [isFieldOverWritable_congr f meta _ t hfind]
      exact h1
    · show Table.find? (extendMapLoop t meta e).1 f = some v
      rw [hfind]
      exact h2

/-- The merge of a map that names a protected field fails. -/
theorem extendMap_fails_protected (f : String) (meta : Option MetaTable) (m : GoMap)
    (x : Table) (h1 : isFieldOverWritable f meta m = false) (hf : f ∈ Table.keys x) :
    (extendMap m meta (some x)).2 ≠ none := by
  obtain ⟨t, ht⟩ := isFieldOverWritable_false_some f meta m h1
  subst ht
  obtain ⟨err, herr⟩ := (extendMapLoop_protected meta f x t h1 hf).1
  show (extendMapLoop t meta x).2 ≠ none
  rw [herr]
  exact fun h => Option.noConfusion h

theorem Option.map_ne_none_of {α β : Type} (g : α → β) (o : Option α) (h : o ≠ none) :
    o.map g ≠ none := by
  cases o with
  | none => exact absurd rfl h
  | some x => exact fun h2 => Option.noConfusion h2

/-! ### Required interfaces -/

theorem mergeRequiresFields_keeps_protected (f : String) (v : Value)
    (meta : Option MetaTable) (slot : RequiresSlot) (requires e : Requires) (p q : msg)
    (h : Protects f v meta (some (requires.slot slot))) :
    Protects f v meta (some ((mergeRequiresFields requires e p q).1.slot slot)) := by
  rw [mergeRequiresFields_fst]
  cases slot with
  | properties =>
    simp only [Requires.slot, Protects_some] at h ⊢
    obtain ⟨hmeta, h1, h2⟩ := h
    subst hmeta
    exact ⟨rfl, extendMap_keeps_protected f v _ _ _ h1 h2⟩
  | parameters =>
    simp only [Requires.slot, Protects_some] at h ⊢
    obtain ⟨hmeta, h1, h2⟩ := h
    subst hmeta
    refine ⟨rfl, ?_⟩
    split
    · exact extendMap_keeps_protected f v _ _ _ h1 h2
    · exact ⟨h1, h2⟩

theorem mergeRequiresFields_fails_protected (f : String) (v : Value)
    (meta : Option MetaTable) (slot : RequiresSlot) (requires e : Requires) (p q : msg)
    (h : Protects f v meta (some (requires.slot slot)))
    (hx : ∃ x, e.entryMap slot = some x ∧ f ∈ Table.keys x) :
    (mergeRequiresFields requires e p q).2 ≠ none := by
  obtain ⟨x, hx, hf⟩ := hx
  rw [mergeRequiresFields_err]
  cases slot with
  | properties =>
    simp only [Requires.slot, Protects_some] at h
    simp only [Requires.entryMap] at hx
    obtain ⟨hmeta, h1, _⟩ := h
    subst hmeta
    have hfail := extendMap_fails_protected f _ _ x h1 hf
    rw [← hx] at hfail
    rw [if_neg hfail]
    exact Option.map_ne_none_of _ _ hfail
  | parameters =>
    simp only [Requires.slot, Protects_some] at h
    simp only [Requires.entryMap] at hx
    obtain ⟨hmeta, h1, _⟩ := h
    subst hmeta
    have hfail := extendMap_fails_protected f _ _ x h1 hf
    rw [← hx] at hfail
    split
    · exact Option.map_ne_none_of _ _ hfail
    · rename_i hp
      exact Option.map_ne_none_of _ _ hp

theorem mem_entryMaps_requires (entries : List Requires) (name : String)
    (slot : RequiresSlot) (x : Table) :
    some x ∈ (entries.filter (fun e => e.Name = name)).map (fun e => e.entryMap slot) ↔
      ∃ e, e ∈ entries ∧ e.Name = name ∧ e.entryMap slot = some x := by
  simp only [List.mem_map, List.mem_filter, decide_eq_true_eq]
  constructor
  · rintro ⟨e, ⟨hm, hn⟩, hx⟩; exact ⟨e, hm, hn, hx⟩
  · rintro ⟨e, hm, hn, hx⟩; exact ⟨e, ⟨hm, hn⟩, hx⟩

/-- The loop of `mergeRequires` keeps a protected entry of a required interface. -/
theorem mergeRequires_keeps_protected (f : String) (v : Value) (meta : Option MetaTable)
    (name : String) (slot : RequiresSlot) (u p q : msg) (entries provider : List Requires)
    (h : Protects f v meta
      ((GetRequiresByName provider name).map (fun r => r.slot slot))) :
    Protects f v meta
      ((GetRequiresByName (mergeRequires entries provider u p q).1 name).map
        (fun r => r.slot slot)) := by
  rw [Protects_map] at h ⊢
  obtain ⟨r, hr, hp⟩ := h
  rw [mergeRequires_eq_loop]
  exact loopByName_keeps Requires.Name Requires.Name _ _
    (fun r => Protects f v meta (some (r.slot slot)))
    (fun x e => rfl)
    (fun x e hq => mergeRequiresFields_keeps_protected f v meta slot x e p q hq)
    name entries provider r hr hp

/-- The loop of `mergeRequires` fails when an entry for a required interface names a
protected field of it. -/
theorem mergeRequires_fails_protected (f : String) (v : Value) (meta : Option MetaTable)
    (name : String) (slot : RequiresSlot) (u p q : msg) (entries provider : List Requires)
    (h : Protects f v meta
      ((GetRequiresByName provider name).map (fun r => r.slot slot)))
    (hx : ∃ x, some x ∈
        (entries.filter (fun e => e.Name = name)).map (fun e => e.entryMap slot) ∧
      f ∈ Table.keys x) :
    (mergeRequires entries provider u p q).2 ≠ none := by
  rw [Protects_map] at h
  obtain ⟨r, hr, hp⟩ := h
  obtain ⟨x, hmem, hf⟩ := hx
  rw [mem_entryMaps_requires] at hmem
  obtain ⟨e, he, hn, hmap⟩ := hmem
  rw [mergeRequires_eq_loop]
  exact loopByName_fails Requires.Name Requires.Name _ _
    (fun r => Protects f v meta (some (r.slot slot)))
    (fun e => ∃ x, e.entryMap slot = some x ∧ f ∈ Table.keys x)
    (fun x e => rfl)
    (fun x e hq => mergeRequiresFields_keeps_protected f v meta slot x e p q hq)
    (fun x e hq hr => mergeRequiresFields_fails_protected f v meta slot x e p q hq hr)
    name entries provider r hr hp ⟨e, he, hn, x, hmap, hf⟩

/-! ### Provided interfaces -/

theorem mergeProvide_keeps_protected (f : String) (v : Value) (meta : Option MetaTable)
    (provide : Provides) (e : ProvidesExt) (module : Module)
    (h : Protects f v meta (some (provide.Properties, provide.PropertiesMetaData))) :
    Protects f v meta
      (some ((mergeProvide provide e module).1.Properties,
        (mergeProvide provide e module).1.PropertiesMetaData)) := by
  rw [mergeProvide_fst]
  simp only [Protects_some] at h ⊢
  obtain ⟨hmeta, h1, h2⟩ := h
  subst hmeta
  exact ⟨rfl, extendMap_keeps_protected f v _ _ _ h1 h2⟩

theorem mergeProvide_fails_protected (f : String) (v : Value) (meta : Option MetaTable)
    (provide : Provides) (e : ProvidesExt) (module : Module)
    (h : Protects f v meta (some (provide.Properties, provide.PropertiesMetaData)))
    (hx : ∃ x, e.Properties = some x ∧ f ∈ Table.keys x) :
    (mergeProvide provide e module).2 ≠ none := by
  obtain ⟨x, hx, hf⟩ := hx
  rw [mergeProvide_err]
  simp only [Protects_some] at h
  obtain ⟨hmeta, h1, _⟩ := h
  subst hmeta
  have hfail := extendMap_fails_protected f _ _ x h1 hf
  rw [← hx] at hfail
  exact Option.map_ne_none_of _ _ hfail

/-! ### Hooks -/

theorem mergeHook_keeps_protected (f : String) (v : Value) (meta : Option MetaTable)
    (slot : HookSlot) (hook : Hook) (e : HookExt) (module : Module) (X : ModuleExt)
    (h : Protects f v meta (hook.slot slot)) :
    Protects f v meta ((mergeHook hook e module X).1.slot slot) := by
  rw [mergeHook_eq]
  cases slot with
  | parameters =>
    simp only [Hook.slot, Protects_some] at h
    obtain ⟨hmeta, h1, h2⟩ := h
    subst hmeta
    split
    · rw [Hook.slot, Protects_some]
      exact ⟨rfl, extendMap_keeps_protected f v _ _ _ h1 h2⟩
    · rw [Hook.slot, Protects_some]
      exact ⟨rfl, extendMap_keeps_protected f v _ _ _ h1 h2⟩
  | requires name rs =>
    split
    · exact mergeRequires_keeps_protected f v meta name rs _ _ _ e.Requires hook.Requires h
    · exact h

theorem mergeHook_fails_protected (f : String) (v : Value) (meta : Option MetaTable)
    (slot : HookSlot) (hook : Hook) (e : HookExt) (module : Module) (X : ModuleExt)
    (h : Protects f v meta (hook.slot slot))
    (hx : ∃ x, some x ∈ e.entryMaps slot ∧ f ∈ Table.keys x) :
    (mergeHook hook e module X).2 ≠ none := by
  rw [mergeHook_eq]
  cases slot with
  | parameters =>
    obtain ⟨x, hmem, hf⟩ := hx
    simp only [HookExt.entryMaps, List.mem_singleton] at hmem
    simp only [Hook.slot, Protects_some] at h
    obtain ⟨hmeta, h1, _⟩ := h
    subst hmeta
    have hfail := extendMap_fails_protected f _ _ x h1 hf
    rw [hmem] at hfail
    rw [if_neg hfail]
    exact Option.map_ne_none_of _ _ hfail
  | requires name rs =>
    split
    · exact mergeRequires_fails_protected f v meta name rs _ _ _ e.Requires hook.Requires
        h hx
    · rename_i hp
      exact Option.map_ne_none_of _ _ hp

/-! ### Modules -/

theorem andThen_keeps {α : Type} (Q : α → Prop) (r : α × Option String)
    (next : α → α × Option String) (h : Q r.1) (hnext : ∀ x, Q x → Q (next x).1) :
    Q (andThen r next).1 := by
  cases hr : r.2 with
  | none => rw [andThen_of_ok r next hr]; exact hnext _ h
  | some err => rw [andThen_of_err r next err hr]; exact h

theorem mergeHook_name (hook : Hook) (e : HookExt) (module : Module) (X : ModuleExt) :
    (mergeHook hook e module X).1.Name = hook.Name :=
  congrArg Prod.fst (mergeHook_names hook e module X)

theorem mergeModule_name (module : Module) (X : ModuleExt) :
    (mergeModule module X).1.Name = module.Name :=
  congrArg Prod.fst (mergeModule_names module X)

theorem mergeResource_name (resource : Resource) (R : ResourceExt) :
    (mergeResource resource R).1.Name = resource.Name :=
  congrArg Prod.fst (mergeResource_names resource R)

theorem mergeModuleFields_keeps_protected (f : String) (v : Value)
    (meta : Option MetaTable) (slot : ModuleSlot) (module : Module) (X : ModuleExt)
    (h : Protects f v meta (module.slot slot)) :
    Protects f v meta ((mergeModuleFields module X).1.slot slot) := by
  cases slot with
  | properties =>
    rw [Module.slot, Protects_some] at h
    obtain ⟨hmeta, h1, h2⟩ := h
    subst hmeta
    rw [Module.slot, Protects_some, mergeModuleFields_properties]
    exact ⟨rfl, extendMap_keeps_protected f v _ _ _ h1 h2⟩
  | parameters =>
    rw [Module.slot, Protects_some] at h
    obtain ⟨hmeta, h1, h2⟩ := h
    subst hmeta
    rw [Module.slot, Protects_some, mergeModuleFields_parameters]
    refine ⟨rfl, ?_⟩
    split
    · exact extendMap_keeps_protected f v _ _ _ h1 h2
    · exact ⟨h1, h2⟩
  | provides name => exact h
  | requires name rs => exact h
  | hook name hs => exact h

theorem mergeModuleProvides_keeps_protected (f : String) (v : Value)
    (meta : Option MetaTable) (slot : ModuleSlot) (module : Module) (X : ModuleExt)
    (h : Protects f v meta (module.slot slot)) :
    Protects f v meta ((mergeModuleProvides module X).1.slot slot) := by
  rw [mergeModuleProvides_eq]
  cases slot with
  | properties => exact h
  | parameters => exact h
  | provides name =>
    rw [Module.slot, Module.GetProvidesByName, Protects_map] at h ⊢
    obtain ⟨p, hp, hq⟩ := h
    exact loopByName_keeps Provides.Name ProvidesExt.Name _ _
      (fun p => Protects f v meta (some (p.Properties, p.PropertiesMetaData)))
      (fun x e => rfl)
      (fun x e hq => mergeProvide_keeps_protected f v meta x e module hq)
      name X.Provides module.Provides p hp hq
  | requires name rs => exact h
  | hook name hs => exact h

theorem mergeModuleRequires_keeps_protected (f : String) (v : Value)
    (meta : Option MetaTable) (slot : ModuleSlot) (module : Module) (X : ModuleExt)
    (h : Protects f v meta (module.slot slot)) :
    Protects f v meta ((mergeModuleRequires module X).1.slot slot) := by
  cases slot with
  | properties => exact h
  | parameters => exact h
  | provides name => exact h
  | requires name rs =>
    exact mergeRequires_keeps_protected f v meta name rs _ _ _ X.Requires module.Requires h
  | hook name hs => exact h

theorem mergeModuleHooks_keeps_protected (f : String) (v : Value)
    (meta : Option MetaTable) (slot : ModuleSlot) (module : Module) (X : ModuleExt)
    (h : Protects f v meta (module.slot slot)) :
    Protects f v meta ((mergeModuleHooks module X).1.slot slot) := by
  rw [mergeModuleHooks_eq]
  cases slot with
  | properties => exact h
  | parameters => exact h
  | provides name => exact h
  | requires name rs => exact h
  | hook name hs =>
    rw [Module.slot, Module.GetHookByName, Protects_bind] at h ⊢
    obtain ⟨p, hp, hq⟩ := h
    exact loopByName_keeps Hook.Name HookExt.Name _ _
      (fun p => Protects f v meta (p.slot hs))
      (fun x e => mergeHook_name x e module X)
      (fun x e hq => mergeHook_keeps_protected f v meta hs x e module X hq)
      name X.Hooks module.Hooks p hp hq

/-- The merge of a module entry keeps a protected entry of the module, whether it
succeeds or fails. -/
theorem mergeModule_keeps_protected (f : String) (v : Value) (meta : Option MetaTable)
    (slot : ModuleSlot) (module : Module) (X : ModuleExt)
    (h : Protects f v meta (module.slot slot)) :
    Protects f v meta ((mergeModule module X).1.slot slot) := by
  rw [mergeModule]
  exact andThen_keeps (fun m : Module => Protects f v meta (m.slot slot)) _ _
    (andThen_keeps (fun m : Module => Protects f v meta (m.slot slot)) _ _
      (andThen_keeps (fun m : Module => Protects f v meta (m.slot slot)) _ _
        (mergeModuleFields_keeps_protected f v meta slot module X h)
        (fun x hx => mergeModuleProvides_keeps_protected f v meta slot x X hx))
      (fun x hx => mergeModuleRequires_keeps_protected f v meta slot x X hx))
    (fun x hx => mergeModuleHooks_keeps_protected f v meta slot x X hx)

theorem mem_entryMaps_provides (entries : List ProvidesExt) (name : String) (x : Table) :
    some x ∈ (entries.filter (fun e => e.Name = name)).map (fun e => e.Properties) ↔
      ∃ e, e ∈ entries ∧ e.Name = name ∧ e.Properties = some x := by
  simp only [List.mem_map, List.mem_filter, decide_eq_true_eq]
  constructor
  · rintro ⟨e, ⟨hm, hn⟩, hx⟩; exact ⟨e, hm, hn, hx⟩
  · rintro ⟨e, hm, hn, hx⟩; exact ⟨e, ⟨hm, hn⟩, hx⟩

theorem mem_entryMaps_flatMap {ε : Type} (entryName : ε → String)
    (maps : ε → List GoMap) (entries : List ε) (name : String) (x : Table) :
    some x ∈ (entries.filter (fun e => entryName e = name)).flatMap maps ↔
      ∃ e, e ∈ entries ∧ entryName e = name ∧ some x ∈ maps e := by
  simp only [List.mem_flatMap, List.mem_filter, decide_eq_true_eq]
  constructor
  · rintro ⟨e, ⟨hm, hn⟩, hx⟩; exact ⟨e, hm, hn, hx⟩
  · rintro ⟨e, hm, hn, hx⟩; exact ⟨e, ⟨hm, hn⟩, hx⟩

/-- The merge of a module entry that names a protected field of the module, in the
map that holds it, fails. -/
theorem mergeModule_fails_protected (f : String) (v : Value) (meta : Option MetaTable)
    (slot : ModuleSlot) (module : Module) (X : ModuleExt)
    (h : Protects f v meta (module.slot slot))
    (hx : ∃ x, some x ∈ X.entryMaps slot ∧ f ∈ Table.keys x) :
    (mergeModule module X).2 ≠ none := by
  intro hok
  rw [mergeModule] at hok
  obtain ⟨hok3, hH⟩ := (andThen_ok_iff _ _).mp hok
  obtain ⟨hok2, hR⟩ := (andThen_ok_iff _ _).mp hok3
  obtain ⟨hF, hP⟩ := (andThen_ok_iff _ _).mp hok2
  have hP : (mergeModuleProvides (mergeModuleFields module X).1 X).2 = none := hP
  rw [andThen_of_ok _ _ hF] at hR hH
  have hR : (mergeModuleRequires
      (mergeModuleProvides (mergeModuleFields module X).1 X).1 X).2 = none := hR
  rw [andThen_of_ok _ _ hP] at hH
  have hH : (mergeModuleHooks
      (mergeModuleRequires
        (mergeModuleProvides (mergeModuleFields module X).1 X).1 X).1 X).2 = none := hH
  have h1 := mergeModuleFields_keeps_protected f v meta slot module X h
  have h2 := mergeModuleProvides_keeps_protected f v meta slot _ X h1
  have h3 := mergeModuleRequires_keeps_protected f v meta slot _ X h2
  obtain ⟨x, hmem, hf⟩ := hx
  cases slot with
  | properties =>
    simp only [ModuleExt.entryMaps, List.mem_singleton] at hmem
    rw [Module.slot, Protects_some] at h
    obtain ⟨hmeta, hden, _⟩ := h
    subst hmeta
    have hfail := extendMap_fails_protected f _ _ x hden hf
    rw [hmem] at hfail
    rw [mergeModuleFields_err, if_neg hfail] at hF
    exact Option.map_ne_none_of _ _ hfail hF
  | parameters =>
    simp only [ModuleExt.entryMaps, List.mem_singleton] at hmem
    rw [Module.slot, Protects_some] at h
    obtain ⟨hmeta, hden, _⟩ := h
    subst hmeta
    have hfail := extendMap_fails_protected f _ _ x hden hf
    rw [hmem] at hfail
    rw [mergeModuleFields_err] at hF
    by_cases hp : (extendMap module.Properties module.PropertiesMetaData
        X.Properties).2 = none
    · rw [if_pos hp, if_neg hfail] at hF
      exact Option.map_ne_none_of _ _ hfail hF
    · rw [if_neg hp] at hF
      exact Option.map_ne_none_of _ _ hp hF
  | provides name =>
    rw [mergeModuleProvides_eq] at hP
    rw [Module.slot, Module.GetProvidesByName, Protects_map] at h1
    obtain ⟨p, hp, hq⟩ := h1
    simp only [ModuleExt.entryMaps] at hmem
    rw [mem_entryMaps_provides] at hmem
    obtain ⟨e, he, hn, hmap⟩ := hmem
    exact loopByName_fails Provides.Name ProvidesExt.Name _ _
      (fun p => Protects f v meta (some (p.Properties, p.PropertiesMetaData)))
      (fun e => ∃ x, e.Properties = some x ∧ f ∈ Table.keys x)
      (fun x e => rfl)
      (fun x e hq => mergeProvide_keeps_protected f v meta x e _ hq)
      (fun x e hq hr => mergeProvide_fails_protected f v meta x e _ hq hr)
      name X.Provides _ p hp hq ⟨e, he, hn, x, hmap, hf⟩ hP
  | requires name rs =>
    exact mergeRequires_fails_protected f v meta name rs _ _ _ X.Requires _ h2
      ⟨x, hmem, hf⟩ hR
  | hook name hs =>
    rw [mergeModuleHooks_eq] at hH
    rw [Module.slot, Module.GetHookByName, Protects_bind] at h3
    obtain ⟨p, hp, hq⟩ := h3
    simp only [ModuleExt.entryMaps] at hmem
    rw [mem_entryMaps_flatMap HookExt.Name] at hmem
    obtain ⟨e, he, hn, hmap⟩ := hmem
    exact loopByName_fails Hook.Name HookExt.Name _ _
      (fun p => Protects f v meta (p.slot hs))
      (fun e => ∃ x, some x ∈ e.entryMaps hs ∧ f ∈ Table.keys x)
      (fun x e => mergeHook_name x e _ X)
      (fun x e hq => mergeHook_keeps_protected f v meta hs x e _ X hq)
      (fun x e hq hr => mergeHook_fails_protected f v meta hs x e _ X hq hr)
      name X.Hooks _ p hp hq ⟨e, he, hn, x, hmap, hf⟩ hH

/-! ### Resources -/

theorem mergeResourceFields_keeps_protected (f : String) (v : Value)
    (meta : Option MetaTable) (slot : ResourceSlot) (resource : Resource)
    (R : ResourceExt) (h : Protects f v meta (resource.slot slot)) :
    Protects f v meta ((mergeResourceFields resource R).1.slot slot) := by
  cases slot with
  | properties =>
    rw [Resource.slot, Protects_some] at h
    obtain ⟨hmeta, h1, h2⟩ := h
    subst hmeta
    rw [Resource.slot, Protects_some, mergeResourceFields_properties]
    exact ⟨rfl, extendMap_keeps_protected f v _ _ _ h1 h2⟩
  | parameters =>
    rw [Resource.slot, Protects_some] at h
    obtain ⟨hmeta, h1, h2⟩ := h
    subst hmeta
    rw [Resource.slot, Protects_some, mergeResourceFields_parameters]
    refine ⟨rfl, ?_⟩
    split
    · exact extendMap_keeps_protected f v _ _ _ h1 h2
    · exact ⟨h1, h2⟩
  | requires name rs => exact h

/-- The merge of a resource entry keeps a protected entry of the resource, whether it
succeeds or fails. -/
theorem mergeResource_keeps_protected (f : String) (v : Value) (meta : Option MetaTable)
    (slot : ResourceSlot) (resource : Resource) (R : ResourceExt)
    (h : Protects f v meta (resource.slot slot)) :
    Protects f v meta ((mergeResource resource R).1.slot slot) := by
  have hF := mergeResourceFields_keeps_protected f v meta slot resource R h
  rw [mergeResource_eq]
  split
  · cases slot with
    | properties => exact hF
    | parameters => exact hF
    | requires name rs =>
      exact mergeRequires_keeps_protected f v meta name rs _ _ _ R.Requires
        resource.Requires h
  · exact hF

/-- The merge of a resource entry that names a protected field of the resource, in
the map that holds it, fails. -/
theorem mergeResource_fails_protected (f : String) (v : Value) (meta : Option MetaTable)
    (slot : ResourceSlot) (resource : Resource) (R : ResourceExt)
    (h : Protects f v meta (resource.slot slot))
    (hx : ∃ x, some x ∈ R.entryMaps slot ∧ f ∈ Table.keys x) :
    (mergeResource resource R).2 ≠ none := by
  rw [mergeResource_eq]
  by_cases hF : (mergeResourceFields resource R).2 = none
  · rw [if_pos hF]
    obtain ⟨x, hmem, hf⟩ := hx
    cases slot with
    | properties =>
      simp only [ResourceExt.entryMaps, List.mem_singleton] at hmem
      rw [Resource.slot, Protects_some] at h
      obtain ⟨hmeta, hden, _⟩ := h
      subst hmeta
      have hfail := extendMap_fails_protected f _ _ x hden hf
      rw [hmem] at hfail
      rw [mergeResourceFields_err, if_neg hfail] at hF
      exact absurd hF (Option.map_ne_none_of _ _ hfail)
    | parameters =>
      simp only [ResourceExt.entryMaps, List.mem_singleton] at hmem
      rw [Resource.slot, Protects_some] at h
      obtain ⟨hmeta, hden, _⟩ := h
      subst hmeta
      have hfail := extendMap_fails_protected f _ _ x hden hf
      rw [hmem] at hfail
      rw [mergeResourceFields_err] at hF
      by_cases hp : (extendMap resource.Properties resource.PropertiesMetaData
          R.Properties).2 = none
      · rw [if_pos hp] at hF
        exact absurd hF (Option.map_ne_none_of _ _ hfail)
      · rw [if_neg hp] at hF
        exact absurd hF (Option.map_ne_none_of _ _ hp)
    | requires name rs =>
      exact mergeRequires_fails_protected f v meta name rs _ _ _ R.Requires
        resource.Requires h ⟨x, hmem, hf⟩
  · rw [if_neg hF]
    exact hF

/-! ### The descriptor -/

theorem mergeRootParameters_keeps_protected (f : String) (v : Value)
    (meta : Option MetaTable) (slot : MapSlot) (mtaObj : MTA) (mtaExt : EXT)
    (h : Protects f v meta (mtaObj.slot slot)) :
    Protects f v meta ((mergeRootParameters mtaObj mtaExt).1.slot slot) := by
  rw [mergeRootParameters_eq_step]
  cases slot with
  | root =>
    rw [MTA.slot, Protects_some] at h
    obtain ⟨hmeta, h1, h2⟩ := h
    subst hmeta
    rw [MTA.slot, Protects_some]
    exact ⟨rfl, extendMap_keeps_protected f v _ _ _ h1 h2⟩
  | module name ms => exact h
  | resource name rs => exact h

theorem mergeModules_keeps_protected (f : String) (v : Value) (meta : Option MetaTable)
    (slot : MapSlot) (mtaObj : MTA) (l : List ModuleExt)
    (h : Protects f v meta (mtaObj.slot slot)) :
    Protects f v meta ((mergeModules mtaObj l).1.slot slot) := by
  rw [mergeModules_eq_loop]
  cases slot with
  | root => exact h
  | module name ms =>
    rw [MTA.slot, Protects_bind] at h ⊢
    obtain ⟨p, hp, hq⟩ := h
    exact loopByName_keeps Module.Name ModuleExt.Name _ _
      (fun p => Protects f v meta (p.slot ms))
      (fun x e => mergeModule_name x e)
      (fun x e hq => mergeModule_keeps_protected f v meta ms x e hq)
      name l mtaObj.Modules p hp hq
  | resource name rs => exact h

theorem mergeResources_keeps_protected (f : String) (v : Value)
    (meta : Option MetaTable) (slot : MapSlot) (mtaObj : MTA) (l : List ResourceExt)
    (h : Protects f v meta (mtaObj.slot slot)) :
    Protects f v meta ((mergeResources mtaObj l).1.slot slot) := by
  rw [mergeResources_eq_loop]
  cases slot with
  | root => exact h
  | module name ms => exact h
  | resource name rs =>
    rw [MTA.slot, Protects_bind] at h ⊢
    obtain ⟨p, hp, hq⟩ := h
    exact loopByName_keeps Resource.Name ResourceExt.Name _ _
      (fun p => Protects f v meta (p.slot rs))
      (fun x e => mergeResource_name x e)
      (fun x e hq => mergeResource_keeps_protected f v meta rs x e hq)
      name l mtaObj.Resources p hp hq

/-- `Merge` keeps every protected entry of the descriptor, whether it succeeds or
fails. -/
theorem Merge_keeps_protected (f : String) (v : Value) (meta : Option MetaTable)
    (slot : MapSlot) (mtaObj : MTA) (mtaExt : EXT)
    (h : Protects f v meta (mtaObj.slot slot)) :
    Protects f v meta ((Merge mtaObj mtaExt).1.slot slot) := by
  have h1 := mergeRootParameters_keeps_protected f v meta slot mtaObj mtaExt h
  have h2 := mergeModules_keeps_protected f v meta slot _ mtaExt.Modules h1
  have h3 := mergeResources_keeps_protected f v meta slot _ mtaExt.Resources h2
  simp only [Merge]
  cases hr1 : (mergeRootParameters mtaObj mtaExt).2 with
  | some err => exact h1
  | none =>
    cases hr2 : (mergeModules (mergeRootParameters mtaObj mtaExt).1 mtaExt.Modules).2 with
    | some err => exact h2
    | none =>
      cases hr3 : (mergeResources
          (mergeModules (mergeRootParameters mtaObj mtaExt).1 mtaExt.Modules).1
          mtaExt.Resources).2 with
      | some err => exact h3
      | none => exact h3

/-- `Merge` fails when the extension names a protected field of the descriptor, in a
map for the slot that holds it. -/
theorem Merge_fails_protected (f : String) (v : Value) (meta : Option MetaTable)
    (slot : MapSlot) (mtaObj : MTA) (mtaExt : EXT)
    (h : Protects f v meta (mtaObj.slot slot))
    (hx : ∃ x, some x ∈ mtaExt.entryMaps slot ∧ f ∈ Table.keys x) :
    (Merge mtaObj mtaExt).2 ≠ none := by
  intro hok
  obtain ⟨hr1, hr2, hr3⟩ := Merge_ok_inv mtaObj mtaExt hok
  have h1 := mergeRootParameters_keeps_protected f v meta slot mtaObj mtaExt h
  have h2 := mergeModules_keeps_protected f v meta slot _ mtaExt.Modules h1
  obtain ⟨x, hmem, hf⟩ := hx
  cases slot with
  | root =>
    simp only [EXT.entryMaps, List.mem_singleton] at hmem
    rw [MTA.slot, Protects_some] at h
    obtain ⟨hmeta, hden, _⟩ := h
    subst hmeta
    have hfail := extendMap_fails_protected f _ _ x hden hf
    rw [hmem] at hfail
    rw [mergeRootParameters_err] at hr1
    exact Option.map_ne_none_of _ _ hfail hr1
  | module name ms =>
    rw [mergeModules_eq_loop] at hr2
    rw [MTA.slot, Protects_bind] at h1
    obtain ⟨p, hp, hq⟩ := h1
    simp only [EXT.entryMaps] at hmem
    rw [mem_entryMaps_flatMap ModuleExt.Name] at hmem
    obtain ⟨e, he, hn, hmap⟩ := hmem
    exact loopByName_fails Module.Name ModuleExt.Name _ _
      (fun p => Protects f v meta (p.slot ms))
      (fun e => ∃ x, some x ∈ e.entryMaps ms ∧ f ∈ Table.keys x)
      (fun x e => mergeModule_name x e)
      (fun x e hq => mergeModule_keeps_protected f v meta ms x e hq)
      (fun x e hq hr => mergeModule_fails_protected f v meta ms x e hq hr)
      name mtaExt.Modules _ p hp hq ⟨e, he, hn, x, hmap, hf⟩ hr2
  | resource name rs =>
    rw [mergeResources_eq_loop] at hr3
    rw [MTA.slot, Protects_bind] at h2
    obtain ⟨p, hp, hq⟩ := h2
    simp only [EXT.entryMaps] at hmem
    rw [mem_entryMaps_flatMap ResourceExt.Name] at hmem
    obtain ⟨e, he, hn, hmap⟩ := hmem
    exact loopByName_fails Resource.Name ResourceExt.Name _ _
      (fun p => Protects f v meta (p.slot rs))
      (fun e => ∃ x, some x ∈ e.entryMaps rs ∧ f ∈ Table.keys x)
      (fun x e => mergeResource_name x e)
      (fun x e hq => mergeResource_keeps_protected f v meta rs x e hq)
      (fun x e hq hr => mergeResource_fails_protected f v meta rs x e hq hr)
      name mtaExt.Resources _ p hp hq ⟨e, he, hn, x, hmap, hf⟩ hr3

/-! ## A protected field under `extendMap` and `Merge` -/

/-- C1, as amended: a field that the metadata marks non-overwritable and that holds a
value in the base map makes `extendMap` fail whenever the extension map names it, and
the entry of the field in the base map is the same after the call; the error is
`the "f" field is not overwritable` when the keys iterated before `f` merge
successfully. And hence `Merge` fails, for every map that it merges under metadata
(the root parameters, the properties and the parameters of a module, of a resource
and of a required interface of a module, a hook or a resource, the properties of a
provided interface and the parameters of a hook): when the descriptor holds the base
map at such a place and the extension gives the extension map for that place, `Merge`
returns an error and the descriptor holds, at that place, a map with the same entry
for the field; and when `Merge` comes to the merge of the two maps with no error
before it, its error is the error of `extendMap` behind the messages of the step. For
the root parameters `Merge` returns the descriptor with nothing but the root
parameters touched, and the error behind the message for the root parameters. -/
theorem extendMap_nonOverwritable_fails (m : Table) (table : MetaTable) (ext : Table)
    (f : String) (metaData : MetaData)
    (hmeta : MetaTable.find? table f = some metaData)
    (hflag : metaData.OverWritable = false)
    (hbase : (Table.index m f).isNil = false)
    (hext : f ∈ Table.keys ext) :
    ∃ t err, extendMap (some m) (some table) (some ext) = (some t, some err) ∧
      Table.find? t f = Table.find? m f ∧
      (∀ pre value post, ext = pre ++ (f, value) :: post →
        (extendMap (some m) (some table) (some pre)).2 = none →
        err = "the \"" ++ f ++ "\" field is not overwritable") ∧
      (∀ (mtaObj : MTA) (mtaExt : EXT) (slot : MapSlot),
        mtaObj.slot slot = some (some m, some table) →
        some ext ∈ mtaExt.entryMaps slot →
        (∃ e, (Merge mtaObj mtaExt).2 = some e) ∧
        ∃ t1, (Merge mtaObj mtaExt).1.slot slot = some (some t1, some table) ∧
          Table.find? t1 f = Table.find? m f) ∧
      (∀ (mtaObj : MTA) (mtaExt : EXT) (outer : String) (msg args : List String),
        MergeReaches mtaObj mtaExt outer
          (.step (.extendMap (some m) (some table) (some ext) msg args)) →
        (Merge mtaObj mtaExt).2 = some (outer ++ (Sprintf msg args ++ ": " ++ err))) ∧
      (∀ (mtaObj : MTA) (mtaExt : EXT), mtaObj.Parameters = some m →
        mtaObj.ParametersMetaData = some table → mtaExt.Parameters = some ext →
        Merge mtaObj mtaExt =
          ({ mtaObj with Parameters := some t },
            some (Wrapf err mergeRootParametersErrorMsg [mtaExt.ID]))) := by
  have hprot := isFieldOverWritable_protected f table m metaData hmeta hflag hbase
  obtain ⟨⟨err, herr⟩, hfind⟩ := extendMapLoop_protected (some table) f ext m hprot hext
  have hrun : extendMap (some m) (some table) (some ext) =
      (some (extendMapLoop m (some table) ext).1, some err) := by
    rw [extendMap_some, herr]
  refine ⟨(extendMapLoop m (some table) ext).1, err, hrun, hfind, ?_, ?_, ?_, ?_⟩
  · intro pre value post hsplit hpre
    rw [extendMap_some] at hpre
    have hpre1 : (extendMapLoop m (some table) pre).2 = none := hpre
    have hnot : f ∉ Table.keys pre := by
      intro hin
      obtain ⟨⟨e, he⟩, _⟩ := extendMapLoop_protected (some table) f pre m hprot hin
      rw [he] at hpre1
      exact Option.noConfusion hpre1
    have hstate : isFieldOverWritable f (some table)
        (some (extendMapLoop m (some table) pre).1) = false := by
      rw [isFieldOverWritable_congr f (some table) _ m
        (extendMapLoop_find?_of_not_mem (some table) pre m f hnot)]
      exact hprot
    have hloop := extendMapLoop_append (some table) pre ((f, value) :: post) m
    rw [if_pos hpre1, extendMapLoop_cons, hstate] at hloop
    rw [hsplit, hloop] at herr
    simp only [Bool.false_eq_true, if_false, Option.some.injEq] at herr
    rw [← herr, Errorf, overwriteNonOverwritableErrorMsg, Sprintf_one]
  · intro mtaObj mtaExt slot hslot hmem
    have hv : ∃ v, Table.find? m f = some v := by
      cases hfm : Table.find? m f with
      | some v => exact ⟨v, rfl⟩
      | none =>
        simp only [Table.index, hfm, Option.getD_none, Value.isNil] at hbase
        exact Bool.noConfusion hbase
    obtain ⟨v, hv⟩ := hv
    have hP : Protects f v (some table) (mtaObj.slot slot) := ⟨some m, hslot, hprot, hv⟩
    constructor
    · cases hr : (Merge mtaObj mtaExt).2 with
      | some e => exact ⟨e, rfl⟩
      | none =>
        exact absurd hr
          (Merge_fails_protected f v (some table) slot mtaObj mtaExt hP ⟨ext, hmem, hext⟩)
    · obtain ⟨m1, hslot1, hden1, hfind1⟩ :=
        Merge_keeps_protected f v (some table) slot mtaObj mtaExt hP
      obtain ⟨t1, ht1⟩ := isFieldOverWritable_false_some f (some table) m1 hden1
      subst ht1
      exact ⟨t1, hslot1, hfind1.trans hv.symm⟩
  · intro mtaObj mtaExt outer msg args hreach
    have hfail : (failurePoint.step
        (chainStep.extendMap (some m) (some table) (some ext) msg args)).failure =
        some (Sprintf msg args ++ ": " ++ err) := by
      rw [failurePoint.failure_step, hrun, Option.map_some', Wrapf_eq]
    exact MergeReaches_err mtaObj mtaExt outer _ _ hreach hfail
  · intro mtaObj mtaExt hp hmd he
    apply Merge_root_failure
    rw [hp, hmd, he, hrun]

set_option maxRecDepth 100000 in
/-- The witness of C1. The base map holds `memory`, the metadata protects it and the
extension names it after the key `disk`, which merges: `extendMap` fails with the
error that names `memory` and the entry is as before. The same two maps as the
properties of the module `web` and of its entry in the extension: `Merge` fails with
that error behind the messages for the modules and for the properties of `web`, and
the module holds the entry as before. Then each of the maps of a descriptor that
`Merge` merges under metadata, with a protected field that an extension names: the
error of `Merge` names the field, behind the messages for the place. -/
theorem extendMap_nonOverwritable_fails_witness :
    ((∃ t, extendMap (some [("memory", Value.str "256M")]) (some [("memory", ⟨false⟩)])
          (some [("disk", Value.str "1G"), ("memory", Value.str "512M")]) =
          (some t, some ("the \"" ++ "memory" ++ "\" field is not overwritable")) ∧
        Table.find? t "memory" = some (Value.str "256M")) ∧
      (∃ t1, (Merge sampleProtectedBase sampleExtMemory).1.slot
            (.module "web" .properties) =
          some (some t1, some [("memory", ⟨false⟩)]) ∧
        Table.find? t1 "memory" = some (Value.str "256M")) ∧
      (Merge sampleProtectedBase sampleExtMemory).2 =
        some (Sprintf mergeModulesErrorMsg ["ext"] ++ ": " ++
          (Sprintf mergeModulePropertiesErrorMsg ["web"] ++ ": " ++
            ("the \"" ++ "memory" ++ "\" field is not overwritable")))) ∧
    (Merge sampleProtectedBase ⟨"ext", some [("env", Value.str "dev")], [], []⟩).2 =
      some ("could not merge parameters from MTA extension with ID \"ext\": " ++
        "the \"env\" field is not overwritable") ∧
    (Merge sampleProtectedBase
      (sampleExtWith
        [⟨"web", some [("memory", Value.str "512M")], none, none, none, [], [], []⟩]
        [])).2 =
      some ("could not merge modules from MTA extension with ID \"ext\": " ++
        "could not merge the properties of the \"web\" module: " ++
        "the \"memory\" field is not overwritable") ∧
    (Merge sampleProtectedBase
      (sampleExtWith
        [⟨"web", none, some [("instances", Value.num 2)], none, none, [], [], []⟩]
        [])).2 =
      some ("could not merge modules from MTA extension with ID \"ext\": " ++
        "could not merge the parameters of the \"web\" module: " ++
        "the \"instances\" field is not overwritable") ∧
    (Merge sampleProtectedBase
      (sampleExtWith [sampleWebWith [⟨"api", some [("url", Value.str "v")]⟩] [] []]
        [])).2 =
      some ("could not merge modules from MTA extension with ID \"ext\": " ++
        "could not merge the properties of the \"api\" provides in the \"web\" module: " ++
        "the \"url\" field is not overwritable") ∧
    (Merge sampleProtectedBase
      (sampleExtWith [sampleWebWith [] [sampleDbProperty "pool" (Value.num 9)] []]
        [])).2 =
      some ("could not merge modules from MTA extension with ID \"ext\": " ++
        "could not merge the properties of the \"db\" requires in the \"web\" module: " ++
        "the \"pool\" field is not overwritable") ∧
    (Merge sampleProtectedBase
      (sampleExtWith [sampleWebWith [] [sampleDbParameter "mode" (Value.str "ro")] []]
        [])).2 =
      some ("could not merge modules from MTA extension with ID \"ext\": " ++
        "could not merge the parameters of the \"db\" requires in the \"web\" module: " ++
        "the \"mode\" field is not overwritable") ∧
    (Merge sampleProtectedBase
      (sampleExtWith
        [sampleWebWith [] [] [⟨"start", some [("timeout", Value.num 60)], []⟩]] [])).2 =
      some ("could not merge modules from MTA extension with ID \"ext\": " ++
        "could not merge the parameters of the \"start\" hook in the \"web\" module: " ++
        "the \"timeout\" field is not overwritable") ∧
    (Merge sampleProtectedBase
      (sampleExtWith
        [sampleWebWith [] [] [⟨"start", none, [sampleDbProperty "pool" (Value.num 9)]⟩]]
        [])).2 =
      some ("could not merge modules from MTA extension with ID \"ext\": " ++
        "could not merge the properties of the \"db\" requires in the \"start\" hook " ++
        "of the \"web\" module: the \"pool\" field is not overwritable") ∧
    (Merge sampleProtectedBase
      (sampleExtWith
        [sampleWebWith [] []
          [⟨"start", none, [sampleDbParameter "mode" (Value.str "ro")]⟩]]
        [])).2 =
      some ("could not merge modules from MTA extension with ID \"ext\": " ++
        "could not merge the parameters of the \"db\" requires in the \"start\" hook " ++
        "of the \"web\" module: the \"mode\" field is not overwritable") ∧
    (Merge sampleProtectedBase
      (sampleExtWith [] [⟨"db", true, some [("host", Value.str "y")], none, []⟩])).2 =
      some ("could not merge resources from MTA extension with ID \"ext\": " ++
        "could not merge the properties of the \"db\" resource: " ++
        "the \"host\" field is not overwritable") ∧
    (Merge sampleProtectedBase
      (sampleExtWith [] [⟨"db", true, none, some [("size", Value.num 2)], []⟩])).2 =
      some ("could not merge resources from MTA extension with ID \"ext\": " ++
        "could not merge the parameters of the \"db\" resource: " ++
        "the \"size\" field is not overwritable") ∧
    (Merge sampleProtectedBase
      (sampleExtWith []
        [⟨"db", true, none, none, [sampleDbProperty "pool" (Value.num 9)]⟩])).2 =
      some ("could not merge resources from MTA extension with ID \"ext\": " ++
        "could not merge the properties of the \"db\" requires in the \"db\" resource: " ++
        "the \"pool\" field is not overwritable") ∧
    (Merge sampleProtectedBase
      (sampleExtWith []
        [⟨"db", true, none, none, [sampleDbParameter "mode" (Value.str "ro")]⟩])).2 =
      some ("could not merge resources from MTA extension with ID \"ext\": " ++
        "could not merge the parameters of the \"db\" requires in the \"db\" resource: " ++
        "the \"mode\" field is not overwritable") :=
  ⟨by
      obtain ⟨t, err, h1, h2, h3, h4, h5, _⟩ :=
        extendMap_nonOverwritable_fails [("memory", Value.str "256M")]
          [("memory", ⟨false⟩)]
          [("disk", Value.str "1G"), ("memory", Value.str "512M")] "memory" ⟨false⟩
          (by decide) rfl (by decide) (by decide)
      have herr := h3 [("disk", Value.str "1G")] (Value.str "512M") [] rfl (by decide)
      subst herr
      refine ⟨⟨t, h1, h2⟩, ?_, ?_⟩
      · exact (h4 sampleProtectedBase sampleExtMemory (.module "web" .properties) rfl
          (List.Mem.head _)).2
      · exact h5 sampleProtectedBase sampleExtMemory _ _ _
          (MergeReaches.modules _ rfl
            (LoopReaches.here _ _ [] sampleProtectedWeb _ rfl ModuleReaches.properties)),
    by decide, by decide, by decide, by decide, by decide, by decide, by decide,
    by decide, by decide, by decide, by decide, by decide, by decide⟩

end mta
